import Mathlib

/-!
# Verification of the klondike solver core

A shallow embedding of the Klondike Solitaire solver (crates `klondike-solver`
and the common board/pile/helper modules) together with proofs about its
move generator, talon enumerator, heuristic, fingerprint and apply/undo engine.

Cards, piles and moves are translated directly from the Rust sources:
* `CardExt` from `klondike-solver/src/card.rs`
* `Pile` from `src/solver/pile.rs` (the `first: i8` field with `-1` meaning
  "no face-up card" is modelled as `Option Nat`; pile contents are the list of
  cards bottom-to-top, mirroring the `cards` array restricted to `0..size`)
* `Move`, `MoveIndex`, `MoveNode` from `klondike-solver/src/move_.rs`
* `TalonHelper`, `Estimate`, `StateMap` from `src/solver/helper.rs`
* `Solver` from `klondike-solver/src/solver.rs`
* `Board` from `src/board.rs`
-/

namespace Klondike

/-! ## Constants (src/board.rs) -/

def TOTAL_FOUNDATIONS : Nat := 4
def TOTAL_TABLEAUS : Nat := 7
def TALON_SIZE : Nat := 24
def MAX_RANK : Nat := 13
def MAX_SUIT : Nat := 4
def MAX_CARD : Nat := MAX_SUIT * MAX_RANK

/-! ## CardExt (klondike-solver/src/card.rs) -/

/-- Extended card representation with precomputed derived fields. -/
structure CardExt where
  id : Nat
  id2 : Nat
  suit : Nat
  rank : Nat
  is_red : Nat
  is_even : Nat
  red_even : Nat
  order : Nat
deriving DecidableEq, Repr

namespace CardExt

/-- `CardExt::UNKNOWN` -/
def UNKNOWN : CardExt :=
  { id := MAX_CARD, id2 := 0, suit := MAX_SUIT, rank := MAX_RANK
    is_even := 1, is_red := 2, red_even := 2, order := 0 }

/-- `CardExt::new_with_id` -/
def new_with_id (id : Nat) : CardExt :=
  if id ≥ MAX_CARD then UNKNOWN
  else
    let rank := id % MAX_RANK
    let suit := id / MAX_RANK
    { id := id
      id2 := (rank <<< 2) ||| suit
      suit := suit
      rank := rank
      is_red := suit &&& 1
      is_even := rank &&& 1
      red_even := (suit &&& 1) ^^^ (rank &&& 1)
      order := suit >>> 1 }

/-- `CardExt::new_with_rank_suit` -/
def new_with_rank_suit (rank suit : Nat) : CardExt :=
  new_with_id (suit * MAX_RANK + rank)

/-- `CardExt::is_unknown` -/
def is_unknown (c : CardExt) : Bool := c.id ≥ MAX_CARD

/-- `CardExt::is_king` -/
def is_king (c : CardExt) : Bool := c.rank == MAX_RANK - 1

instance : Inhabited CardExt := ⟨UNKNOWN⟩

end CardExt

/-! ## Pile (src/solver/pile.rs)

The Rust pile is a fixed array of `TALON_SIZE` cards together with `size` and
the face-up boundary `first: i8` (`-1` = no face-up card).  We model the live
prefix `cards[0..size]` as a list (bottom of the pile first) and `first` as
`Option Nat`.  Cells above `size` (stale in Rust) read as `UNKNOWN` here. -/

structure Pile where
  cards : List CardExt
  first : Option Nat
deriving DecidableEq, Repr

namespace Pile

instance : Inhabited Pile := ⟨⟨[], none⟩⟩

def size (p : Pile) : Nat := p.cards.length

/-- `Pile::reset` -/
def reset : Pile := ⟨[], none⟩

/-- `Pile::set_face_up_count`: `first = size - count` (negative = none). -/
def set_face_up_count (p : Pile) (count : Nat) : Pile :=
  { p with first := if count ≤ p.cards.length then some (p.cards.length - count) else none }

/-- `Pile::push_card` -/
def push_card (p : Pile) (c : CardExt) : Pile :=
  { p with cards := p.cards ++ [c] }

/-- `Pile::pop_card_to` (Rust panics on an empty source; model: no-op). -/
def pop_card_to (p dst : Pile) : Pile × Pile :=
  match p.cards.getLast? with
  | some c => ({ p with cards := p.cards.dropLast }, dst.push_card c)
  | none => (p, dst)

/-- `Pile::move_n_cards_to`: bulk move of the top `count` cards, preserving order. -/
def move_n_cards_to (p dst : Pile) (count : Nat) : Pile × Pile :=
  ({ p with cards := p.cards.take (p.cards.length - count) },
   { dst with cards := dst.cards ++ p.cards.drop (p.cards.length - count) })

/-- `Pile::move_n_cards_reversed_to`: bulk move of the top `count` cards,
reversing their order in the destination. -/
def move_n_cards_reversed_to (p dst : Pile) (count : Nat) : Pile × Pile :=
  ({ p with cards := p.cards.take (p.cards.length - count) },
   { dst with cards := dst.cards ++ (p.cards.drop (p.cards.length - count)).reverse })

/-- `Pile::get` -/
def get (p : Pile) (index : Nat) : CardExt := p.cards.getD index CardExt.UNKNOWN

/-- `Pile::peek_top` -/
def peek_top (p : Pile) : CardExt :=
  if p.cards.length > 0 then p.cards.getD (p.cards.length - 1) CardExt.UNKNOWN
  else CardExt.UNKNOWN

/-- `Pile::peek_top_unchecked` (reads the cell below `size`; empty pile = UB in
Rust, modelled as `UNKNOWN`). -/
def peek_top_unchecked (p : Pile) : CardExt := p.cards.getD (p.cards.length - 1) CardExt.UNKNOWN

/-- `Pile::peek_first_face_up` -/
def peek_first_face_up (p : Pile) : CardExt :=
  match p.first with
  | some f => if p.cards.length > 0 then p.cards.getD f CardExt.UNKNOWN else CardExt.UNKNOWN
  | none => CardExt.UNKNOWN

/-- `Pile::peek_first_face_up_unchecked` -/
def peek_first_face_up_unchecked (p : Pile) : CardExt :=
  match p.first with
  | some f => p.cards.getD f CardExt.UNKNOWN
  | none => CardExt.UNKNOWN

/-- `Pile::peek_nth_from_top_unchecked` -/
def peek_nth_from_top_unchecked (p : Pile) (offset : Nat) : CardExt :=
  p.cards.getD (p.cards.length - offset - 1) CardExt.UNKNOWN

/-- `Pile::face_up_count` -/
def face_up_count (p : Pile) : Nat :=
  match p.first with
  | some f => p.cards.length - f
  | none => 0

end Pile

/-! ## Pile transfer round-trip lemmas -/

/-- Transferring `n` cards reversed and transferring them reversed back
restores both piles. -/
theorem Pile.rev_transfer_inverse (a b : Pile) (n : Nat) (hn : n ≤ a.size) :
    (Pile.move_n_cards_reversed_to
        (a.move_n_cards_reversed_to b n).2
        (a.move_n_cards_reversed_to b n).1 n) =
      ((b, a) : Pile × Pile) := by
  obtain ⟨ac, af⟩ := a
  obtain ⟨bc, bf⟩ := b
  have hn' : n ≤ ac.length := hn
  simp only [Pile.move_n_cards_reversed_to]
  have hdrop : (ac.drop (ac.length - n)).length = n := by
    rw [List.length_drop]; omega
  have hlen : (bc ++ (ac.drop (ac.length - n)).reverse).length - n = bc.length := by
    rw [List.length_append, List.length_reverse, hdrop]; omega
  rw [hlen]
  simp only [Prod.mk.injEq, Pile.mk.injEq]
  refine ⟨⟨List.take_left bc _, trivial⟩, ?_, trivial⟩
  rw [List.drop_left, List.reverse_reverse, List.take_append_drop]

/-- Transferring `n` cards in order and transferring them in order back
restores both piles. -/
theorem Pile.ord_transfer_inverse (a b : Pile) (n : Nat) (hn : n ≤ a.size) :
    (Pile.move_n_cards_to
        (a.move_n_cards_to b n).2
        (a.move_n_cards_to b n).1 n) =
      ((b, a) : Pile × Pile) := by
  obtain ⟨ac, af⟩ := a
  obtain ⟨bc, bf⟩ := b
  have hn' : n ≤ ac.length := hn
  simp only [Pile.move_n_cards_to]
  have hdrop : (ac.drop (ac.length - n)).length = n := by
    rw [List.length_drop]; omega
  have hlen : (bc ++ ac.drop (ac.length - n)).length - n = bc.length := by
    rw [List.length_append, hdrop]; omega
  rw [hlen]
  simp only [Prod.mk.injEq, Pile.mk.injEq]
  refine ⟨⟨List.take_left bc _, trivial⟩, ?_, trivial⟩
  rw [List.drop_left, List.take_append_drop]

/-- Popping a card and popping it back restores both piles. -/
theorem Pile.pop_inverse (a b : Pile) (ha : a.cards ≠ []) :
    (Pile.pop_card_to (a.pop_card_to b).2 (a.pop_card_to b).1) = ((b, a) : Pile × Pile) := by
  obtain ⟨ac, af⟩ := a
  obtain ⟨bc, bf⟩ := b
  have hc : ac ≠ [] := ha
  simp only [Pile.pop_card_to, Pile.push_card]
  rw [List.getLast?_eq_getLast _ hc]
  simp only
  rw [List.getLast?_concat]
  simp only [Prod.mk.injEq, Pile.mk.injEq]
  refine ⟨⟨?_, trivial⟩, ⟨?_, trivial⟩⟩
  · exact List.dropLast_concat
  · exact List.dropLast_append_getLast hc

/-! ## C10: the reversed bulk transfer is self-inverse -/

/-- C10: for piles `a`, `b` and `n ≤ a.size` with room in `b`, moving `n`
cards reversed from `a` to `b` and then `n` cards reversed back restores both
piles exactly (`move_n_cards_reversed_to` is self-inverse). -/
theorem C10_move_n_cards_reversed_roundtrip (a b : Pile) (n : Nat)
    (hn : n ≤ a.size) (_hcap : b.size + n ≤ TALON_SIZE) :
    (Pile.move_n_cards_reversed_to
        (a.move_n_cards_reversed_to b n).2
        (a.move_n_cards_reversed_to b n).1 n) =
      ((b, a) : Pile × Pile) :=
  Pile.rev_transfer_inverse a b n hn

/-- Witness for C10 at a concrete input. -/
theorem C10_move_n_cards_reversed_roundtrip_witness :
    (Pile.move_n_cards_reversed_to
        ((Pile.mk [CardExt.new_with_id 0, CardExt.new_with_id 1] none).move_n_cards_reversed_to
          (Pile.mk [CardExt.new_with_id 5] none) 2).2
        ((Pile.mk [CardExt.new_with_id 0, CardExt.new_with_id 1] none).move_n_cards_reversed_to
          (Pile.mk [CardExt.new_with_id 5] none) 2).1 2) =
      ((Pile.mk [CardExt.new_with_id 5] none,
        Pile.mk [CardExt.new_with_id 0, CardExt.new_with_id 1] none) : Pile × Pile) :=
  C10_move_n_cards_reversed_roundtrip
    (Pile.mk [CardExt.new_with_id 0, CardExt.new_with_id 1] none)
    (Pile.mk [CardExt.new_with_id 5] none) 2 (by decide) (by decide)

/-! ## Move (klondike-solver/src/move_.rs)

The Rust `Move` packs `(from, to, count, flip)` into two bytes
(`value1 = from | to << 4`, `value2 = count | flip << 7`); every call site
constructs moves with `from, to < 16` and `count < 128` and reads them back
through the accessors, so we model the unpacked record directly (`from`/`to`
are Lean keywords, hence the field names `src`/`dst`). -/

structure Move where
  src : Nat
  dst : Nat
  cnt : Nat
  flip : Bool
deriving DecidableEq, Repr

namespace Move

instance : Inhabited Move := ⟨⟨0, 0, 0, false⟩⟩

/-- `Move::default()` (the NULL move). -/
def default : Move := ⟨0, 0, 0, false⟩

/-- `Move::is_null` (`value1 == 0`, i.e. `from = to = 0`). -/
def is_null (m : Move) : Bool := m.src == 0 && m.dst == 0

end Move

/-! ## TalonHelper (src/solver/helper.rs)

`TalonHelper::calculate` walks the stock and waste and produces the parallel
arrays `stock_waste[i]` / `cards_drawn[i]`; we return the list of pairs.
The four phases of the Rust function are modelled by position-list walks;
`stock_used` is exactly the set of positions emitted by the phase-2 walk.
`draw_count` is always 1 or 3 (`Board::draw_count`); the `d = 0` guards below
only serve termination and are never reached from the solver. -/

/-- Positions visited by the phase-2 stock walk: from `i` downward in steps of
`d` while nonnegative. -/
def talonStockPositions (d : Nat) (i : Int) : List Int :=
  if i < 0 ∨ d = 0 then []
  else i :: talonStockPositions d (i - d)
termination_by (i + 1).toNat
decreasing_by
  rename_i h
  push_neg at h
  omega

/-- Positions visited by the phase-3 waste walk: from `pw` upward in steps of
`d` while strictly below `bound`. -/
def talonWastePositions (d : Nat) (pw bound : Int) : List Int :=
  if pw ≥ bound ∨ d = 0 then []
  else pw :: talonWastePositions d (pw + d) bound
termination_by (bound - pw).toNat
decreasing_by
  rename_i h
  push_neg at h
  omega

/-- The phase-4 stock walk after a redeal: from `i` downward in steps of `d`
while strictly positive, stopping at the first position already used by the
phase-2 walk. -/
def talonStockWalk2 (stock_pile : Pile) (used : List Int) (d : Nat) (amount i : Int) :
    List (CardExt × Int) :=
  if i ≤ 0 ∨ d = 0 then []
  else if i ∈ used then []
  else (stock_pile.get i.toNat, i - amount) :: talonStockWalk2 stock_pile used d amount (i - d)
termination_by i.toNat
decreasing_by
  rename_i h _
  push_neg at h
  omega

/-- Phase 1 ("Check waste"): the current waste top, reachable with 0 draws. -/
def talonPhase1 (waste_pile : Pile) : List (CardExt × Int) :=
  if waste_pile.size > 0 then [(waste_pile.peek_top_unchecked, 0)] else []

/-- The starting position of the phase-2 stock walk
(`position = stock_size - draw_count`, clamped to `0`, or `-1` on empty stock). -/
def talonPosition (draw_count : Nat) (stock_pile : Pile) : Int :=
  if (stock_pile.size : Int) - draw_count < 0 then (if stock_pile.size > 0 then 0 else -1)
  else (stock_pile.size : Int) - draw_count

/-- The positions marked `stock_used` by phase 2. -/
def talonStockPos (draw_count : Nat) (stock_pile : Pile) : List Int :=
  talonStockPositions draw_count (talonPosition draw_count stock_pile)

/-- Phase 2 ("cards waiting to be turned over from stock"). -/
def talonPhase2 (draw_count : Nat) (stock_pile : Pile) : List (CardExt × Int) :=
  (talonStockPos draw_count stock_pile).map
    fun i => (stock_pile.get i.toNat, (stock_pile.size : Int) - i)

/-- The positions of the phase-3 waste walk. -/
def talonWastePos (draw_count : Nat) (waste_pile : Pile) : List Int :=
  talonWastePositions draw_count ((draw_count : Int) - 1) ((waste_pile.size : Int) - 1)

/-- Phase 3 ("cards already turned over in the waste", reached via a redeal). -/
def talonPhase3 (draw_count : Nat) (waste_pile stock_pile : Pile) : List (CardExt × Int) :=
  (talonWastePos draw_count waste_pile).map
    fun pw => (waste_pile.get pw.toNat, -((stock_pile.size : Int) + 1) - pw)

/-- The value of `position_waste` after the phase-3 loop. -/
def talonPositionWaste (draw_count : Nat) (waste_pile : Pile) : Int :=
  ((draw_count : Int) - 1) + draw_count * (talonWastePos draw_count waste_pile).length

/-- Phase 4 ("cards in stock after a redeal"). -/
def talonPhase4 (draw_count : Nat) (waste_pile stock_pile : Pile) : List (CardExt × Int) :=
  if talonPositionWaste draw_count waste_pile > (waste_pile.size : Int) - 1 ∧
      (waste_pile.size : Int) - 1 ≥ 0 then
    talonStockWalk2 stock_pile (talonStockPos draw_count stock_pile) draw_count
      (((stock_pile.size : Int) + 1) + stock_pile.size + ((waste_pile.size : Int) - 1))
      ((stock_pile.size : Int) - talonPositionWaste draw_count waste_pile +
        ((waste_pile.size : Int) - 1))
  else []

/-- `TalonHelper::calculate`: enumerate every distinct card that can become
the waste top, with the (signed) number of draws needed. -/
def TalonHelper.calculate (draw_count : Nat) (waste_pile stock_pile : Pile) :
    List (CardExt × Int) :=
  talonPhase1 waste_pile ++ talonPhase2 draw_count stock_pile ++
    talonPhase3 draw_count waste_pile stock_pile ++ talonPhase4 draw_count waste_pile stock_pile

/-! ## C6: the talon enumeration prefix -/

/-- The stock positions described by the spec, §4.3 step 2: `stock_size −
draw_count, stock_size − 2·draw_count, …` while nonnegative, and position 0
alone when `0 < stock_size < draw_count`. -/
def specStockPositions (stock_size d : Nat) : List Nat :=
  if stock_size < d then (if 0 < stock_size then [0] else [])
  else (List.range (stock_size / d)).map fun k => stock_size - (k + 1) * d

/-- The talon prefix described by C6: the waste top with `cards_drawn = 0` if
the waste is non-empty, then the spec stock positions, each with
`cards_drawn = stock_size − position`. -/
def specTalonPrefix (d : Nat) (waste_pile stock_pile : Pile) : List (CardExt × Int) :=
  (if waste_pile.size > 0 then [(waste_pile.peek_top, 0)] else []) ++
    (specStockPositions stock_pile.size d).map
      fun p => (stock_pile.get p, ((stock_pile.size : Int) - p))

theorem talonStockPositions_natCast (d : Nat) (hd : 1 ≤ d) (j : Nat) :
    talonStockPositions d (j : Int) =
      (List.range (j / d + 1)).map fun t => ((j - t * d : Nat) : Int) := by
  induction j using Nat.strong_induction_on with
  | _ j ih =>
    rw [talonStockPositions]
    rw [if_neg (by push_neg; omega)]
    by_cases hjd : j < d
    · rw [talonStockPositions, if_pos (by left; omega)]
      rw [Nat.div_eq_of_lt hjd]
      simp [List.range_succ]
    · push_neg at hjd
      have hcast : (j : Int) - d = ((j - d : Nat) : Int) := by omega
      rw [hcast, ih (j - d) (by omega)]
      have hdiv : j / d = (j - d) / d + 1 := by
        rw [Nat.div_eq_sub_div (by omega) hjd]
      rw [hdiv, List.range_succ_eq_map ((j - d) / d + 1), List.map_cons, List.map_map]
      congr 1
      · simp
      · apply List.map_congr_left
        intro t _
        simp only [Function.comp_apply]
        have hmul : Nat.succ t * d = t * d + d := Nat.succ_mul t d
        rw [hmul]
        congr 1
        omega

theorem talonPhase2_eq_spec (d : Nat) (hd : 1 ≤ d) (stock_pile : Pile) :
    talonPhase2 d stock_pile =
      (specStockPositions stock_pile.size d).map
        (fun p => (stock_pile.get p, ((stock_pile.size : Int) - p))) := by
  unfold talonPhase2 talonStockPos talonPosition specStockPositions
  rcases Nat.eq_zero_or_pos stock_pile.size with hz | hpos
  · rw [hz]
    rw [if_pos (by omega), if_neg (by omega), if_pos (by omega), if_neg (by omega)]
    rw [talonStockPositions, if_pos (by left; decide)]
    rfl
  · by_cases hlt : stock_pile.size < d
    · rw [if_pos (by omega), if_pos hpos, if_pos hlt, if_pos hpos]
      rw [talonStockPositions, if_neg (by push_neg; omega)]
      rw [talonStockPositions, if_pos (by left; omega)]
      rfl
    · push_neg at hlt
      rw [if_neg (by omega), if_neg (by omega)]
      have hcast : (stock_pile.size : Int) - d = ((stock_pile.size - d : Nat) : Int) := by
        omega
      rw [hcast, talonStockPositions_natCast d hd]
      have hdiv : (stock_pile.size - d) / d + 1 = stock_pile.size / d := by
        rw [Nat.div_eq_sub_div (by omega) hlt]
      rw [hdiv, List.map_map, List.map_map]
      apply List.map_congr_left
      intro k hk
      have hbound : (k + 1) * d ≤ stock_pile.size := by
        rw [List.mem_range] at hk
        calc (k + 1) * d ≤ (stock_pile.size / d) * d := Nat.mul_le_mul_right _ (by omega)
          _ ≤ stock_pile.size := Nat.div_mul_le_self _ _
      have hmul : (k + 1) * d = k * d + d := by ring
      rw [hmul] at hbound
      simp only [Function.comp_apply, Int.toNat_natCast, Prod.mk.injEq, hmul]
      refine ⟨?_, ?_⟩
      · congr 1
        omega
      · omega

/-- C6: for every `draw_count ≥ 1`, the output of `TalonHelper::calculate`
begins with the current waste top (`cards_drawn = 0`) when the waste is
non-empty, followed by the stock cards at positions `stock_size − draw_count,
stock_size − 2·draw_count, …` (including position 0 when
`0 < stock_size < draw_count`), each with `cards_drawn = stock_size − position`. -/
theorem C6_calculate_prefix (draw_count : Nat) (waste_pile stock_pile : Pile)
    (hd : 1 ≤ draw_count) :
    ∃ rest, TalonHelper.calculate draw_count waste_pile stock_pile =
      specTalonPrefix draw_count waste_pile stock_pile ++ rest := by
  refine ⟨talonPhase3 draw_count waste_pile stock_pile ++
    talonPhase4 draw_count waste_pile stock_pile, ?_⟩
  have h1 : talonPhase1 waste_pile =
      (if waste_pile.size > 0 then [(waste_pile.peek_top, 0)] else []) := by
    unfold talonPhase1 Pile.peek_top Pile.peek_top_unchecked Pile.size
    by_cases hw : waste_pile.cards.length > 0
    · rw [if_pos hw, if_pos hw, if_pos hw]
    · rw [if_neg hw, if_neg hw]
  unfold TalonHelper.calculate specTalonPrefix
  rw [h1, talonPhase2_eq_spec draw_count hd stock_pile, List.append_assoc]

/-- Witness for C6 at a concrete input (draw 3, stock of five cards, waste of
two cards). -/
theorem C6_calculate_prefix_witness :
    ∃ rest, TalonHelper.calculate 3
        (Pile.mk [CardExt.new_with_id 20, CardExt.new_with_id 21] none)
        (Pile.mk [CardExt.new_with_id 1, CardExt.new_with_id 2, CardExt.new_with_id 3,
          CardExt.new_with_id 4, CardExt.new_with_id 5] none) =
      specTalonPrefix 3
        (Pile.mk [CardExt.new_with_id 20, CardExt.new_with_id 21] none)
        (Pile.mk [CardExt.new_with_id 1, CardExt.new_with_id 2, CardExt.new_with_id 3,
          CardExt.new_with_id 4, CardExt.new_with_id 5] none) ++ rest :=
  C6_calculate_prefix 3
    (Pile.mk [CardExt.new_with_id 20, CardExt.new_with_id 21] none)
    (Pile.mk [CardExt.new_with_id 1, CardExt.new_with_id 2, CardExt.new_with_id 3,
      CardExt.new_with_id 4, CardExt.new_with_id 5] none) (by decide)

/-! ## Solver state (klondike-solver/src/solver.rs)

Pile indices: 0 = stock, 1 = waste, 2–5 = foundations, 6–12 = tableaus.
`piles` is modelled as a total function `Nat → Pile` (indices ≥ 13 are never
touched by the engine).  `draw_count` stores the value of
`Solver::draw_count()`, i.e. `initial_board.draw_count()` (always 1 or 3). -/

def PILE_STOCK : Nat := 0
def PILE_WASTE : Nat := 1
def PILE_FOUNDATION_START : Nat := 2
def PILE_FOUNDATION_END : Nat := 5
def PILE_TABLEAU_START : Nat := 6
def PILE_TABLEAU_END : Nat := 12

/-- `(PILE_FOUNDATION_START..=PILE_FOUNDATION_END).contains(&i)` -/
def isFoundation (i : Nat) : Prop := PILE_FOUNDATION_START ≤ i ∧ i ≤ PILE_FOUNDATION_END

/-- `(PILE_TABLEAU_START..=PILE_TABLEAU_END).contains(&i)` -/
def isTableau (i : Nat) : Prop := PILE_TABLEAU_START ≤ i ∧ i ≤ PILE_TABLEAU_END

instance (i : Nat) : Decidable (isFoundation i) := by unfold isFoundation; infer_instance

instance (i : Nat) : Decidable (isTableau i) := by unfold isTableau; infer_instance

structure Solver where
  piles : Nat → Pile
  suits_to_foundations : Nat → Nat
  foundation_score : Nat
  foundation_minimum : Nat
  last_move : Move
  /-- The move history `moves[0..moves_total]`, most recent first. -/
  moves : List Move
  round_count : Nat
  draw_count : Nat

/-- `Solver::get_mut_piles` followed by a two-pile operation: apply `op` to
piles `i` and `j` and write both results back (callers always have `i ≠ j`;
Rust's `split_at_mut` panics otherwise). -/
def movePilePair (ps : Nat → Pile) (i j : Nat) (op : Pile → Pile → Pile × Pile) :
    Nat → Pile :=
  Function.update (Function.update ps i (op (ps i) (ps j)).1) j (op (ps i) (ps j)).2

/-- The stock/waste phase of `Solver::make_move`: draw (`!flip`) or
redeal-then-draw (`flip`).  The Rust code computes
`size = stock + waste − count` as an `isize` and branches on `size ≥ 1`; with
natural numbers this is the branch `count < stock + waste`, moving
`stock + waste − count` cards waste→stock, else `count − (stock + waste)`
cards stock→waste. -/
def Solver.makePhaseDraw (s : Solver) (m : Move) : Solver :=
  if m.src = PILE_WASTE ∧ m.cnt ≠ 0 then
    if !m.flip then
      let ps := movePilePair s.piles PILE_STOCK PILE_WASTE
        (fun a b => a.move_n_cards_reversed_to b m.cnt)
      { s with piles := ps }
    else
      let s := { s with round_count := s.round_count + 1 }
      if m.cnt < (s.piles PILE_STOCK).size + (s.piles PILE_WASTE).size then
        let ps := movePilePair s.piles PILE_WASTE PILE_STOCK
          (fun a b => a.move_n_cards_reversed_to b
            ((s.piles PILE_STOCK).size + (s.piles PILE_WASTE).size - m.cnt))
        { s with piles := ps }
      else
        let ps := movePilePair s.piles PILE_STOCK PILE_WASTE
          (fun a b => a.move_n_cards_reversed_to b
            (m.cnt - ((s.piles PILE_STOCK).size + (s.piles PILE_WASTE).size)))
        { s with piles := ps }
  else s

/-- The single-card / bulk phase of `Solver::make_move`, with the
`foundation_score` update. -/
def Solver.makePhaseMove (s : Solver) (m : Move) : Solver :=
  if m.src = PILE_WASTE ∨ m.cnt = 1 then
    let ps := movePilePair s.piles m.src m.dst (fun a b => a.pop_card_to b)
    let s := { s with piles := ps }
    if isFoundation m.dst then
      { s with foundation_score := s.foundation_score + 1 }
    else if isFoundation m.src then
      { s with foundation_score := s.foundation_score - 1 }
    else s
  else
    let ps := movePilePair s.piles m.src m.dst (fun a b => a.move_n_cards_to b m.cnt)
    { s with piles := ps }

/-- The flip phase of `Solver::make_move`: a flipped tableau source keeps one
face-up card. -/
def Solver.makePhaseFlip (s : Solver) (m : Move) : Solver :=
  if m.flip ∧ isTableau m.src then
    let ps := Function.update s.piles m.src ((s.piles m.src).set_face_up_count 1)
    { s with piles := ps }
  else s

/-- `Solver::make_move` -/
def Solver.make_move (s : Solver) (m : Move) : Solver :=
  Solver.makePhaseFlip
    (Solver.makePhaseMove
      (Solver.makePhaseDraw { s with moves := m :: s.moves, last_move := m } m) m) m

/-- Inverse of the single-card / bulk phase (`Solver::undo_move`). -/
def Solver.undoPhaseMove (s : Solver) (m : Move) : Solver :=
  if m.src = PILE_WASTE ∨ m.cnt = 1 then
    let ps := movePilePair s.piles m.dst m.src (fun a b => a.pop_card_to b)
    let s := { s with piles := ps }
    if isFoundation m.dst then
      { s with foundation_score := s.foundation_score - 1 }
    else if isFoundation m.src then
      { s with foundation_score := s.foundation_score + 1 }
    else s
  else
    let ps := movePilePair s.piles m.dst m.src (fun a b => a.move_n_cards_to b m.cnt)
    { s with piles := ps }

/-- Inverse of the flip phase (`Solver::undo_move`): restore the face-up count
to `count`. -/
def Solver.undoPhaseFlip (s : Solver) (m : Move) : Solver :=
  if m.flip ∧ isTableau m.src then
    let ps := Function.update s.piles m.src ((s.piles m.src).set_face_up_count m.cnt)
    { s with piles := ps }
  else s

/-- Inverse of the stock/waste phase (`Solver::undo_move`), with the same
natural-number rendering of the `isize` branch as `makePhaseDraw`. -/
def Solver.undoPhaseDraw (s : Solver) (m : Move) : Solver :=
  if m.src = PILE_WASTE ∧ m.cnt ≠ 0 then
    if !m.flip then
      let ps := movePilePair s.piles PILE_WASTE PILE_STOCK
        (fun a b => a.move_n_cards_reversed_to b m.cnt)
      { s with piles := ps }
    else
      let s := { s with round_count := s.round_count - 1 }
      if m.cnt < (s.piles PILE_STOCK).size + (s.piles PILE_WASTE).size then
        let ps := movePilePair s.piles PILE_STOCK PILE_WASTE
          (fun a b => a.move_n_cards_reversed_to b
            ((s.piles PILE_STOCK).size + (s.piles PILE_WASTE).size - m.cnt))
        { s with piles := ps }
      else
        let ps := movePilePair s.piles PILE_WASTE PILE_STOCK
          (fun a b => a.move_n_cards_reversed_to b
            (m.cnt - ((s.piles PILE_STOCK).size + (s.piles PILE_WASTE).size)))
        { s with piles := ps }
  else s

/-- `Solver::undo_move` (Rust decrements `moves_total`; an empty history is a
usage error there and a no-op here).  The phases run in the reverse order of
`make_move`: bulk/single first, then the flip, then the stock/waste inverse. -/
def Solver.undo_move (s : Solver) : Solver :=
  match s.moves with
  | [] => s
  | m :: rest =>
    Solver.undoPhaseDraw
      (Solver.undoPhaseFlip
        (Solver.undoPhaseMove
          { s with moves := rest, last_move := rest.headD Move.default } m) m) m

/-! ### Round-trip lemmas for the engine phases -/

theorem movePilePair_left {ps : Nat → Pile} {i j : Nat} (hij : i ≠ j)
    (op : Pile → Pile → Pile × Pile) :
    movePilePair ps i j op i = (op (ps i) (ps j)).1 := by
  unfold movePilePair
  rw [Function.update_noteq hij, Function.update_same]

theorem movePilePair_right (ps : Nat → Pile) (i j : Nat)
    (op : Pile → Pile → Pile × Pile) :
    movePilePair ps i j op j = (op (ps i) (ps j)).2 := by
  unfold movePilePair
  rw [Function.update_same]

theorem movePilePair_other {ps : Nat → Pile} {i j k : Nat} (hki : k ≠ i) (hkj : k ≠ j)
    (op : Pile → Pile → Pile × Pile) :
    movePilePair ps i j op k = ps k := by
  unfold movePilePair
  rw [Function.update_noteq hkj, Function.update_noteq hki]

theorem movePilePair_inverse {ps : Nat → Pile} {i j : Nat} (hij : i ≠ j)
    {op op' : Pile → Pile → Pile × Pile}
    (hinv : op' (op (ps i) (ps j)).2 (op (ps i) (ps j)).1 = (ps j, ps i)) :
    movePilePair (movePilePair ps i j op) j i op' = ps := by
  funext k
  by_cases hki : k = i
  · subst hki
    rw [movePilePair_right, movePilePair_right, movePilePair_left hij, hinv]
  · by_cases hkj : k = j
    · subst hkj
      rw [movePilePair_left (Ne.symm hij), movePilePair_right, movePilePair_left hij, hinv]
    · rw [movePilePair_other hkj hki, movePilePair_other hki hkj]

theorem movePilePair_flip_inverse {ps : Nat → Pile} {i j : Nat} (hij : i ≠ j)
    {op op' : Pile → Pile → Pile × Pile} {f g : Pile → Pile}
    (h1 : (op' (op (ps i) (ps j)).2 (f (op (ps i) (ps j)).1)).1 = ps j)
    (h2 : g (op' (op (ps i) (ps j)).2 (f (op (ps i) (ps j)).1)).2 = ps i) :
    Function.update
      (movePilePair (Function.update (movePilePair ps i j op) i
          (f (movePilePair ps i j op i))) j i op')
      i (g (movePilePair (Function.update (movePilePair ps i j op) i
          (f (movePilePair ps i j op i))) j i op' i)) = ps := by
  have hq1i : Function.update (movePilePair ps i j op) i (f (movePilePair ps i j op i)) i
      = f (op (ps i) (ps j)).1 := by
    rw [Function.update_same, movePilePair_left hij]
  have hq1j : Function.update (movePilePair ps i j op) i (f (movePilePair ps i j op i)) j
      = (op (ps i) (ps j)).2 := by
    rw [Function.update_noteq (Ne.symm hij), movePilePair_right]
  funext k
  by_cases hki : k = i
  · subst hki
    rw [Function.update_same, movePilePair_right, hq1i, hq1j, h2]
  · rw [Function.update_noteq hki]
    by_cases hkj : k = j
    · subst hkj
      rw [movePilePair_left (Ne.symm hij), hq1i, hq1j, h1]
    · rw [movePilePair_other hkj hki, Function.update_noteq hki,
        movePilePair_other hki hkj]

theorem Pile.pop_from_push (b x : Pile) (c : CardExt) :
    (Pile.pop_card_to (b.push_card c) x) = (b, x.push_card c) := by
  obtain ⟨bc, bf⟩ := b
  simp only [Pile.pop_card_to, Pile.push_card]
  rw [List.getLast?_concat]
  simp [List.dropLast_concat]

theorem Pile.size_rev_fst (a b : Pile) (n : Nat) :
    ((a.move_n_cards_reversed_to b n).1).size = a.size - n := by
  simp [Pile.move_n_cards_reversed_to, Pile.size]

theorem Pile.size_rev_snd (a b : Pile) (n : Nat) (hn : n ≤ a.size) :
    ((a.move_n_cards_reversed_to b n).2).size = b.size + n := by
  have hn' : n ≤ a.cards.length := hn
  simp only [Pile.move_n_cards_reversed_to, Pile.size, List.length_append,
    List.length_reverse, List.length_drop]
  omega

/-- The draw / redeal phase is undone exactly by its inverse phase. -/
theorem undoPhaseDraw_makePhaseDraw (s : Solver) (m : Move)
    (h1 : m.src = PILE_WASTE → m.cnt ≠ 0 → m.flip = false →
      m.cnt ≤ (s.piles PILE_STOCK).size)
    (h2 : m.src = PILE_WASTE → m.cnt ≠ 0 → m.flip = true →
      (s.piles PILE_STOCK).size ≤ m.cnt ∧
        m.cnt ≤ 2 * (s.piles PILE_STOCK).size + (s.piles PILE_WASTE).size) :
    Solver.undoPhaseDraw (s.makePhaseDraw m) m = s := by
  by_cases hA : m.src = PILE_WASTE ∧ m.cnt ≠ 0
  case neg => simp [Solver.makePhaseDraw, Solver.undoPhaseDraw, hA]
  rcases hf : m.flip with _ | _
  · -- plain draw
    have hle := h1 hA.1 hA.2 hf
    have hinv := @movePilePair_inverse s.piles PILE_STOCK PILE_WASTE (by decide)
      (fun a b => a.move_n_cards_reversed_to b m.cnt)
      (fun a b => a.move_n_cards_reversed_to b m.cnt)
      (Pile.rev_transfer_inverse (s.piles PILE_STOCK) (s.piles PILE_WASTE) m.cnt hle)
    simp [Solver.makePhaseDraw, Solver.undoPhaseDraw, hA, hf, hinv]
  · -- redeal-then-draw
    obtain ⟨hstock, hcnt⟩ := h2 hA.1 hA.2 hf
    by_cases hge : m.cnt < (s.piles PILE_STOCK).size + (s.piles PILE_WASTE).size
    · have hnle : (s.piles PILE_STOCK).size + (s.piles PILE_WASTE).size - m.cnt ≤
          (s.piles PILE_WASTE).size := by omega
      have hinv := @movePilePair_inverse s.piles PILE_WASTE PILE_STOCK (by decide)
        (fun a b => a.move_n_cards_reversed_to b
          ((s.piles PILE_STOCK).size + (s.piles PILE_WASTE).size - m.cnt))
        (fun a b => a.move_n_cards_reversed_to b
          ((s.piles PILE_STOCK).size + (s.piles PILE_WASTE).size - m.cnt))
        (Pile.rev_transfer_inverse (s.piles PILE_WASTE) (s.piles PILE_STOCK) _ hnle)
      have hqs : movePilePair s.piles PILE_WASTE PILE_STOCK
          (fun a b => a.move_n_cards_reversed_to b
            ((s.piles PILE_STOCK).size + (s.piles PILE_WASTE).size - m.cnt)) PILE_WASTE =
          ((s.piles PILE_WASTE).move_n_cards_reversed_to (s.piles PILE_STOCK)
            ((s.piles PILE_STOCK).size + (s.piles PILE_WASTE).size - m.cnt)).1 :=
        movePilePair_left (by decide) _
      have hc2 : m.cnt < (s.piles PILE_STOCK).size +
          ((s.piles PILE_STOCK).size + (s.piles PILE_WASTE).size - m.cnt) +
          ((s.piles PILE_WASTE).size -
            ((s.piles PILE_STOCK).size + (s.piles PILE_WASTE).size - m.cnt)) := by omega
      have harith : (s.piles PILE_STOCK).size +
          ((s.piles PILE_STOCK).size + (s.piles PILE_WASTE).size - m.cnt) +
          ((s.piles PILE_WASTE).size -
            ((s.piles PILE_STOCK).size + (s.piles PILE_WASTE).size - m.cnt)) - m.cnt =
          (s.piles PILE_STOCK).size + (s.piles PILE_WASTE).size - m.cnt := by omega
      simp [Solver.makePhaseDraw, Solver.undoPhaseDraw, hA, hf, hge, hqs,
        movePilePair_right, Pile.size_rev_fst,
        Pile.size_rev_snd _ _ _ hnle, hc2, harith, hinv]
    · have hnle : m.cnt - ((s.piles PILE_STOCK).size + (s.piles PILE_WASTE).size) ≤
          (s.piles PILE_STOCK).size := by omega
      have hinv := @movePilePair_inverse s.piles PILE_STOCK PILE_WASTE (by decide)
        (fun a b => a.move_n_cards_reversed_to b
          (m.cnt - ((s.piles PILE_STOCK).size + (s.piles PILE_WASTE).size)))
        (fun a b => a.move_n_cards_reversed_to b
          (m.cnt - ((s.piles PILE_STOCK).size + (s.piles PILE_WASTE).size)))
        (Pile.rev_transfer_inverse (s.piles PILE_STOCK) (s.piles PILE_WASTE) _ hnle)
      have hqs : movePilePair s.piles PILE_STOCK PILE_WASTE
          (fun a b => a.move_n_cards_reversed_to b
            (m.cnt - ((s.piles PILE_STOCK).size + (s.piles PILE_WASTE).size))) PILE_STOCK =
          ((s.piles PILE_STOCK).move_n_cards_reversed_to (s.piles PILE_WASTE)
            (m.cnt - ((s.piles PILE_STOCK).size + (s.piles PILE_WASTE).size))).1 :=
        movePilePair_left (by decide) _
      have hc2 : ¬ (m.cnt < (s.piles PILE_STOCK).size -
          (m.cnt - ((s.piles PILE_STOCK).size + (s.piles PILE_WASTE).size)) +
          ((s.piles PILE_WASTE).size +
            (m.cnt - ((s.piles PILE_STOCK).size + (s.piles PILE_WASTE).size)))) := by omega
      have harith : m.cnt - ((s.piles PILE_STOCK).size -
          (m.cnt - ((s.piles PILE_STOCK).size + (s.piles PILE_WASTE).size)) +
          ((s.piles PILE_WASTE).size +
            (m.cnt - ((s.piles PILE_STOCK).size + (s.piles PILE_WASTE).size)))) =
          m.cnt - ((s.piles PILE_STOCK).size + (s.piles PILE_WASTE).size) := by omega
      simp [Solver.makePhaseDraw, Solver.undoPhaseDraw, hA, hf, hge, hqs,
        movePilePair_right, Pile.size_rev_fst,
        Pile.size_rev_snd _ _ _ hnle, hc2, harith, hinv]

theorem Pile.pop_spec (a b : Pile) (ha : a.cards ≠ []) :
    a.pop_card_to b =
      ({ a with cards := a.cards.dropLast }, b.push_card (a.cards.getLast ha)) := by
  simp [Pile.pop_card_to, List.getLast?_eq_getLast _ ha]

theorem Pile.pop_flip_h1 (a b : Pile) (ha : a.cards ≠ []) :
    ((a.pop_card_to b).2.pop_card_to ((a.pop_card_to b).1.set_face_up_count 1)).1 = b := by
  rw [Pile.pop_spec a b ha]
  rw [Pile.pop_from_push]

theorem Pile.pop_flip_h2 (a b : Pile) (cnt : Nat) (ha : a.cards ≠ [])
    (hfi : a.first = some (a.size - cnt)) (hcnt : cnt ≤ a.size) :
    (((a.pop_card_to b).2.pop_card_to
        ((a.pop_card_to b).1.set_face_up_count 1)).2).set_face_up_count cnt = a := by
  rw [Pile.pop_spec a b ha]
  rw [Pile.pop_from_push]
  obtain ⟨ac, af⟩ := a
  simp only [Pile.set_face_up_count, Pile.push_card] at *
  have hlen : (ac.dropLast ++ [ac.getLast ha]).length = ac.length := by
    rw [List.dropLast_append_getLast ha]
  rw [Pile.mk.injEq]
  have hcnt2 : cnt ≤ ac.length := hcnt
  constructor
  · exact List.dropLast_append_getLast ha
  · rw [hlen, if_pos hcnt2, hfi]
    rfl

theorem Pile.bulk_flip_h1 (a b : Pile) (cnt : Nat) (hcnt : cnt ≤ a.size) :
    ((a.move_n_cards_to b cnt).2.move_n_cards_to
        ((a.move_n_cards_to b cnt).1.set_face_up_count 1) cnt).1 = b := by
  obtain ⟨ac, af⟩ := a
  obtain ⟨bc, bf⟩ := b
  have hcnt' : cnt ≤ ac.length := hcnt
  simp only [Pile.move_n_cards_to, Pile.set_face_up_count]
  have hdrop : (ac.drop (ac.length - cnt)).length = cnt := by
    rw [List.length_drop]; omega
  have hlen : (bc ++ ac.drop (ac.length - cnt)).length - cnt = bc.length := by
    rw [List.length_append, hdrop]; omega
  rw [hlen]
  rw [Pile.mk.injEq]
  exact ⟨List.take_left bc _, rfl⟩

theorem Pile.bulk_flip_h2 (a b : Pile) (cnt : Nat) (hcnt : cnt ≤ a.size)
    (hfi : a.first = some (a.size - cnt)) :
    (((a.move_n_cards_to b cnt).2.move_n_cards_to
        ((a.move_n_cards_to b cnt).1.set_face_up_count 1) cnt).2).set_face_up_count cnt
      = a := by
  obtain ⟨ac, af⟩ := a
  obtain ⟨bc, bf⟩ := b
  have hcnt' : cnt ≤ ac.length := hcnt
  simp only [Pile.move_n_cards_to, Pile.set_face_up_count, Pile.size] at *
  have hdrop : (ac.drop (ac.length - cnt)).length = cnt := by
    rw [List.length_drop]; omega
  have hlen : (bc ++ ac.drop (ac.length - cnt)).length - cnt = bc.length := by
    rw [List.length_append, hdrop]; omega
  rw [hlen, List.drop_left, List.take_append_drop]
  rw [Pile.mk.injEq]
  exact ⟨rfl, by rw [if_pos hcnt', hfi]⟩

/-- The single/bulk phase followed by the flip phase is undone exactly by the
inverse phases (the undo runs the bulk inverse first, then restores the
face-up boundary to `count`). -/
theorem undoFlip_undoMove_make (s : Solver) (m : Move)
    (hij : m.src ≠ m.dst)
    (hpop : m.src = PILE_WASTE ∨ m.cnt = 1 → (s.piles m.src).cards ≠ [])
    (hbulk : ¬(m.src = PILE_WASTE ∨ m.cnt = 1) → m.cnt ≤ (s.piles m.src).size)
    (hscore : (m.src = PILE_WASTE ∨ m.cnt = 1) → isFoundation m.src →
      ¬isFoundation m.dst → 1 ≤ s.foundation_score)
    (hflip : m.flip = true → isTableau m.src →
      (s.piles m.src).first = some ((s.piles m.src).size - m.cnt) ∧
        m.cnt ≤ (s.piles m.src).size) :
    Solver.undoPhaseFlip (Solver.undoPhaseMove
      (Solver.makePhaseFlip (Solver.makePhaseMove s m) m) m) m = s := by
  by_cases hFl : m.flip = true ∧ isTableau m.src
  · -- flip of a tableau source
    obtain ⟨hfi, hcnt⟩ := hflip hFl.1 hFl.2
    have hsrcW : ¬ m.src = PILE_WASTE := by
      have := hFl.2.1
      simp only [PILE_TABLEAU_START] at this
      simp only [PILE_WASTE]
      omega
    by_cases hP : m.src = PILE_WASTE ∨ m.cnt = 1
    · -- single-card move
      have hne := hpop hP
      have hinv := @movePilePair_flip_inverse s.piles m.src m.dst hij
        (fun a b => a.pop_card_to b) (fun a b => a.pop_card_to b)
        (fun p => p.set_face_up_count 1) (fun p => p.set_face_up_count m.cnt)
        (Pile.pop_flip_h1 (s.piles m.src) (s.piles m.dst) hne)
        (Pile.pop_flip_h2 (s.piles m.src) (s.piles m.dst) m.cnt hne hfi hcnt)
      by_cases hD : isFoundation m.dst
      · simp [Solver.makePhaseMove, Solver.makePhaseFlip, Solver.undoPhaseMove,
          Solver.undoPhaseFlip, hP, hFl, hD, hinv]
      · have hS : ¬ isFoundation m.src := by
          have := hFl.2.1
          simp only [PILE_TABLEAU_START] at this
          simp only [isFoundation, PILE_FOUNDATION_START, PILE_FOUNDATION_END]
          omega
        simp [Solver.makePhaseMove, Solver.makePhaseFlip, Solver.undoPhaseMove,
          Solver.undoPhaseFlip, hP, hFl, hD, hS, hinv]
    · -- bulk move
      have hble := hbulk hP
      have hinv := @movePilePair_flip_inverse s.piles m.src m.dst hij
        (fun a b => a.move_n_cards_to b m.cnt)
        (fun a b => a.move_n_cards_to b m.cnt)
        (fun p => p.set_face_up_count 1) (fun p => p.set_face_up_count m.cnt)
        (Pile.bulk_flip_h1 (s.piles m.src) (s.piles m.dst) m.cnt hble)
        (Pile.bulk_flip_h2 (s.piles m.src) (s.piles m.dst) m.cnt hble hfi)
      simp [Solver.makePhaseMove, Solver.makePhaseFlip, Solver.undoPhaseMove,
        Solver.undoPhaseFlip, hP, hFl, hinv]
  · -- no flip of the source
    by_cases hP : m.src = PILE_WASTE ∨ m.cnt = 1
    · have hne := hpop hP
      have hinv := @movePilePair_inverse s.piles m.src m.dst hij
        (fun a b => a.pop_card_to b) (fun a b => a.pop_card_to b)
        (Pile.pop_inverse (s.piles m.src) (s.piles m.dst) hne)
      by_cases hD : isFoundation m.dst
      · simp [Solver.makePhaseMove, Solver.makePhaseFlip, Solver.undoPhaseMove,
          Solver.undoPhaseFlip, hP, hFl, hD, hinv]
      · by_cases hS : isFoundation m.src
        · have harith : s.foundation_score - 1 + 1 = s.foundation_score := by
            have := hscore hP hS hD
            omega
          simp [Solver.makePhaseMove, Solver.makePhaseFlip, Solver.undoPhaseMove,
            Solver.undoPhaseFlip, hP, hFl, hD, hS, hinv, harith]
        · simp [Solver.makePhaseMove, Solver.makePhaseFlip, Solver.undoPhaseMove,
            Solver.undoPhaseFlip, hP, hFl, hD, hS, hinv]
    · have hble := hbulk hP
      have hinv := @movePilePair_inverse s.piles m.src m.dst hij
        (fun a b => a.move_n_cards_to b m.cnt)
        (fun a b => a.move_n_cards_to b m.cnt)
        (Pile.ord_transfer_inverse (s.piles m.src) (s.piles m.dst) m.cnt hble)
      simp [Solver.makePhaseMove, Solver.makePhaseFlip, Solver.undoPhaseMove,
        Solver.undoPhaseFlip, hP, hFl, hinv]

theorem makePhaseDraw_moves (s : Solver) (m : Move) :
    (Solver.makePhaseDraw s m).moves = s.moves := by
  unfold Solver.makePhaseDraw
  dsimp only
  split_ifs <;> rfl

theorem makePhaseMove_moves (s : Solver) (m : Move) :
    (Solver.makePhaseMove s m).moves = s.moves := by
  unfold Solver.makePhaseMove
  dsimp only
  split_ifs <;> rfl

theorem makePhaseFlip_moves (s : Solver) (m : Move) :
    (Solver.makePhaseFlip s m).moves = s.moves := by
  unfold Solver.makePhaseFlip
  dsimp only
  split_ifs <;> rfl

theorem undoPhaseMove_comm (s : Solver) (m : Move) (l : List Move) (lm : Move) :
    Solver.undoPhaseMove { s with moves := l, last_move := lm } m =
      { Solver.undoPhaseMove s m with moves := l, last_move := lm } := by
  unfold Solver.undoPhaseMove
  dsimp only
  split_ifs <;> rfl

theorem undoPhaseFlip_comm (s : Solver) (m : Move) (l : List Move) (lm : Move) :
    Solver.undoPhaseFlip { s with moves := l, last_move := lm } m =
      { Solver.undoPhaseFlip s m with moves := l, last_move := lm } := by
  unfold Solver.undoPhaseFlip
  dsimp only
  split_ifs <;> rfl

theorem undoPhaseDraw_comm (s : Solver) (m : Move) (l : List Move) (lm : Move) :
    Solver.undoPhaseDraw { s with moves := l, last_move := lm } m =
      { Solver.undoPhaseDraw s m with moves := l, last_move := lm } := by
  unfold Solver.undoPhaseDraw
  dsimp only
  split_ifs <;> rfl

theorem Solver.undo_move_cons (s : Solver) (m : Move) (rest : List Move)
    (h : s.moves = m :: rest) :
    s.undo_move =
      Solver.undoPhaseDraw
        (Solver.undoPhaseFlip
          (Solver.undoPhaseMove
            { s with moves := rest, last_move := rest.headD Move.default } m) m) m := by
  unfold Solver.undo_move
  rw [h]

/-- The plain-draw branch of `makePhaseDraw`. -/
theorem makePhaseDraw_plain (s : Solver) (m : Move) (hsrc : m.src = PILE_WASTE)
    (hc : m.cnt ≠ 0) (hf : m.flip = false) :
    Solver.makePhaseDraw s m = { s with piles := movePilePair s.piles PILE_STOCK PILE_WASTE (fun a b => a.move_n_cards_reversed_to b m.cnt) } := by
  simp [Solver.makePhaseDraw, hsrc, hc, hf]

/-- The redeal branch of `makePhaseDraw` when part of the waste returns to the
stock. -/
theorem makePhaseDraw_flip_lt (s : Solver) (m : Move) (hsrc : m.src = PILE_WASTE)
    (hc : m.cnt ≠ 0) (hf : m.flip = true)
    (hge : m.cnt < (s.piles PILE_STOCK).size + (s.piles PILE_WASTE).size) :
    Solver.makePhaseDraw s m = { s with round_count := s.round_count + 1, piles := movePilePair s.piles PILE_WASTE PILE_STOCK (fun a b => a.move_n_cards_reversed_to b ((s.piles PILE_STOCK).size + (s.piles PILE_WASTE).size - m.cnt)) } := by
  simp [Solver.makePhaseDraw, hsrc, hc, hf, hge]

/-- The redeal branch of `makePhaseDraw` when the whole waste plus part of the
stock ends in the waste. -/
theorem makePhaseDraw_flip_ge (s : Solver) (m : Move) (hsrc : m.src = PILE_WASTE)
    (hc : m.cnt ≠ 0) (hf : m.flip = true)
    (hge : ¬ m.cnt < (s.piles PILE_STOCK).size + (s.piles PILE_WASTE).size) :
    Solver.makePhaseDraw s m = { s with round_count := s.round_count + 1, piles := movePilePair s.piles PILE_STOCK PILE_WASTE (fun a b => a.move_n_cards_reversed_to b (m.cnt - ((s.piles PILE_STOCK).size + (s.piles PILE_WASTE).size))) } := by
  simp [Solver.makePhaseDraw, hsrc, hc, hf, hge]

/-- After the draw phase of a waste move, the waste pile is non-empty. -/
theorem waste_nonempty_after_draw (s : Solver) (m : Move) (hsrc : m.src = PILE_WASTE)
    (hw0 : m.cnt = 0 → 1 ≤ (s.piles PILE_WASTE).size)
    (h1 : m.cnt ≠ 0 → m.flip = false → m.cnt ≤ (s.piles PILE_STOCK).size)
    (h2 : m.cnt ≠ 0 → m.flip = true →
      (s.piles PILE_STOCK).size < m.cnt ∧
        m.cnt ≤ 2 * (s.piles PILE_STOCK).size + (s.piles PILE_WASTE).size) :
    ((Solver.makePhaseDraw s m).piles PILE_WASTE).cards ≠ [] := by
  have hne_of_size : ∀ (p : Pile) (k : Nat), p.size = k → 1 ≤ k → p.cards ≠ [] := by
    intro p k hk h1k hnil
    rw [Pile.size, hnil] at hk
    simp at hk
    omega
  by_cases hc : m.cnt = 0
  · have hid : Solver.makePhaseDraw s m = s := by
      simp [Solver.makePhaseDraw, hc]
    rw [hid]
    exact hne_of_size _ _ rfl (hw0 hc)
  · rcases hf : m.flip with _ | _
    · have hle := h1 hc hf
      rw [makePhaseDraw_plain s m hsrc hc hf]
      dsimp only
      rw [movePilePair_right]
      exact hne_of_size _ _ (Pile.size_rev_snd _ _ _ hle) (by omega)
    · obtain ⟨hstock, hcnt⟩ := h2 hc hf
      by_cases hge : m.cnt < (s.piles PILE_STOCK).size + (s.piles PILE_WASTE).size
      · rw [makePhaseDraw_flip_lt s m hsrc hc hf hge]
        dsimp only
        rw [movePilePair_left (by decide)]
        exact hne_of_size _ _ (Pile.size_rev_fst _ _ _) (by omega)
      · rw [makePhaseDraw_flip_ge s m hsrc hc hf hge]
        dsimp only
        rw [movePilePair_right]
        exact hne_of_size _ _ (Pile.size_rev_snd _ _ _ (by omega)) (by omega)

/-- The conditions under which `make_move` runs without Rust-side panics or
counter underflow; every move produced by `compute_possible_moves` on a
reachable state satisfies them. -/
def Solver.can_apply (s : Solver) (m : Move) : Prop :=
  m.src ≠ m.dst ∧
  (m.src = PILE_WASTE → m.cnt ≠ 0 → m.flip = false → m.cnt ≤ (s.piles PILE_STOCK).size) ∧
  (m.src = PILE_WASTE → m.cnt ≠ 0 → m.flip = true →
    (s.piles PILE_STOCK).size < m.cnt ∧
      m.cnt ≤ 2 * (s.piles PILE_STOCK).size + (s.piles PILE_WASTE).size) ∧
  (m.src = PILE_WASTE → m.cnt = 0 → 1 ≤ (s.piles PILE_WASTE).size) ∧
  (m.src ≠ PILE_WASTE → m.cnt = 1 → 1 ≤ (s.piles m.src).size) ∧
  (m.src ≠ PILE_WASTE → m.cnt ≠ 1 → m.cnt ≤ (s.piles m.src).size) ∧
  ((m.src = PILE_WASTE ∨ m.cnt = 1) → isFoundation m.src → ¬isFoundation m.dst →
    1 ≤ s.foundation_score) ∧
  (m.flip = true → isTableau m.src →
    (s.piles m.src).first = some ((s.piles m.src).size - m.cnt) ∧
      m.cnt ≤ (s.piles m.src).size)

/-- A solver state whose `last_move` agrees with the move history (as
maintained by `reset`, `make_move` and `undo_move`). -/
def Solver.history_consistent (s : Solver) : Prop :=
  s.last_move = s.moves.headD Move.default

/-- C1: `make_move` followed by `undo_move` restores the solver state exactly
(piles, `foundation_score`, `round_count`, `last_move`, and the history). -/
theorem C1_make_undo_roundtrip (s : Solver) (m : Move)
    (hhist : s.history_consistent) (h : s.can_apply m) :
    (s.make_move m).undo_move = s := by
  obtain ⟨hij, hd1, hd2, hw0, hp1, hb, hsc, hfl⟩ := h
  have hmv : (s.make_move m).moves = m :: s.moves := by
    unfold Solver.make_move
    rw [makePhaseFlip_moves, makePhaseMove_moves, makePhaseDraw_moves]
  rw [Solver.undo_move_cons _ m s.moves hmv]
  rw [undoPhaseMove_comm, undoPhaseFlip_comm, undoPhaseDraw_comm]
  unfold Solver.make_move
  -- the state make's phases start from
  have hsand := undoFlip_undoMove_make
    (Solver.makePhaseDraw { s with moves := m :: s.moves, last_move := m } m) m hij
    (fun hP => by
      by_cases hsrc : m.src = PILE_WASTE
      · rw [hsrc]
        exact waste_nonempty_after_draw _ m hsrc (hw0 hsrc) (hd1 hsrc) (hd2 hsrc)
      · have hone : m.cnt = 1 := hP.resolve_left hsrc
        have hmk : Solver.makePhaseDraw { s with moves := m :: s.moves, last_move := m } m
            = { s with moves := m :: s.moves, last_move := m } := by
          simp [Solver.makePhaseDraw, hsrc]
        rw [hmk]
        dsimp only
        have h1le := hp1 hsrc hone
        intro hnil
        rw [Pile.size, hnil] at h1le
        simp at h1le)
    (fun hP => by
      have hsrc : m.src ≠ PILE_WASTE := fun hc => hP (Or.inl hc)
      have hcnt : m.cnt ≠ 1 := fun hc => hP (Or.inr hc)
      have hmk : Solver.makePhaseDraw { s with moves := m :: s.moves, last_move := m } m
          = { s with moves := m :: s.moves, last_move := m } := by
        simp [Solver.makePhaseDraw, hsrc]
      rw [hmk]
      exact hb hsrc hcnt)
    (fun hP hS hD => by
      have hsrc : m.src ≠ PILE_WASTE := by
        intro hc
        rw [hc] at hS
        exact absurd hS (by decide)
      have hmk : Solver.makePhaseDraw { s with moves := m :: s.moves, last_move := m } m
          = { s with moves := m :: s.moves, last_move := m } := by
        simp [Solver.makePhaseDraw, hsrc]
      rw [hmk]
      exact hsc hP hS hD)
    (fun hf ht => by
      have hsrc : m.src ≠ PILE_WASTE := by
        intro hc
        rw [hc] at ht
        exact absurd ht (by decide)
      have hmk : Solver.makePhaseDraw { s with moves := m :: s.moves, last_move := m } m
          = { s with moves := m :: s.moves, last_move := m } := by
        simp [Solver.makePhaseDraw, hsrc]
      rw [hmk]
      exact hfl hf ht)
  rw [hsand]
  have hdraw := undoPhaseDraw_makePhaseDraw
    { s with moves := m :: s.moves, last_move := m } m
    (fun ha hb' hc => hd1 ha hb' hc)
    (fun ha hb' hc => ⟨Nat.le_of_lt (hd2 ha hb' hc).1, (hd2 ha hb' hc).2⟩)
  rw [hdraw]
  have hlast : s.moves.headD Move.default = s.last_move := hhist.symm
  rw [hlast]

instance (s : Solver) : Decidable s.history_consistent := by
  unfold Solver.history_consistent; infer_instance

instance (s : Solver) (m : Move) : Decidable (s.can_apply m) := by
  unfold Solver.can_apply
  exact @instDecidableAnd _ _ inferInstance (@instDecidableAnd _ _ inferInstance
    (@instDecidableAnd _ _ inferInstance (@instDecidableAnd _ _ inferInstance
      (@instDecidableAnd _ _ inferInstance (@instDecidableAnd _ _ inferInstance
        (@instDecidableAnd _ _ inferInstance inferInstance))))))

/-- A small concrete state: a single face-up ace on tableau 6, empty piles
elsewhere. -/
def c1WitnessState : Solver :=
  { piles := fun i => if i = 6 then ⟨[CardExt.new_with_id 0], some 0⟩ else Pile.reset
    suits_to_foundations := fun _ => 2
    foundation_score := 0
    foundation_minimum := 0
    last_move := Move.default
    moves := []
    round_count := 1
    draw_count := 1 }

/-- Witness for C1: the tableau→foundation move `(6, 2, 1, no flip)` applied
to the concrete state round-trips. -/
theorem C1_make_undo_roundtrip_witness :
    (c1WitnessState.make_move ⟨6, 2, 1, false⟩).undo_move = c1WitnessState :=
  C1_make_undo_roundtrip c1WitnessState ⟨6, 2, 1, false⟩ (by decide) (by decide)

/-! ## Heuristic: `Solver::minimum_moves_remaining` -/

/-- The tableau indices `PILE_TABLEAU_START..=PILE_TABLEAU_END`. -/
def TABLEAU_IDXS : List Nat := [6, 7, 8, 9, 10, 11, 12]

/-- The waste suit-minimum scan of `minimum_moves_remaining`: walk the cards
bottom-to-top, tracking the minimum rank per suit; each card whose rank is not
below the current minimum adds one move.  `mins` starts at `u8::MAX = 255`. -/
def suitScanWaste (cards : List CardExt) (mins : Nat → Nat) : Nat :=
  match cards with
  | [] => 0
  | c :: rest =>
    if c.rank < mins c.suit then suitScanWaste rest (Function.update mins c.suit c.rank)
    else 1 + suitScanWaste rest mins

/-- The tableau suit-minimum scan of `minimum_moves_remaining`: the minimum is
only tracked below the face-up boundary (`j < first`), and the scan stops at
the first extra move at or above the boundary (`j ≥ first`). -/
def tableauScan (first : Option Nat) (cards : List CardExt) (j : Nat)
    (mins : Nat → Nat) : Nat :=
  match cards with
  | [] => 0
  | c :: rest =>
    if c.rank < mins c.suit then
      match first with
      | some f =>
        if j < f then tableauScan first rest (j + 1) (Function.update mins c.suit c.rank)
        else tableauScan first rest (j + 1) mins
      | none => tableauScan first rest (j + 1) mins
    else
      match first with
      | some f => if j ≥ f then 1 else 1 + tableauScan first rest (j + 1) mins
      | none => 1 + tableauScan first rest (j + 1) mins

/-- `Solver::minimum_moves_remaining` (`num as u8` is the final `% 256`).
`stock_size.div_ceil(draw_count)` is `(stock_size + draw_count - 1) / draw_count`. -/
def Solver.minimum_moves_remaining (s : Solver) (is_last_round : Bool) : Nat :=
  let waste_pile := s.piles PILE_WASTE
  let waste_size := waste_pile.size
  let stock_size := (s.piles PILE_STOCK).size
  let draw_count := s.draw_count
  let num := stock_size + (stock_size + draw_count - 1) / draw_count + waste_size
  let num := if draw_count = 1 ∨ is_last_round = true then
    num + suitScanWaste waste_pile.cards (fun _ => 255) else num
  let num := TABLEAU_IDXS.foldl
    (fun n i => n + (s.piles i).size +
      tableauScan (s.piles i).first (s.piles i).cards 0 (fun _ => 255)) num
  num % 256

theorem suitScanWaste_le (cards : List CardExt) :
    ∀ mins : Nat → Nat, suitScanWaste cards mins ≤ cards.length := by
  induction cards with
  | nil => intro mins; simp [suitScanWaste]
  | cons c rest ih =>
    intro mins
    rw [suitScanWaste]
    split_ifs
    · exact Nat.le_trans (ih _) (by simp)
    · have := ih mins
      simp only [List.length_cons]
      omega

theorem tableauScan_le (cards : List CardExt) :
    ∀ (first : Option Nat) (j : Nat) (mins : Nat → Nat),
      tableauScan first cards j mins ≤ cards.length := by
  induction cards with
  | nil => intro first j mins; simp [tableauScan]
  | cons c rest ih =>
    intro first j mins
    rw [tableauScan.eq_def]
    dsimp only
    by_cases h1 : c.rank < mins c.suit
    · rw [if_pos h1]
      cases first with
      | none => exact Nat.le_trans (ih none (j + 1) mins) (by simp)
      | some f =>
        dsimp only
        by_cases h2 : j < f
        · rw [if_pos h2]
          exact Nat.le_trans (ih (some f) (j + 1) _) (by simp)
        · rw [if_neg h2]
          exact Nat.le_trans (ih (some f) (j + 1) mins) (by simp)
    · rw [if_neg h1]
      cases first with
      | none =>
        have := ih none (j + 1) mins
        simp only [List.length_cons]
        omega
      | some f =>
        dsimp only
        by_cases h2 : j ≥ f
        · rw [if_pos h2]
          simp only [List.length_cons]
          omega
        · rw [if_neg h2]
          have := ih (some f) (j + 1) mins
          simp only [List.length_cons]
          omega

theorem foldl_tab_lower (sz scan : Nat → Nat) :
    ∀ (l : List Nat) (init : Nat),
      init + (l.map sz).sum ≤ l.foldl (fun n i => n + sz i + scan i) init := by
  intro l
  induction l with
  | nil => intro init; simp
  | cons a rest ih =>
    intro init
    simp only [List.foldl_cons, List.map_cons, List.sum_cons]
    have := ih (init + sz a + scan a)
    omega

theorem foldl_tab_upper (sz scan : Nat → Nat) (h : ∀ i, scan i ≤ sz i) :
    ∀ (l : List Nat) (init : Nat),
      l.foldl (fun n i => n + sz i + scan i) init ≤ init + 2 * (l.map sz).sum := by
  intro l
  induction l with
  | nil => intro init; simp
  | cons a rest ih =>
    intro init
    simp only [List.foldl_cons, List.map_cons, List.sum_cons]
    have h1 := ih (init + sz a + scan a)
    have h2 := h a
    omega

/-- C4: for every state of a valid 52-card board (draw count 1 or 3, at most
52 cards across stock, waste and the tableaus), `minimum_moves_remaining`
returns at least `stock_size + ceil(stock_size / draw_count) + waste_size`
plus the sum of all seven tableau sizes, for either value of `is_last_round`. -/
theorem C4_minimum_moves_lower_bound (s : Solver) (is_last_round : Bool)
    (hd : s.draw_count = 1 ∨ s.draw_count = 3)
    (htotal : (s.piles PILE_STOCK).size + (s.piles PILE_WASTE).size +
      (TABLEAU_IDXS.map (fun i => (s.piles i).size)).sum ≤ 52) :
    (s.piles PILE_STOCK).size +
        ((s.piles PILE_STOCK).size + s.draw_count - 1) / s.draw_count +
        (s.piles PILE_WASTE).size +
        (TABLEAU_IDXS.map (fun i => (s.piles i).size)).sum ≤
      s.minimum_moves_remaining is_last_round := by
  unfold Solver.minimum_moves_remaining
  set st := (s.piles PILE_STOCK).size with hst
  set wa := (s.piles PILE_WASTE).size with hwa
  set tabs := (TABLEAU_IDXS.map (fun i => (s.piles i).size)).sum with htabs
  set base := st + (st + s.draw_count - 1) / s.draw_count + wa with hbase
  have hceil : (st + s.draw_count - 1) / s.draw_count ≤ st := by
    rcases hd with h | h <;> rw [h] <;> omega
  have hwscan : suitScanWaste (s.piles PILE_WASTE).cards (fun _ => 255) ≤ wa :=
    suitScanWaste_le _ _
  set num1 := if s.draw_count = 1 ∨ is_last_round = true then
    base + suitScanWaste (s.piles PILE_WASTE).cards (fun _ => 255) else base with hnum1
  have hn1low : base ≤ num1 := by
    rw [hnum1]; split_ifs <;> omega
  have hn1up : num1 ≤ base + wa := by
    rw [hnum1]; split_ifs <;> omega
  have hlow := foldl_tab_lower (fun i => (s.piles i).size)
    (fun i => tableauScan (s.piles i).first (s.piles i).cards 0 (fun _ => 255))
    TABLEAU_IDXS num1
  have hup := foldl_tab_upper (fun i => (s.piles i).size)
    (fun i => tableauScan (s.piles i).first (s.piles i).cards 0 (fun _ => 255))
    (fun i => tableauScan_le _ _ _ _) TABLEAU_IDXS num1
  set total := TABLEAU_IDXS.foldl
    (fun n i => n + (s.piles i).size +
      tableauScan (s.piles i).first (s.piles i).cards 0 (fun _ => 255)) num1 with htot
  have hlt : total < 256 := by omega
  rw [Nat.mod_eq_of_lt hlt]
  omega

/-- Witness for C4 at a concrete state. -/
theorem C4_minimum_moves_lower_bound_witness :
    (c1WitnessState.piles PILE_STOCK).size +
        ((c1WitnessState.piles PILE_STOCK).size + c1WitnessState.draw_count - 1) /
          c1WitnessState.draw_count +
        (c1WitnessState.piles PILE_WASTE).size +
        (TABLEAU_IDXS.map (fun i => (c1WitnessState.piles i).size)).sum ≤
      c1WitnessState.minimum_moves_remaining false :=
  C4_minimum_moves_lower_bound c1WitnessState false (Or.inl rfl) (by decide)

/-! ## Move generator (`Solver::compute_possible_moves` and helpers)

In the Rust code the generator pushes into a cleared `SmallVec` buffer and
mutates `self.foundation_minimum`; we model it as a pure function returning
the list of emitted moves, with the foundation minimum computed up front.
`as u8` casts of counts are lossless (piles hold at most `TALON_SIZE = 24`
cards and every emitted count is a nonnegative rank difference or draw
count), so they are rendered as `Int.toNat`. -/

def FOUNDATION_IDXS : List Nat := [2, 3, 4, 5]

/-- `self.foundation_minimum = min(foundation sizes) + 1`. -/
def Solver.foundationMinimumCalc (s : Solver) : Nat :=
  ((FOUNDATION_IDXS.map (fun i => (s.piles i).size)).min?).getD 0 + 1

/-- `Solver::can_move_to_foundation`. -/
def Solver.can_move_to_foundation (s : Solver) (card : CardExt) : Option Nat :=
  if card.is_unknown then none
  else
    let idx := s.suits_to_foundations card.suit
    if (s.piles idx).size = card.rank then some idx else none

/-- `Solver::compute_with_last_move`: the chain-to-foundation shortcut. -/
def Solver.computeWithLastMove (s : Solver) : Option Move :=
  if isTableau s.last_move.src ∧ isTableau s.last_move.dst ∧ s.last_move.flip = false then
    let src_pile := s.piles s.last_move.src
    if src_pile.size > 0 then
      match s.can_move_to_foundation src_pile.peek_top_unchecked with
      | some fi => some (Move.mk s.last_move.src fi 1
          (decide (src_pile.size > 1 ∧ src_pile.face_up_count = 1)))
      | none => none
    else none
  else none

/-- The destination loop of `compute_move_from_tableau` for a fixed source
pile, carrying the `king_moved` flag. -/
def tableauDestLoop (s : Solver) (empty_count : Nat) (src : Nat) (src_pile : Pile)
    (src_top src_first : CardExt) (span : Int) :
    List Nat → Bool → List Move
  | [], _ => []
  | dest :: rest, king_moved =>
    if src = dest then tableauDestLoop s empty_count src src_pile src_top src_first span
      rest king_moved
    else
      let dest_pile := s.piles dest
      if dest_pile.size = 0 then
        if ¬king_moved ∧ (src_pile.size : Int) ≠ span then
          Move.mk src dest span.toNat true ::
            tableauDestLoop s empty_count src src_pile src_top src_first span rest true
        else tableauDestLoop s empty_count src src_pile src_top src_first span
          rest king_moved
      else
        let dest_top := dest_pile.peek_top_unchecked
        if (dest_top.rank : Int) - (src_first.rank : Int) > 1 ∨
            src_top.red_even ≠ dest_top.red_even ∨ src_top.rank ≥ dest_top.rank then
          tableauDestLoop s empty_count src src_pile src_top src_first span
            rest king_moved
        else
          let moved : Int := (dest_top.rank : Int) - (src_top.rank : Int)
          if (moved = span ∧ (moved ≠ (src_pile.size : Int) ∨ empty_count = 0)) ∨
              (moved < span ∧
                (s.can_move_to_foundation
                  (src_pile.peek_nth_from_top_unchecked moved.toNat)).isSome) then
            Move.mk src dest moved.toNat
                (decide ((src_pile.size : Int) > moved ∧ moved = span)) ::
              tableauDestLoop s empty_count src src_pile src_top src_first span
                rest king_moved
          else tableauDestLoop s empty_count src src_pile src_top src_first span
            rest king_moved

/-- The source loop of `compute_move_from_tableau`.  Returns the early-commit
flag and the move buffer. -/
def tableauSrcLoop (s : Solver) (fmin : Nat) (empty_count : Nat) :
    List Nat → List Move → Bool × List Move
  | [], acc => (false, acc)
  | src :: rest, acc =>
    let src_pile := s.piles src
    let src_top := src_pile.peek_top_unchecked
    match s.can_move_to_foundation src_top with
    | some fi =>
      let mov := Move.mk src fi 1 (decide (src_pile.size > 1 ∧ src_pile.face_up_count = 1))
      if src_top.rank ≤ fmin then (true, [mov])
      else
        let src_first := src_pile.peek_first_face_up_unchecked
        let span : Int := (src_first.rank : Int) - (src_top.rank : Int) + 1
        let acc2 := (acc ++ [mov]) ++ tableauDestLoop s empty_count src src_pile src_top
          src_first span TABLEAU_IDXS (!src_first.is_king)
        tableauSrcLoop s fmin empty_count rest acc2
    | none =>
      let src_first := src_pile.peek_first_face_up_unchecked
      let span : Int := (src_first.rank : Int) - (src_top.rank : Int) + 1
      let acc2 := acc ++ tableauDestLoop s empty_count src src_pile src_top
        src_first span TABLEAU_IDXS (!src_first.is_king)
      tableauSrcLoop s fmin empty_count rest acc2

/-- `Solver::compute_move_from_tableau`. -/
def Solver.computeMoveFromTableau (s : Solver) (fmin : Nat) (acc : List Move) :
    Bool × List Move :=
  let non_empty := TABLEAU_IDXS.filter (fun i => (s.piles i).size ≠ 0)
  let empty_count := (TABLEAU_IDXS.filter (fun i => (s.piles i).size = 0)).length
  tableauSrcLoop s fmin empty_count non_empty acc

/-- The tableau loop of `compute_move_from_waste` (breaks after placing a
king). -/
def wasteTableauLoop (s : Solver) (card : CardExt) (ctd : Nat) (flip : Bool) :
    List Nat → List Move
  | [] => []
  | t :: rest =>
    let t_top := (s.piles t).peek_top
    if (t_top.rank : Int) - (card.rank : Int) = 1 ∧ card.is_red ≠ t_top.is_red then
      Move.mk PILE_WASTE t ctd flip ::
        (if card.is_king then [] else wasteTableauLoop s card ctd flip rest)
    else wasteTableauLoop s card ctd flip rest

/-- The talon loop of `compute_move_from_waste`. -/
def wasteLoop (s : Solver) (fmin dc : Nat) :
    List (CardExt × Int) → List Move → Bool × List Move
  | [], acc => (false, acc)
  | (card, drawn) :: rest, acc =>
    let flip : Bool := drawn < 0
    let ctd : Nat := if flip then (-drawn).toNat else drawn.toNat
    match s.can_move_to_foundation card with
    | some fi =>
      let acc2 := acc ++ [Move.mk PILE_WASTE fi ctd flip]
      if card.rank ≤ fmin then
        if dc > 1 then wasteLoop s fmin dc rest acc2
        else if ctd = 0 ∨ acc2.length = 1 then (true, acc2)
        else (false, acc2)
      else
        wasteLoop s fmin dc rest (acc2 ++ wasteTableauLoop s card ctd flip TABLEAU_IDXS)
    | none =>
      wasteLoop s fmin dc rest (acc ++ wasteTableauLoop s card ctd flip TABLEAU_IDXS)

/-- `Solver::compute_move_from_waste`. -/
def Solver.computeMoveFromWaste (s : Solver) (fmin : Nat) (acc : List Move) :
    Bool × List Move :=
  wasteLoop s fmin s.draw_count
    (TalonHelper.calculate s.draw_count (s.piles PILE_WASTE) (s.piles PILE_STOCK)) acc

/-- The tableau loop of `compute_move_from_foundation` (breaks after placing a
king). -/
def foundationTableauLoop (s : Solver) (f : Nat) (fcard : CardExt) :
    List Nat → List Move
  | [] => []
  | t :: rest =>
    let t_top := (s.piles t).peek_top
    if (t_top.rank : Int) - (fcard.rank : Int) = 1 ∧ t_top.is_red ≠ fcard.is_red then
      Move.mk f t 1 false ::
        (if fcard.is_king then [] else foundationTableauLoop s f fcard rest)
    else foundationTableauLoop s f fcard rest

/-- `Solver::compute_move_from_foundation`. -/
def Solver.computeMoveFromFoundation (s : Solver) (fmin : Nat) (acc : List Move) :
    List Move :=
  FOUNDATION_IDXS.foldl
    (fun acc2 f =>
      if (s.piles f).size ≤ fmin then acc2
      else acc2 ++ foundationTableauLoop s f ((s.piles f).peek_top_unchecked) TABLEAU_IDXS)
    acc

/-- `Solver::compute_possible_moves` (the buffer is cleared by the caller). -/
def Solver.computePossibleMoves (s : Solver) : List Move :=
  let fmin := s.foundationMinimumCalc
  match s.computeWithLastMove with
  | some mov => [mov]
  | none =>
    match s.computeMoveFromTableau fmin [] with
    | (true, acc) => acc
    | (false, acc) =>
      match s.computeMoveFromWaste fmin acc with
      | (true, acc2) => acc2
      | (false, acc2) => s.computeMoveFromFoundation fmin acc2

/-! ## C5: the forced tableau-to-foundation move -/

theorem tableauSrcLoop_forced (s : Solver) (fmin empty_count : Nat) :
    ∀ (l : List Nat) (acc : List Move),
      (∃ t ∈ l, (s.can_move_to_foundation ((s.piles t).peek_top_unchecked)).isSome ∧
        ((s.piles t).peek_top_unchecked).rank ≤ fmin) →
      ∃ t' fi,
        t' ∈ l ∧
        s.can_move_to_foundation ((s.piles t').peek_top_unchecked) = some fi ∧
        ((s.piles t').peek_top_unchecked).rank ≤ fmin ∧
        tableauSrcLoop s fmin empty_count l acc =
          (true, [Move.mk t' fi 1
            (decide ((s.piles t').size > 1 ∧ (s.piles t').face_up_count = 1))]) := by
  intro l
  induction l with
  | nil =>
    intro acc h
    simp at h
  | cons src rest ih =>
    intro acc h
    rw [tableauSrcLoop.eq_def]
    dsimp only
    cases hcm : s.can_move_to_foundation ((s.piles src).peek_top_unchecked) with
    | some fi =>
      dsimp only
      by_cases hr : ((s.piles src).peek_top_unchecked).rank ≤ fmin
      · rw [if_pos hr]
        exact ⟨src, fi, List.mem_cons_self _ _, hcm, hr, rfl⟩
      · rw [if_neg hr]
        have hrest : ∃ t ∈ rest,
            (s.can_move_to_foundation ((s.piles t).peek_top_unchecked)).isSome ∧
            ((s.piles t).peek_top_unchecked).rank ≤ fmin := by
          obtain ⟨t, htl, hts, htr⟩ := h
          rcases List.mem_cons.mp htl with rfl | htl'
          · exact absurd htr hr
          · exact ⟨t, htl', hts, htr⟩
        obtain ⟨t', fi', ht', hcm', hr', heq⟩ := ih _ hrest
        exact ⟨t', fi', List.mem_cons_of_mem _ ht', hcm', hr', heq⟩
    | none =>
      dsimp only
      have hrest : ∃ t ∈ rest,
          (s.can_move_to_foundation ((s.piles t).peek_top_unchecked)).isSome ∧
          ((s.piles t).peek_top_unchecked).rank ≤ fmin := by
        obtain ⟨t, htl, hts, htr⟩ := h
        rcases List.mem_cons.mp htl with rfl | htl'
        · rw [hcm] at hts
          simp at hts
        · exact ⟨t, htl', hts, htr⟩
      obtain ⟨t', fi', ht', hcm', hr', heq⟩ := ih _ hrest
      exact ⟨t', fi', List.mem_cons_of_mem _ ht', hcm', hr', heq⟩

/-- C5: when the chain-to-foundation shortcut does not fire and some
non-empty tableau's top card fits its foundation with rank at most the
foundation minimum, the move generator returns exactly one candidate: a
single-card tableau-to-foundation move of such a card. -/
theorem C5_forced_foundation_move (s : Solver)
    (hlm : s.computeWithLastMove = none)
    (t : Nat) (ht : t ∈ TABLEAU_IDXS) (hne : (s.piles t).size ≠ 0)
    (hcan : (s.can_move_to_foundation ((s.piles t).peek_top_unchecked)).isSome)
    (hrank : ((s.piles t).peek_top_unchecked).rank ≤ s.foundationMinimumCalc) :
    ∃ t' fi,
      t' ∈ TABLEAU_IDXS ∧ (s.piles t').size ≠ 0 ∧
      s.can_move_to_foundation ((s.piles t').peek_top_unchecked) = some fi ∧
      ((s.piles t').peek_top_unchecked).rank ≤ s.foundationMinimumCalc ∧
      s.computePossibleMoves =
        [Move.mk t' fi 1
          (decide ((s.piles t').size > 1 ∧ (s.piles t').face_up_count = 1))] := by
  have hmem : t ∈ TABLEAU_IDXS.filter (fun i => (s.piles i).size ≠ 0) := by
    rw [List.mem_filter]
    exact ⟨ht, by simpa using hne⟩
  obtain ⟨t', fi, ht', hcm', hr', heq⟩ :=
    tableauSrcLoop_forced s s.foundationMinimumCalc
      ((TABLEAU_IDXS.filter (fun i => (s.piles i).size = 0)).length)
      (TABLEAU_IDXS.filter (fun i => (s.piles i).size ≠ 0)) []
      ⟨t, hmem, hcan, hrank⟩
  have ht'mem := List.mem_filter.mp ht'
  refine ⟨t', fi, ht'mem.1, by simpa using ht'mem.2, hcm', hr', ?_⟩
  unfold Solver.computePossibleMoves
  rw [hlm]
  dsimp only
  rw [Solver.computeMoveFromTableau.eq_def]
  dsimp only
  rw [heq]

/-- Witness for C5 at a concrete state (ace of clubs on tableau 6, empty
foundations). -/
theorem C5_forced_foundation_move_witness :
    ∃ t' fi,
      t' ∈ TABLEAU_IDXS ∧ (c1WitnessState.piles t').size ≠ 0 ∧
      c1WitnessState.can_move_to_foundation
        ((c1WitnessState.piles t').peek_top_unchecked) = some fi ∧
      ((c1WitnessState.piles t').peek_top_unchecked).rank ≤
        c1WitnessState.foundationMinimumCalc ∧
      c1WitnessState.computePossibleMoves =
        [Move.mk t' fi 1 (decide ((c1WitnessState.piles t').size > 1 ∧
          (c1WitnessState.piles t').face_up_count = 1))] :=
  C5_forced_foundation_move c1WitnessState (by decide) 6 (by decide) (by decide)
    (by decide) (by decide)

/-! ## State fingerprint (`Solver::get_state`, solver.rs:258-300)

`get_state` serializes the state into a 32-byte buffer and feeds it to
`AHasher` (an external crate, not part of this repository): byte 0 is the
waste size, bytes 1-2 pack the four foundation sizes, byte 3 stays 0, and
bytes `4(i+1)..4(i+1)+3` hold the contribution of the `i`-th tableau after
the seven tableau indices are stably sorted by descending
`peek_first_face_up().id2` (Rust's `sort_by` is stable;
`List.insertionSort` with `r a b := key b ≤ key a` is the same stable
descending sort, since `orderedInsert` puts the inserted, originally
earlier, element before equal keys).  The hash itself is modelled as a
parameter over the byte buffer. -/

/-- The sort key of `sort_by` in `get_state`: `peek_first_face_up().id2`
(`0` both for the A♣-headed pile and for a pile with no face-up card). -/
def tabKey (p : Pile) : Nat := p.peek_first_face_up.id2

/-- The comparator of `get_state`'s `sort_by`, as a relation on piles:
`pile_b.key.cmp(&pile_a.key)` sorts ascending in that comparator, i.e.
descending by key. -/
def tabR (pa pb : Pile) : Prop := tabKey pb ≤ tabKey pa

instance : DecidableRel tabR := fun _ _ => Nat.decLe _ _

instance : IsTotal Pile tabR := ⟨fun a b => Nat.le_total (tabKey b) (tabKey a)⟩

instance : IsTrans Pile tabR := ⟨fun _ _ _ hab hbc => Nat.le_trans hbc hab⟩

/-- `tabR` read through a state's pile table, to sort tableau indices the
way `get_state` does. -/
def idxR (s : Solver) (a b : Nat) : Prop := tabR (s.piles a) (s.piles b)

instance (s : Solver) : DecidableRel (idxR s) := fun _ _ => Nat.decLe _ _

/-- The `tableau_idxs` array of `get_state` after `sort_by`. -/
def sortedTableauIdxs (s : Solver) : List Nat :=
  List.insertionSort (idxR s) TABLEAU_IDXS

/-- The `flags` u16 of `get_state`: bit `card_offset` holds the `order` bit
of the card `card_offset` from the top, for `card_offset < face_up_count - 1`. -/
def tabFlags (p : Pile) (fuc : Nat) : Nat :=
  (List.range (fuc - 1)).foldl
    (fun flags off => flags ||| ((p.peek_nth_from_top_unchecked off).order <<< off)) 0

/-- The four state bytes of one tableau pile in `get_state`: face-up count,
first face-up id and the big-endian `flags` bytes; all-zero beyond the
face-up count byte when no card is face up. -/
def contribPile (p : Pile) : List Nat :=
  let fuc := p.face_up_count
  if fuc > 0 then
    let flags := tabFlags p fuc % 65536
    [fuc % 256, p.peek_first_face_up_unchecked.id % 256, flags / 256, flags % 256]
  else [fuc % 256, 0, 0, 0]

/-- The 32-byte buffer `state` that `get_state` hashes. -/
def stateBytes (s : Solver) : List Nat :=
  [(s.piles PILE_WASTE).size % 256,
   (((s.piles PILE_FOUNDATION_START).size <<< 4)
      ||| (s.piles (PILE_FOUNDATION_START + 2)).size) % 256,
   (((s.piles (PILE_FOUNDATION_START + 1)).size <<< 4)
      ||| (s.piles (PILE_FOUNDATION_START + 3)).size) % 256,
   0]
  ++ ((sortedTableauIdxs s).map fun idx => contribPile (s.piles idx)).flatten

/-- `get_state`, with the external `AHasher` abstracted into `hash` applied
to the 32-byte buffer. -/
def getState (hash : List Nat → Nat) (s : Solver) : Nat := hash (stateBytes s)

/-- Exchanging the contents of piles `i` and `j`. -/
def natSwap (i j p : Nat) : Nat :=
  if p = i then j else if p = j then i else p

/-- The state with the contents of piles `i` and `j` exchanged. -/
def swapTableaus (s : Solver) (i j : Nat) : Solver :=
  { s with piles := fun p => s.piles (natSwap i j p) }

/-- A concrete stand-in for the external hasher: read the 32 bytes as one
base-256 number (injective on equal-length buffers). -/
def demoC2Hash (bs : List Nat) : Nat := bs.foldl (fun a b => a * 256 + b) 0

theorem tabR_sorted_eq : ∀ l₁ l₂ : List Pile, l₁.Perm l₂ →
    List.Sorted tabR l₁ → List.Sorted tabR l₂ →
    (∀ a ∈ l₂, ∀ b ∈ l₂, tabKey a = tabKey b → a = b) →
    l₁ = l₂ := by
  intro l₁
  induction l₁ with
  | nil =>
    intro l₂ hp _ _ _
    exact hp.nil_eq
  | cons a t₁ ih =>
    intro l₂ hp hs₁ hs₂ hd
    cases l₂ with
    | nil => exact (List.cons_ne_nil a t₁ hp.symm.nil_eq.symm).elim
    | cons b t₂ =>
      have hs₁' := List.sorted_cons.mp hs₁
      have hs₂' := List.sorted_cons.mp hs₂
      have ha2 : a ∈ b :: t₂ := hp.mem_iff.mp (List.mem_cons_self a t₁)
      have hab : a = b := by
        have hb1 : b ∈ a :: t₁ := hp.mem_iff.mpr (List.mem_cons_self b t₂)
        have hk1 : tabKey a ≤ tabKey b := by
          rcases List.mem_cons.mp ha2 with h | h
          · rw [h]
          · exact hs₂'.1 a h
        have hk2 : tabKey b ≤ tabKey a := by
          rcases List.mem_cons.mp hb1 with h | h
          · rw [h]
          · exact hs₁'.1 b h
        exact hd a ha2 b (List.mem_cons_self b t₂) (Nat.le_antisymm hk1 hk2)
      subst hab
      have ht := ih t₂ hp.cons_inv hs₁'.2 hs₂'.2
        (fun x hx y hy => hd x (List.mem_cons_of_mem _ hx) y (List.mem_cons_of_mem _ hy))
      rw [ht]

theorem map_piles_orderedInsert (s : Solver) (a : Nat) : ∀ l : List Nat,
    (List.orderedInsert (idxR s) a l).map s.piles
      = List.orderedInsert tabR (s.piles a) (l.map s.piles) := by
  intro l
  induction l with
  | nil => simp [List.orderedInsert]
  | cons b t ih =>
    rw [List.map_cons, List.orderedInsert, List.orderedInsert]
    by_cases h : idxR s a b
    · have h' : tabR (s.piles a) (s.piles b) := h
      rw [if_pos h, if_pos h', List.map_cons, List.map_cons]
    · have h' : ¬ tabR (s.piles a) (s.piles b) := h
      rw [if_neg h, if_neg h', List.map_cons, ih]

theorem map_piles_insertionSort (s : Solver) : ∀ l : List Nat,
    (List.insertionSort (idxR s) l).map s.piles
      = List.insertionSort tabR (l.map s.piles) := by
  intro l
  induction l with
  | nil => rfl
  | cons a t ih =>
    rw [List.insertionSort, List.map_cons, List.insertionSort,
      map_piles_orderedInsert, ih]

theorem natSwap_tableau_perm (i j : Nat) (hi1 : 6 ≤ i) (hi2 : i ≤ 12)
    (hj1 : 6 ≤ j) (hj2 : j ≤ 12) :
    (TABLEAU_IDXS.map (natSwap i j)).Perm TABLEAU_IDXS := by
  interval_cases i <;> interval_cases j <;> decide

/-- A state whose seven tableaus hold the seven face-up club cards A♣..7♣:
the seven sort keys `peek_first_face_up().id2` are pairwise distinct. -/
def c2WitnessState : Solver :=
  { piles := fun p =>
      if 6 ≤ p ∧ p ≤ 12 then ⟨[CardExt.new_with_id (p - 6)], some 0⟩ else Pile.reset
    suits_to_foundations := fun _ => 2
    foundation_score := 0
    foundation_minimum := 0
    last_move := Move.default
    moves := []
    round_count := 1
    draw_count := 1 }

/-- C2 counterexample: in the state where tableau 6 holds a face-up A♣ and
tableau 7 is empty, both piles have sort key `id2 = 0` (A♣'s `id2` collides
with the no-face-up `UNKNOWN` key), so the stable sort cannot undo the
exchange: the 32-byte buffer `get_state` hashes changes, and the fingerprint
`hash(buffer)` changes for the concrete injective byte reading
`demoC2Hash`.  The original claim fails for states with tied sort keys. -/
theorem C2_tableau_swap_counterexample :
    stateBytes (swapTableaus c1WitnessState 6 7) ≠ stateBytes c1WitnessState
      ∧ getState demoC2Hash (swapTableaus c1WitnessState 6 7)
          ≠ getState demoC2Hash c1WitnessState :=
  ⟨by decide, by decide⟩

/-- C2 (amended): exchanging the contents of two tableau piles leaves the
32-byte buffer of `get_state`, hence the fingerprint for every hash
function, unchanged PROVIDED the seven tableau sort keys
`peek_first_face_up().id2` are pairwise distinct.  (With tied keys the
stable sort orders the tied piles by position and the buffer can change, as
`C2_tableau_swap_counterexample` shows.) -/
theorem C2_tableau_swap_fingerprint (hash : List Nat → Nat) (s : Solver) (i j : Nat)
    (hi : isTableau i) (hj : isTableau j)
    (hinj : ∀ p ∈ TABLEAU_IDXS, ∀ q ∈ TABLEAU_IDXS,
      tabKey (s.piles p) = tabKey (s.piles q) → p = q) :
    getState hash (swapTableaus s i j) = getState hash s := by
  obtain ⟨hi1, hi2⟩ := hi
  obtain ⟨hj1, hj2⟩ := hj
  have hi1' : 6 ≤ i := hi1
  have hi2' : i ≤ 12 := hi2
  have hj1' : 6 ≤ j := hj1
  have hj2' : j ≤ 12 := hj2
  have hfix : ∀ p, p < PILE_TABLEAU_START → (swapTableaus s i j).piles p = s.piles p := by
    intro p hp
    have hp' : p < 6 := hp
    show s.piles (natSwap i j p) = s.piles p
    have hid : natSwap i j p = p := by
      rw [natSwap, if_neg (by omega), if_neg (by omega)]
    rw [hid]
  have key : (sortedTableauIdxs (swapTableaus s i j)).map (swapTableaus s i j).piles
      = (sortedTableauIdxs s).map s.piles := by
    rw [sortedTableauIdxs, sortedTableauIdxs, map_piles_insertionSort,
      map_piles_insertionSort]
    have hmap : TABLEAU_IDXS.map (swapTableaus s i j).piles
        = (TABLEAU_IDXS.map (natSwap i j)).map s.piles := by
      rw [List.map_map]
      rfl
    have hperm : (TABLEAU_IDXS.map (swapTableaus s i j).piles).Perm
        (TABLEAU_IDXS.map s.piles) := by
      rw [hmap]
      exact (natSwap_tableau_perm i j hi1' hi2' hj1' hj2').map s.piles
    apply tabR_sorted_eq
    · exact ((List.perm_insertionSort tabR _).trans hperm).trans
        (List.perm_insertionSort tabR _).symm
    · exact List.sorted_insertionSort tabR _
    · exact List.sorted_insertionSort tabR _
    · intro a ha b hb hk
      have ha' : a ∈ TABLEAU_IDXS.map s.piles :=
        (List.perm_insertionSort tabR _).mem_iff.mp ha
      have hb' : b ∈ TABLEAU_IDXS.map s.piles :=
        (List.perm_insertionSort tabR _).mem_iff.mp hb
      obtain ⟨p, hp, rfl⟩ := List.mem_map.mp ha'
      obtain ⟨q, hq, rfl⟩ := List.mem_map.mp hb'
      rw [hinj p hp q hq hk]
  have hbytes : stateBytes (swapTableaus s i j) = stateBytes s := by
    rw [stateBytes, stateBytes, hfix PILE_WASTE (by decide),
      hfix PILE_FOUNDATION_START (by decide),
      hfix (PILE_FOUNDATION_START + 1) (by decide),
      hfix (PILE_FOUNDATION_START + 2) (by decide),
      hfix (PILE_FOUNDATION_START + 3) (by decide)]
    congr 1
    have h1 : ((sortedTableauIdxs (swapTableaus s i j)).map
          fun idx => contribPile ((swapTableaus s i j).piles idx))
        = ((sortedTableauIdxs (swapTableaus s i j)).map
            (swapTableaus s i j).piles).map contribPile := by
      rw [List.map_map]
      rfl
    have h2 : ((sortedTableauIdxs s).map fun idx => contribPile (s.piles idx))
        = ((sortedTableauIdxs s).map s.piles).map contribPile := by
      rw [List.map_map]
      rfl
    rw [h1, h2, key]
  rw [getState, getState, hbytes]

/-- Witness for C2: the amended invariance at a concrete state with seven
distinct sort keys, swapping tableaus 6 and 7, under the concrete hash. -/
theorem C2_tableau_swap_fingerprint_witness :
    (isTableau 6 ∧ isTableau 7
        ∧ (∀ p ∈ TABLEAU_IDXS, ∀ q ∈ TABLEAU_IDXS,
            tabKey (c2WitnessState.piles p) = tabKey (c2WitnessState.piles q) → p = q))
      ∧ getState demoC2Hash (swapTableaus c2WitnessState 6 7)
          = getState demoC2Hash c2WitnessState :=
  ⟨⟨by decide, by decide, by decide⟩,
   C2_tableau_swap_fingerprint demoC2Hash c2WitnessState 6 7
     (by decide) (by decide) (by decide)⟩

/-! ## The A* open queue (src/klondike-solver/src/move_.rs, solver.rs:82-110)

`solve` keeps its open set in `std::collections::BinaryHeap<MoveIndex>`,
ordered by `impl Ord for MoveIndex`, which compares `other.priority` with
`self.priority` and nothing else (move_.rs:79-83).  The heap itself is the
Rust standard library's binary max-heap (external to this repository); its
`push` (append then `sift_up`) and `pop` (swap the last element into the
root, then `sift_down_to_bottom` and `sift_up`) are modelled below exactly
following the std implementation, with the hole represented functionally
and fuel bounding the loops (the fuel given always exceeds the iteration
count: `sift_up` lowers `pos` every step, `sift_down` raises `child`
geometrically). -/

/-- `Estimate` (move_.rs). -/
structure Estimate where
  current : Nat
  remaining : Nat
deriving DecidableEq, Repr

/-- `MoveIndex` (move_.rs). -/
structure MoveIndex where
  index : Nat
  priority : Int
  estimate : Estimate
deriving DecidableEq, Repr

instance : Inhabited MoveIndex := ⟨⟨0, 0, ⟨0, 0⟩⟩⟩

/-- `impl Ord for MoveIndex`: `other.priority.cmp(&self.priority)` — the
`index` and `estimate` fields never take part. -/
def MoveIndex.cmp (self other : MoveIndex) : Ordering :=
  if other.priority < self.priority then .lt
  else if other.priority = self.priority then .eq
  else .gt

/-- `<=` as Rust derives it from `Ord`: not `Greater`. -/
def MoveIndex.le (a b : MoveIndex) : Bool :=
  match MoveIndex.cmp a b with
  | .gt => false
  | _ => true

/-- The loop of std `BinaryHeap::sift_up`: while `pos > start`, stop when
the sifted element is `<=` its parent, else move the parent down. -/
def siftUpLoop (le : α → α → Bool) [Inhabited α] (elem : α) (start : Nat) :
    Nat → List α → Nat → List α × Nat
  | 0, data, pos => (data, pos)
  | fuel + 1, data, pos =>
    if start < pos then
      let parent := (pos - 1) / 2
      if le elem (data.getD parent default) then (data, pos)
      else siftUpLoop le elem start fuel (data.set pos (data.getD parent default)) parent
    else (data, pos)

/-- std `BinaryHeap::sift_up`: the hole's element is written back at the
final hole position. -/
def siftUp (le : α → α → Bool) [Inhabited α] (data : List α) (start pos : Nat) :
    List α × Nat :=
  let elem := data.getD pos default
  let (d, p) := siftUpLoop le elem start (pos + 1) data pos
  (d.set p elem, p)

/-- std `BinaryHeap::push`: append, then sift the new last element up. -/
def heapPush (le : α → α → Bool) [Inhabited α] (data : List α) (item : α) : List α :=
  let d := data ++ [item]
  (siftUp le d 0 (d.length - 1)).1

/-- The loop of std `BinaryHeap::sift_down_to_bottom`: walk the hole to the
bottom, always taking the greater child (`<=` picks the RIGHT child on
ties), then one final move when a single child remains. -/
def siftDownLoop (le : α → α → Bool) [Inhabited α] (stop : Nat) :
    Nat → List α → Nat → List α × Nat
  | 0, data, pos => (data, pos)
  | fuel + 1, data, pos =>
    let child := 2 * pos + 1
    if child ≤ stop - 2 then
      let child := child +
        (if le (data.getD child default) (data.getD (child + 1) default) then 1 else 0)
      siftDownLoop le stop fuel (data.set pos (data.getD child default)) child
    else if child = stop - 1 then
      (data.set pos (data.getD child default), child)
    else (data, pos)

/-- std `BinaryHeap::sift_down_to_bottom`, followed by the closing
`sift_up(start, pos)` it performs. -/
def siftDownToBottom (le : α → α → Bool) [Inhabited α] (data : List α) (pos : Nat) :
    List α :=
  let elem := data.getD pos default
  let (d, p) := siftDownLoop le data.length (data.length + 1) data pos
  (siftUp le (d.set p elem) pos p).1

/-- std `BinaryHeap::pop`: remove the last element; if the heap stays
non-empty, swap it with the root and sift the root down. -/
def heapPop (le : α → α → Bool) [Inhabited α] (data : List α) : Option α × List α :=
  match data.getLast? with
  | none => (none, data)
  | some last =>
    let d := data.dropLast
    if d.isEmpty then (some last, d)
    else
      let item := d.getD 0 default
      (some item, siftDownToBottom le (d.set 0 last) 0)

/-- Popping until the heap is empty (fuel-bounded). -/
def heapPopAll (le : α → α → Bool) [Inhabited α] : Nat → List α → List α
  | 0, _ => []
  | fuel + 1, data =>
    match heapPop le data with
    | (none, _) => []
    | (some x, d) => x :: heapPopAll le fuel d

/-- Four equal-priority entries, pushed in index order 0,1,2,3. -/
def c7Entries : List MoveIndex :=
  [⟨0, 0, ⟨0, 0⟩⟩, ⟨1, 0, ⟨0, 0⟩⟩, ⟨2, 0, ⟨0, 0⟩⟩, ⟨3, 0, ⟨0, 0⟩⟩]

/-- The open queue after pushing `c7Entries` in order. -/
def c7Heap : List MoveIndex := c7Entries.foldl (heapPush MoveIndex.le) []

/-- C7 counterexample: four entries of equal priority pushed in index order
0,1,2,3 are popped in order 0,2,1,3 — the entry pushed third comes out
before the entry pushed second, so equal-priority ties are NOT broken in
FIFO order.  (`pop` swaps the last array element into the root and sifts
it, which reorders equal elements arbitrarily.) -/
theorem C7_fifo_counterexample :
    c7Entries.map MoveIndex.priority = [0, 0, 0, 0]
      ∧ c7Entries.map MoveIndex.index = [0, 1, 2, 3]
      ∧ (heapPopAll MoveIndex.le 4 c7Heap).map MoveIndex.index = [0, 2, 1, 3] := by
  exact ⟨by decide, by decide, by decide⟩

/-- C7 (amended): the open queue's ordering cannot break equal-priority
ties at all: `impl Ord for MoveIndex` compares only the priorities, so two
entries with equal priority compare `Equal` in both directions whatever
their insertion indices and estimates, and each orders `<=` the other.  Tie
order among them is therefore left to the `BinaryHeap`'s internal element
shuffling, which is not FIFO (see `C7_fifo_counterexample`). -/
theorem C7_cmp_ignores_index (a b : MoveIndex) (h : a.priority = b.priority) :
    MoveIndex.cmp a b = Ordering.eq ∧ MoveIndex.cmp b a = Ordering.eq
      ∧ MoveIndex.le a b = true ∧ MoveIndex.le b a = true := by
  have h1 : MoveIndex.cmp a b = Ordering.eq := by
    rw [MoveIndex.cmp, if_neg (by omega), if_pos (by omega)]
  have h2 : MoveIndex.cmp b a = Ordering.eq := by
    rw [MoveIndex.cmp, if_neg (by omega), if_pos (by omega)]
  refine ⟨h1, h2, ?_, ?_⟩
  · rw [MoveIndex.le, h1]
  · rw [MoveIndex.le, h2]

/-- Witness for C7's amended theorem: two entries with equal priority 5 but
different indices and estimates. -/
theorem C7_cmp_ignores_index_witness :
    (MoveIndex.mk 17 5 ⟨1, 2⟩).priority = (MoveIndex.mk 99 5 ⟨3, 4⟩).priority
      ∧ (MoveIndex.cmp ⟨17, 5, ⟨1, 2⟩⟩ ⟨99, 5, ⟨3, 4⟩⟩ = Ordering.eq
          ∧ MoveIndex.cmp ⟨99, 5, ⟨3, 4⟩⟩ ⟨17, 5, ⟨1, 2⟩⟩ = Ordering.eq
          ∧ MoveIndex.le ⟨17, 5, ⟨1, 2⟩⟩ ⟨99, 5, ⟨3, 4⟩⟩ = true
          ∧ MoveIndex.le ⟨99, 5, ⟨3, 4⟩⟩ ⟨17, 5, ⟨1, 2⟩⟩ = true) :=
  ⟨by decide, C7_cmp_ignores_index ⟨17, 5, ⟨1, 2⟩⟩ ⟨99, 5, ⟨3, 4⟩⟩ (by decide)⟩

/-! ## Board (src/board.rs) -/

/-- `Card(u8)` from src/board.rs. -/
structure Card where
  val : Nat
deriving DecidableEq, Repr

namespace Card

def UNKNOWN : Card := ⟨MAX_CARD⟩

def new_with_id (id : Nat) : Card :=
  if id ≥ MAX_CARD then UNKNOWN else ⟨id⟩

def new_with_rank_suit (rank suit : Nat) : Card := ⟨suit * MAX_RANK + rank⟩

def id (c : Card) : Nat := c.val

def is_unknown (c : Card) : Bool := c.val ≥ MAX_CARD

def rank (c : Card) : Nat := c.val % MAX_RANK

def suit (c : Card) : Nat := c.val / MAX_RANK

end Card

/-- `Tableau` from src/board.rs. -/
structure Tableau where
  cards : List Card
  face_up_count : Nat
deriving DecidableEq, Repr

/-- `WastePile` from src/board.rs. -/
structure WastePile where
  cards : List Card
  visible_count : Nat
deriving DecidableEq, Repr

/-- `Board` from src/board.rs (`draw_count` is the private field; boards
always carry 4 foundations and 7 tableaus). -/
structure Board where
  stock : List Card
  waste : WastePile
  foundations : List (Option Card)
  tableaus : List Tableau
  draw_count : Nat
deriving DecidableEq, Repr

/-- `Board::draw_count()`: any configured value other than 3 is read as 1. -/
def Board.drawCount (b : Board) : Nat := if b.draw_count = 3 then 3 else 1

/-- The `check_cards` closure of `Board::is_valid`: reject unknown and
duplicate cards, tracking the seen ids and the running count. -/
def checkCards : List Card → List Nat × Nat → Option (List Nat × Nat)
  | [], st => some st
  | c :: rest, (seen, count) =>
    if c.is_unknown then none
    else if c.id ∈ seen then none
    else checkCards rest (c.id :: seen, count + 1)

/-- The cards a non-empty foundation top expands to in `Board::is_valid`:
all ranks `0..=rank` of its suit. -/
def foundationExpansion (c : Card) : List Card :=
  (List.range (c.rank + 1)).map fun r => Card.new_with_rank_suit r c.suit

/-- The step of `Board::is_valid` for one foundation slot: an empty slot is
skipped, a top card is expanded down to rank 0 and checked. -/
def foundationStep (st : List Nat × Nat) (oc : Option Card) : Option (List Nat × Nat) :=
  match oc with
  | none => some st
  | some c => checkCards (foundationExpansion c) st

/-- `Board::is_valid`. -/
def Board.is_valid (b : Board) : Bool :=
  if b.drawCount ≠ 1 ∧ b.drawCount ≠ 3 then false
  else
    match ((((checkCards b.stock ([], 0)).bind
            fun st => checkCards b.waste.cards st).bind
            fun st => List.foldlM foundationStep st b.foundations).bind
            fun st => List.foldlM (fun st t => checkCards t.cards st) st b.tableaus) with
    | some (_, count) => count == MAX_CARD
    | none => false

/-- `Solver::solve` (solver.rs:78-81) fails with `InvalidBoard` exactly when
`is_valid` is false on the initial board. -/
def solveInvalidBoard (b : Board) : Bool := !b.is_valid

/-- All card lists `Board::is_valid` feeds to `check_cards`, concatenated in
scan order (stock, waste, expanded foundations, tableaus).  Its multiset of
ids is the board's card multiset with foundations expanded. -/
def foundationCards (oc : Option Card) : List Card :=
  match oc with
  | none => []
  | some c => foundationExpansion c

def Board.allCheckedCards (b : Board) : List Card :=
  b.stock ++ b.waste.cards
    ++ (b.foundations.map foundationCards).flatten
    ++ (b.tableaus.map Tableau.cards).flatten

theorem Board.drawCount_mem (b : Board) : b.drawCount = 1 ∨ b.drawCount = 3 := by
  rw [Board.drawCount]
  split
  · exact Or.inr rfl
  · exact Or.inl rfl

theorem checkCards_eq (l : List Card) : ∀ seen cnt,
    checkCards l (seen, cnt) =
      if (∀ c ∈ l, c.is_unknown = false) ∧ (l.map Card.id).Nodup
          ∧ (∀ c ∈ l, c.id ∉ seen)
      then some ((l.map Card.id).reverse ++ seen, cnt + l.length)
      else none := by
  induction l with
  | nil => intro seen cnt; simp [checkCards]
  | cons c rest ih =>
    intro seen cnt
    rw [checkCards]
    by_cases hu : c.is_unknown
    · rw [if_pos hu, if_neg]
      rintro ⟨h1, -, -⟩
      have := h1 c (List.mem_cons_self c rest)
      rw [this] at hu
      exact Bool.false_ne_true hu
    · rw [if_neg hu]
      by_cases hs : c.id ∈ seen
      · rw [if_pos hs, if_neg]
        rintro ⟨-, -, h3⟩
        exact h3 c (List.mem_cons_self c rest) hs
      · rw [if_neg hs, ih]
        by_cases hc : (∀ d ∈ c :: rest, d.is_unknown = false)
            ∧ ((c :: rest).map Card.id).Nodup ∧ (∀ d ∈ c :: rest, d.id ∉ seen)
        · rw [if_pos, if_pos hc]
          · simp only [Option.some.injEq, Prod.mk.injEq, List.map_cons,
              List.reverse_cons, List.append_assoc, List.singleton_append,
              List.length_cons]
            exact ⟨trivial, by omega⟩
          · obtain ⟨h1, h2, h3⟩ := hc
            rw [List.map_cons] at h2
            have h2' := List.nodup_cons.mp h2
            refine ⟨fun d hd => h1 d (List.mem_cons_of_mem _ hd), h2'.2, ?_⟩
            intro d hd hmem
            rcases List.mem_cons.mp hmem with h | h
            · exact h2'.1 (h ▸ List.mem_map_of_mem Card.id hd)
            · exact h3 d (List.mem_cons_of_mem _ hd) h
        · rw [if_neg hc, if_neg]
          intro hin
          apply hc
          obtain ⟨h1, h2, h3⟩ := hin
          refine ⟨?_, ?_, ?_⟩
          · intro d hd
            rcases List.mem_cons.mp hd with rfl | h
            · exact Bool.eq_false_iff.mpr hu
            · exact h1 d h
          · simp only [List.map_cons, List.nodup_cons]
            refine ⟨?_, h2⟩
            intro hmem
            obtain ⟨d, hd, hide⟩ := List.mem_map.mp hmem
            exact h3 d hd (by rw [hide]; exact List.mem_cons_self _ _)
          · intro d hd
            rcases List.mem_cons.mp hd with rfl | h
            · exact hs
            · exact fun hm => h3 d h (List.mem_cons_of_mem _ hm)

theorem checkCards_append (l1 l2 : List Card) :
    ∀ st, checkCards (l1 ++ l2) st = (checkCards l1 st).bind (checkCards l2) := by
  induction l1 with
  | nil => intro st; simp [checkCards]
  | cons c rest ih =>
    rintro ⟨seen, cnt⟩
    rw [List.cons_append, checkCards, checkCards]
    by_cases hu : c.is_unknown
    · simp [hu]
    · by_cases hs : c.id ∈ seen
      · simp [hu, hs]
      · rw [if_neg hu, if_neg hs, if_neg hu, if_neg hs]
        exact ih _

theorem foldlM_checkCards_foundations (fs : List (Option Card)) : ∀ st,
    List.foldlM foundationStep st fs
      = checkCards (fs.map foundationCards).flatten st := by
  induction fs with
  | nil => intro st; simp [checkCards]
  | cons oc fs ih =>
    intro st
    rw [List.foldlM_cons, List.map_cons, List.flatten_cons, checkCards_append]
    cases oc with
    | none =>
      simp only [foundationStep, foundationCards]
      simpa [checkCards] using ih st
    | some c =>
      simp only [foundationStep, foundationCards]
      cases h : checkCards (foundationExpansion c) st with
      | none => rfl
      | some st' => simpa using ih st'

theorem foldlM_checkCards_tableaus (ts : List Tableau) : ∀ st,
    List.foldlM (fun st t => checkCards t.cards st) st ts
      = checkCards (ts.map Tableau.cards).flatten st := by
  induction ts with
  | nil => intro st; simp [checkCards]
  | cons t ts ih =>
    intro st
    rw [List.foldlM_cons, List.map_cons, List.flatten_cons, checkCards_append]
    cases h : checkCards t.cards st with
    | none => rfl
    | some st' => simpa using ih st'

theorem Board.is_valid_iff (b : Board) :
    b.is_valid = true ↔ (b.allCheckedCards.map Card.id).Perm (List.range MAX_CARD) := by
  have hno : ¬ (b.drawCount ≠ 1 ∧ b.drawCount ≠ 3) := by
    rcases b.drawCount_mem with h | h <;> simp [h]
  rw [Board.is_valid, if_neg hno]
  simp only [foldlM_checkCards_foundations, foldlM_checkCards_tableaus]
  simp only [← checkCards_append, List.append_assoc]
  have hacc : b.stock ++ (b.waste.cards
        ++ ((b.foundations.map foundationCards).flatten
          ++ (b.tableaus.map Tableau.cards).flatten)) = b.allCheckedCards := by
    rw [Board.allCheckedCards]
    simp [List.append_assoc]
  rw [hacc, checkCards_eq]
  by_cases hc : (∀ c ∈ b.allCheckedCards, c.is_unknown = false)
      ∧ (b.allCheckedCards.map Card.id).Nodup
      ∧ (∀ c ∈ b.allCheckedCards, c.id ∉ ([] : List Nat))
  · rw [if_pos hc]
    dsimp only
    obtain ⟨h1, h2, -⟩ := hc
    constructor
    · intro hlen
      have hlen' : b.allCheckedCards.length = MAX_CARD := by
        simpa using hlen
      have hsub : (b.allCheckedCards.map Card.id) ⊆ List.range MAX_CARD := by
        intro x hx
        obtain ⟨c, hcmem, rfl⟩ := List.mem_map.mp hx
        have := h1 c hcmem
        rw [List.mem_range]
        have hlt : ¬ (MAX_CARD ≤ c.val) := by
          simpa [Card.is_unknown] using this
        simpa [Card.id] using Nat.lt_of_not_le hlt
      refine (h2.subperm hsub).perm_of_length_le ?_
      simp [hlen', List.length_range]
    · intro hperm
      have := hperm.length_eq
      simp only [List.length_map, List.length_range] at this
      simp [this]
  · rw [if_neg hc]
    constructor
    · intro h; cases h
    · intro hperm
      exfalso
      apply hc
      refine ⟨?_, hperm.nodup_iff.mpr (List.nodup_range _),
        fun c _ h => List.not_mem_nil _ h⟩
      · intro c hcmem
        have hidmem : c.id ∈ List.range MAX_CARD :=
          (hperm.mem_iff).mp (List.mem_map_of_mem Card.id hcmem)
        have := List.mem_range.mp hidmem
        simp only [Card.is_unknown]
        exact decide_eq_false (by simpa [Card.id] using Nat.not_le_of_lt this)

/-- A fully won board: four kings on the foundations, everything else empty,
but a configured draw count of 7. -/
def c3CexBoard : Board :=
  { stock := []
    waste := ⟨[], 0⟩
    foundations := [some ⟨12⟩, some ⟨25⟩, some ⟨38⟩, some ⟨51⟩]
    tableaus := List.replicate 7 ⟨[], 0⟩
    draw_count := 7 }

/-- C3 counterexample: a board whose configured draw count is 7 (neither 1
nor 3) on which `solve` does NOT fail with `InvalidBoard`, refuting the
original claim's "in particular" clause: the configured draw count is
normalized by `Board::draw_count()` before the check. -/
theorem C3_draw_count_counterexample :
    (c3CexBoard.draw_count ≠ 1 ∧ c3CexBoard.draw_count ≠ 3)
      ∧ solveInvalidBoard c3CexBoard = false := by
  constructor
  · exact ⟨by decide, by decide⟩
  · decide

/-- C3 (amended): `solve` returns `InvalidBoard` iff the board's card
multiset, with each non-empty foundation expanded to all ranks up to its top
card, is not exactly the 52-card deck.  The draw-count clause of the original
claim is vacuous: `Board::draw_count()` normalizes every configured value
other than 3 to 1, so the effective draw count is always 1 or 3 and a board
with any configured draw count can be accepted. -/
theorem C3_invalid_board_iff (b : Board) :
    solveInvalidBoard b = true
      ↔ ¬ (b.allCheckedCards.map Card.id).Perm (List.range MAX_CARD) := by
  have h := Board.is_valid_iff b
  constructor
  · intro hs hperm
    have hv : b.is_valid = true := h.mpr hperm
    rw [solveInvalidBoard, hv] at hs
    exact Bool.false_ne_true hs
  · intro hnp
    rw [solveInvalidBoard]
    cases hv : b.is_valid
    · rfl
    · exact absurd (h.mp hv) hnp

/-! ## C8: the foundation-run invariant

`set_board` (solver.rs:708-771) builds each non-empty foundation as a full
suit run and assigns `suits_to_foundations`; every generator-produced move
either leaves the foundations untouched, pushes the unique next card of a
suit onto its assigned foundation (guarded by `can_move_to_foundation`), or
pops one card off a foundation top.  The invariant below is preserved. -/

/-- A pile holding exactly the cards rank `0..len-1` of suit `su`, bottom to
top. -/
def foundationRun (su : Nat) (p : Pile) : Prop :=
  p.cards = (List.range p.cards.length).map fun r => CardExt.new_with_rank_suit r su

/-- A genuine card: in the image of `CardExt::new_with_id` for a real id. -/
def CardExt.wf (c : CardExt) : Prop := ∃ id < MAX_CARD, c = CardExt.new_with_id id

/-- Every card of every pile is genuine. -/
def Solver.CardsWF (s : Solver) : Prop := ∀ i, ∀ c ∈ (s.piles i).cards, c.wf

/-- The foundation bookkeeping invariant: `suits_to_foundations` is an
injection of the four suits onto the four foundation piles, and each
assigned pile is the run of its suit. -/
def Solver.FoundationInv (s : Solver) : Prop :=
  (∀ su, su < MAX_SUIT → isFoundation (s.suits_to_foundations su))
    ∧ (∀ su1, su1 < MAX_SUIT → ∀ su2, su2 < MAX_SUIT →
        s.suits_to_foundations su1 = s.suits_to_foundations su2 → su1 = su2)
    ∧ (∀ fi, isFoundation fi → ∃ su, su < MAX_SUIT ∧ s.suits_to_foundations su = fi)
    ∧ (∀ su, su < MAX_SUIT → foundationRun su (s.piles (s.suits_to_foundations su))
        ∧ (s.piles (s.suits_to_foundations su)).cards.length ≤ MAX_RANK)

def Solver.Inv (s : Solver) : Prop := s.CardsWF ∧ s.FoundationInv

/-- States reachable by applying generator-produced moves. -/
inductive Reachable (s0 : Solver) : Solver → Prop
  | refl : Reachable s0 s0
  | step (s : Solver) (m : Move) (hs : Reachable s0 s)
      (hm : m ∈ s.computePossibleMoves) : Reachable s0 (s.make_move m)

/-! ### Pile-operation membership lemmas -/

theorem Pile.getD_mem {l : List CardExt} {i : Nat} (h : i < l.length) :
    l.getD i CardExt.UNKNOWN ∈ l := by
  rw [List.getD_eq_getElem l CardExt.UNKNOWN h]
  exact List.getElem_mem h

theorem Pile.mem_of_getLast? {l : List CardExt} {c : CardExt}
    (h : l.getLast? = some c) : c ∈ l := by
  cases l with
  | nil => simp at h
  | cons x xs =>
    rw [List.getLast?_eq_getLast (x :: xs) (by simp)] at h
    cases h
    exact List.getLast_mem _

theorem Pile.mem_pop_card_to_fst {a b : Pile} {c : CardExt}
    (h : c ∈ ((Pile.pop_card_to a b).1).cards) : c ∈ a.cards := by
  rw [Pile.pop_card_to] at h
  cases hl : a.cards.getLast? with
  | none => rw [hl] at h; exact h
  | some x =>
    rw [hl] at h
    exact (List.dropLast_sublist a.cards).subset h

theorem Pile.mem_pop_card_to_snd {a b : Pile} {c : CardExt}
    (h : c ∈ ((Pile.pop_card_to a b).2).cards) : c ∈ a.cards ∨ c ∈ b.cards := by
  rw [Pile.pop_card_to] at h
  cases hl : a.cards.getLast? with
  | none => rw [hl] at h; exact Or.inr h
  | some x =>
    rw [hl] at h
    have h' : c ∈ b.cards ++ [x] := h
    rcases List.mem_append.mp h' with h | h
    · exact Or.inr h
    · rw [List.mem_singleton.mp h]
      exact Or.inl (Pile.mem_of_getLast? hl)

theorem Pile.mem_move_n_fst {a b : Pile} {n : Nat} {c : CardExt}
    (h : c ∈ ((Pile.move_n_cards_to a b n).1).cards) : c ∈ a.cards := by
  rw [Pile.move_n_cards_to] at h
  exact (List.take_subset _ _) h

theorem Pile.mem_move_n_snd {a b : Pile} {n : Nat} {c : CardExt}
    (h : c ∈ ((Pile.move_n_cards_to a b n).2).cards) : c ∈ a.cards ∨ c ∈ b.cards := by
  rw [Pile.move_n_cards_to] at h
  rcases List.mem_append.mp h with h | h
  · exact Or.inr h
  · exact Or.inl ((List.drop_subset _ _) h)

theorem Pile.mem_move_n_rev_fst {a b : Pile} {n : Nat} {c : CardExt}
    (h : c ∈ ((Pile.move_n_cards_reversed_to a b n).1).cards) : c ∈ a.cards := by
  rw [Pile.move_n_cards_reversed_to] at h
  exact (List.take_subset _ _) h

theorem Pile.mem_move_n_rev_snd {a b : Pile} {n : Nat} {c : CardExt}
    (h : c ∈ ((Pile.move_n_cards_reversed_to a b n).2).cards) :
    c ∈ a.cards ∨ c ∈ b.cards := by
  rw [Pile.move_n_cards_reversed_to] at h
  rcases List.mem_append.mp h with h | h
  · exact Or.inr h
  · exact Or.inl ((List.drop_subset _ _) (List.mem_reverse.mp h))

/-! ### Cards never appear from nowhere: `CardsWF` is preserved -/

theorem CardsWF_of_piles {s t : Solver} (h : s.CardsWF)
    (hps : ∀ k, ∀ c ∈ (t.piles k).cards, ∃ l, c ∈ (s.piles l).cards) : t.CardsWF := by
  intro i c hc
  obtain ⟨l, hl⟩ := hps i c hc
  exact h l c hl

theorem movePilePair_mem (ps : Nat → Pile) (i j : Nat) (op : Pile → Pile → Pile × Pile)
    (h1 : ∀ c ∈ ((op (ps i) (ps j)).1).cards, c ∈ (ps i).cards ∨ c ∈ (ps j).cards)
    (h2 : ∀ c ∈ ((op (ps i) (ps j)).2).cards, c ∈ (ps i).cards ∨ c ∈ (ps j).cards) :
    ∀ k, ∀ c ∈ ((movePilePair ps i j op) k).cards, ∃ l, c ∈ (ps l).cards := by
  intro k c hc
  rw [movePilePair] at hc
  by_cases hkj : k = j
  · subst hkj
    rw [Function.update_same] at hc
    rcases h2 c hc with h | h
    · exact ⟨i, h⟩
    · exact ⟨k, h⟩
  · rw [Function.update_noteq hkj] at hc
    by_cases hki : k = i
    · subst hki
      rw [Function.update_same] at hc
      rcases h1 c hc with h | h
      · exact ⟨k, h⟩
      · exact ⟨j, h⟩
    · rw [Function.update_noteq hki] at hc
      exact ⟨k, hc⟩

theorem CardsWF_makePhaseDraw (s : Solver) (m : Move) (h : s.CardsWF) :
    (s.makePhaseDraw m).CardsWF := by
  apply CardsWF_of_piles h
  rw [Solver.makePhaseDraw]
  dsimp only
  split_ifs <;>
    first
      | exact fun k c hc => ⟨k, hc⟩
      | (apply movePilePair_mem
         · intro c hc
           exact Or.inl (Pile.mem_move_n_rev_fst hc)
         · intro c hc
           exact Pile.mem_move_n_rev_snd hc)

theorem CardsWF_makePhaseMove (s : Solver) (m : Move) (h : s.CardsWF) :
    (s.makePhaseMove m).CardsWF := by
  apply CardsWF_of_piles h
  rw [Solver.makePhaseMove]
  dsimp only
  split_ifs <;>
    first
      | (apply movePilePair_mem
         · intro c hc
           exact Or.inl (Pile.mem_pop_card_to_fst hc)
         · intro c hc
           exact Pile.mem_pop_card_to_snd hc)
      | (apply movePilePair_mem
         · intro c hc
           exact Or.inl (Pile.mem_move_n_fst hc)
         · intro c hc
           exact Pile.mem_move_n_snd hc)

theorem CardsWF_makePhaseFlip (s : Solver) (m : Move) (h : s.CardsWF) :
    (s.makePhaseFlip m).CardsWF := by
  apply CardsWF_of_piles h
  rw [Solver.makePhaseFlip]
  dsimp only
  split_ifs with h1
  · intro k c hc
    have hc' : c ∈ (Function.update s.piles m.src
        ((s.piles m.src).set_face_up_count 1) k).cards := hc
    by_cases hk : k = m.src
    · subst hk
      rw [Function.update_same] at hc'
      exact ⟨m.src, hc'⟩
    · rw [Function.update_noteq hk] at hc'
      exact ⟨k, hc'⟩
  · exact fun k c hc => ⟨k, hc⟩

theorem CardsWF_make_move (s : Solver) (m : Move) (h : s.CardsWF) :
    (s.make_move m).CardsWF := by
  rw [Solver.make_move]
  exact CardsWF_makePhaseFlip _ _ (CardsWF_makePhaseMove _ _ (CardsWF_makePhaseDraw _ _ h))

/-! ### Frame lemmas: piles and fields the phases leave alone -/

theorem makePhaseDraw_piles_frame (s : Solver) (m : Move) (fi : Nat)
    (h0 : fi ≠ PILE_STOCK) (h1 : fi ≠ PILE_WASTE) :
    (s.makePhaseDraw m).piles fi = s.piles fi := by
  rw [Solver.makePhaseDraw]
  dsimp only
  split_ifs
  · show movePilePair s.piles PILE_STOCK PILE_WASTE
        (fun a b => a.move_n_cards_reversed_to b m.cnt) fi = s.piles fi
    exact movePilePair_other h0 h1 _
  · show movePilePair s.piles PILE_WASTE PILE_STOCK
        (fun a b => a.move_n_cards_reversed_to b
          ((s.piles PILE_STOCK).size + (s.piles PILE_WASTE).size - m.cnt)) fi
      = s.piles fi
    exact movePilePair_other h1 h0 _
  · show movePilePair s.piles PILE_STOCK PILE_WASTE
        (fun a b => a.move_n_cards_reversed_to b
          (m.cnt - ((s.piles PILE_STOCK).size + (s.piles PILE_WASTE).size))) fi
      = s.piles fi
    exact movePilePair_other h0 h1 _
  · rfl

theorem makePhaseMove_piles_frame (s : Solver) (m : Move) (fi : Nat)
    (hsrc : fi ≠ m.src) (hdst : fi ≠ m.dst) :
    (s.makePhaseMove m).piles fi = s.piles fi := by
  rw [Solver.makePhaseMove]
  dsimp only
  split_ifs <;>
    first
      | (show movePilePair s.piles m.src m.dst (fun a b => a.pop_card_to b) fi
            = s.piles fi
         exact movePilePair_other hsrc hdst _)
      | (show movePilePair s.piles m.src m.dst
              (fun a b => a.move_n_cards_to b m.cnt) fi = s.piles fi
         exact movePilePair_other hsrc hdst _)

theorem makePhaseFlip_piles_frame (s : Solver) (m : Move) (fi : Nat)
    (hsrc : fi ≠ m.src) :
    (s.makePhaseFlip m).piles fi = s.piles fi := by
  rw [Solver.makePhaseFlip]
  dsimp only
  split_ifs
  · show Function.update s.piles m.src ((s.piles m.src).set_face_up_count 1) fi
      = s.piles fi
    exact Function.update_noteq hsrc _ _
  · rfl

theorem makePhaseDraw_s2f (s : Solver) (m : Move) :
    (s.makePhaseDraw m).suits_to_foundations = s.suits_to_foundations := by
  rw [Solver.makePhaseDraw]
  dsimp only
  split_ifs <;> rfl

theorem makePhaseMove_s2f (s : Solver) (m : Move) :
    (s.makePhaseMove m).suits_to_foundations = s.suits_to_foundations := by
  rw [Solver.makePhaseMove]
  dsimp only
  split_ifs <;> rfl

theorem makePhaseFlip_s2f (s : Solver) (m : Move) :
    (s.makePhaseFlip m).suits_to_foundations = s.suits_to_foundations := by
  rw [Solver.makePhaseFlip]
  dsimp only
  split_ifs <;> rfl

theorem make_move_s2f (s : Solver) (m : Move) :
    (s.make_move m).suits_to_foundations = s.suits_to_foundations := by
  rw [Solver.make_move, makePhaseFlip_s2f, makePhaseMove_s2f, makePhaseDraw_s2f]

/-! ### The single-card phase as a pop/push pair -/

theorem getLast?_eq_peek (p : Pile) (h : p.cards ≠ []) :
    p.cards.getLast? = some p.peek_top_unchecked := by
  have hpos : 0 < p.cards.length := List.length_pos.mpr h
  have hlt : p.cards.length - 1 < p.cards.length := by omega
  rw [List.getLast?_eq_getElem?, List.getElem?_eq_getElem hlt,
    Pile.peek_top_unchecked, List.getD_eq_getElem _ _ hlt]

theorem makePhaseMove_dst_pop (s : Solver) (m : Move)
    (hcond : m.src = PILE_WASTE ∨ m.cnt = 1) (_hne : m.src ≠ m.dst)
    (hnz : (s.piles m.src).cards ≠ []) :
    ((s.makePhaseMove m).piles m.dst).cards
      = (s.piles m.dst).cards ++ [(s.piles m.src).peek_top_unchecked] := by
  rw [Solver.makePhaseMove, if_pos hcond]
  dsimp only
  split_ifs <;>
  · show ((movePilePair s.piles m.src m.dst (fun a b => a.pop_card_to b) m.dst).cards = _)
    rw [movePilePair_right]
    rw [Pile.pop_card_to, getLast?_eq_peek _ hnz]
    rfl

theorem makePhaseMove_src_pop (s : Solver) (m : Move)
    (hcond : m.src = PILE_WASTE ∨ m.cnt = 1) (hne : m.src ≠ m.dst)
    (hnz : (s.piles m.src).cards ≠ []) :
    ((s.makePhaseMove m).piles m.src).cards = (s.piles m.src).cards.dropLast := by
  rw [Solver.makePhaseMove, if_pos hcond]
  dsimp only
  split_ifs <;>
  · show ((movePilePair s.piles m.src m.dst (fun a b => a.pop_card_to b) m.src).cards = _)
    rw [movePilePair_left hne]
    rw [Pile.pop_card_to, getLast?_eq_peek _ hnz]

/-! ### Foundation runs grow and shrink one card at a time -/

theorem foundationRun_push {su : Nat} {p : Pile} (h : foundationRun su p)
    {c : CardExt} (hc : c = CardExt.new_with_rank_suit p.cards.length su) {q : Pile}
    (hq : q.cards = p.cards ++ [c]) : foundationRun su q := by
  rw [foundationRun] at h ⊢
  rw [hq, h]
  have hlen : ((List.range p.cards.length).map
      (fun r => CardExt.new_with_rank_suit r su) ++ [c]).length = p.cards.length + 1 := by
    simp
  rw [hlen, List.range_succ, List.map_append]
  rw [← h, hc]
  rfl

/-! ### What the talon walks can emit -/

theorem talonStockPositions_mem (d : Nat) :
    ∀ (i : Int), ∀ x ∈ talonStockPositions d i, 0 ≤ x ∧ x ≤ i := by
  suffices H : ∀ (n : Nat) (i : Int), (i + 1).toNat = n →
      ∀ x ∈ talonStockPositions d i, 0 ≤ x ∧ x ≤ i by
    intro i
    exact H _ i rfl
  intro n
  induction n using Nat.strong_induction_on with
  | _ n ih =>
    intro i hn
    by_cases h0 : i < 0 ∨ d = 0
    · rw [talonStockPositions, if_pos h0]
      intro x hx
      cases hx
    · rw [talonStockPositions, if_neg h0]
      push_neg at h0
      intro x hx
      rcases List.mem_cons.mp hx with rfl | hx
      · omega
      · have hrec := ih (i - d + 1).toNat (by omega) (i - d) rfl x hx
        omega

theorem talonWastePositions_mem (d : Nat) (bound : Int) :
    ∀ (pw : Int), ∀ x ∈ talonWastePositions d pw bound, pw ≤ x ∧ x < bound := by
  suffices H : ∀ (n : Nat) (pw : Int), (bound - pw).toNat = n →
      ∀ x ∈ talonWastePositions d pw bound, pw ≤ x ∧ x < bound by
    intro pw
    exact H _ pw rfl
  intro n
  induction n using Nat.strong_induction_on with
  | _ n ih =>
    intro pw hn
    by_cases h0 : pw ≥ bound ∨ d = 0
    · rw [talonWastePositions, if_pos h0]
      intro x hx
      cases hx
    · rw [talonWastePositions, if_neg h0]
      push_neg at h0
      intro x hx
      rcases List.mem_cons.mp hx with rfl | hx
      · omega
      · have hrec := ih (bound - (pw + d)).toNat (by omega) (pw + d) rfl x hx
        omega

theorem talonStockWalk2_mem (st : Pile) (used : List Int) (d : Nat) (amount : Int) :
    ∀ (i : Int), ∀ p ∈ talonStockWalk2 st used d amount i,
      ∃ x : Int, 1 ≤ x ∧ x ≤ i ∧ p = (st.get x.toNat, x - amount) := by
  suffices H : ∀ (n : Nat) (i : Int), i.toNat = n →
      ∀ p ∈ talonStockWalk2 st used d amount i,
        ∃ x : Int, 1 ≤ x ∧ x ≤ i ∧ p = (st.get x.toNat, x - amount) by
    intro i
    exact H _ i rfl
  intro n
  induction n using Nat.strong_induction_on with
  | _ n ih =>
    intro i hn
    by_cases h0 : i ≤ 0 ∨ d = 0
    · rw [talonStockWalk2, if_pos h0]
      intro p hp
      cases hp
    · rw [talonStockWalk2, if_neg h0]
      push_neg at h0
      by_cases hu : i ∈ used
      · rw [if_pos hu]
        intro p hp
        cases hp
      · rw [if_neg hu]
        intro p hp
        rcases List.mem_cons.mp hp with rfl | hp
        · exact ⟨i, by omega, le_refl i, rfl⟩
        · obtain ⟨x, hx1, hx2, hx3⟩ := ih (i - d).toNat (by omega) (i - d) rfl p hp
          exact ⟨x, hx1, by omega, hx3⟩

theorem talonPhase1_mem {w : Pile} {p : CardExt × Int} (h : p ∈ talonPhase1 w) :
    w.size > 0 ∧ p = (w.peek_top_unchecked, 0) := by
  rw [talonPhase1] at h
  split_ifs at h with hw
  · exact ⟨hw, List.mem_singleton.mp h⟩
  · cases h

theorem talonPosition_le {d : Nat} {st : Pile} (hd : d ≠ 0)
    (h : 0 ≤ talonPosition d st) : talonPosition d st ≤ (st.size : Int) - 1 := by
  rw [talonPosition] at h ⊢
  split_ifs at h ⊢ with h1 h2 <;> omega

theorem talonPhase2_mem {d : Nat} {st : Pile} {p : CardExt × Int} (hd : d ≠ 0)
    (h : p ∈ talonPhase2 d st) :
    ∃ k : Nat, k < st.size ∧ p = (st.get k, (st.size : Int) - k) := by
  rw [talonPhase2, List.mem_map] at h
  obtain ⟨i, hi, hp⟩ := h
  obtain ⟨hi0, hile⟩ := talonStockPositions_mem d _ i hi
  have hle := talonPosition_le hd (le_trans hi0 hile)
  refine ⟨i.toNat, by omega, ?_⟩
  rw [← hp]
  have : ((i.toNat : Nat) : Int) = i := Int.toNat_of_nonneg hi0
  rw [this]

theorem talonPhase3_mem {d : Nat} {w st : Pile} {p : CardExt × Int} (_hd : d ≠ 0)
    (h : p ∈ talonPhase3 d w st) :
    ∃ k : Nat, (d : Int) - 1 ≤ k ∧ (k : Int) < (w.size : Int) - 1
      ∧ p = (w.get k, -((st.size : Int) + 1) - k) := by
  rw [talonPhase3, List.mem_map] at h
  obtain ⟨pw, hpw, hp⟩ := h
  obtain ⟨hlo, hhi⟩ := talonWastePositions_mem d _ _ pw hpw
  have hpw0 : 0 ≤ pw := by omega
  refine ⟨pw.toNat, by omega, by omega, ?_⟩
  rw [← hp]
  have : ((pw.toNat : Nat) : Int) = pw := Int.toNat_of_nonneg hpw0
  rw [this]

theorem talonPhase4_mem {d : Nat} {w st : Pile} {p : CardExt × Int} (_hd : d ≠ 0)
    (h : p ∈ talonPhase4 d w st) :
    ∃ x : Nat, 1 ≤ x ∧ x < st.size ∧ 1 ≤ w.size
      ∧ p = (st.get x, (x : Int) - (2 * (st.size : Int) + w.size)) := by
  rw [talonPhase4] at h
  split_ifs at h with hcond
  · obtain ⟨hposw, hw1⟩ := hcond
    obtain ⟨x, hx1, hx2, hx3⟩ := talonStockWalk2_mem _ _ _ _ _ p h
    have hx0 : 0 ≤ x := by omega
    refine ⟨x.toNat, by omega, by omega, by omega, ?_⟩
    rw [hx3]
    have hcast : ((x.toNat : Nat) : Int) = x := Int.toNat_of_nonneg hx0
    rw [hcast]
    have hamount : ((st.size : Int) + 1) + (st.size : Int) + ((w.size : Int) - 1)
        = 2 * (st.size : Int) + (w.size : Int) := by ring
    rw [hamount]
  · cases h

/-! ### The waste top after the draw phase -/

theorem getLast?_append_rev_drop (w st : List CardExt) (k : Nat) (hk : k < st.length) :
    (w ++ (st.drop k).reverse).getLast? = some (st.getD k CardExt.UNKNOWN) := by
  have hne : (st.drop k).reverse ≠ [] := by
    intro hnil
    have := congrArg List.length hnil
    simp at this
    omega
  rw [List.getLast?_append_of_ne_nil _ hne, List.getLast?_reverse, List.head?_drop,
    List.getElem?_eq_getElem hk, List.getD_eq_getElem _ _ hk]

theorem getLast?_take_succ (w : List CardExt) (k : Nat) (hk : k < w.length) :
    (w.take (k + 1)).getLast? = some (w.getD k CardExt.UNKNOWN) := by
  have hlen : (w.take (k + 1)).length = k + 1 := by
    rw [List.length_take]
    omega
  rw [List.getLast?_eq_getElem?, hlen, Nat.add_sub_cancel, List.getElem?_take,
    if_pos (Nat.lt_succ_self k), List.getElem?_eq_getElem hk,
    List.getD_eq_getElem _ _ hk]

theorem drawWaste_plain (s : Solver) (m : Move) (hsrc : m.src = PILE_WASTE)
    (hcnt0 : m.cnt ≠ 0) (hf : m.flip = false) :
    ((s.makePhaseDraw m).piles PILE_WASTE).cards
      = (s.piles PILE_WASTE).cards
          ++ ((s.piles PILE_STOCK).cards.drop
                ((s.piles PILE_STOCK).cards.length - m.cnt)).reverse := by
  rw [makePhaseDraw_plain s m hsrc hcnt0 hf]
  show ((movePilePair s.piles PILE_STOCK PILE_WASTE
      (fun a b => a.move_n_cards_reversed_to b m.cnt)) PILE_WASTE).cards = _
  rw [movePilePair_right]
  rfl

theorem drawWaste_flip_lt (s : Solver) (m : Move) (hsrc : m.src = PILE_WASTE)
    (hcnt0 : m.cnt ≠ 0) (hf : m.flip = true)
    (hlt : m.cnt < (s.piles PILE_STOCK).size + (s.piles PILE_WASTE).size) :
    ((s.makePhaseDraw m).piles PILE_WASTE).cards
      = (s.piles PILE_WASTE).cards.take
          ((s.piles PILE_WASTE).cards.length
            - ((s.piles PILE_STOCK).size + (s.piles PILE_WASTE).size - m.cnt)) := by
  rw [makePhaseDraw_flip_lt s m hsrc hcnt0 hf hlt]
  show ((movePilePair s.piles PILE_WASTE PILE_STOCK
      (fun a b => a.move_n_cards_reversed_to b
        ((s.piles PILE_STOCK).size + (s.piles PILE_WASTE).size - m.cnt))) PILE_WASTE).cards
    = _
  rw [movePilePair_left (by decide : PILE_WASTE ≠ PILE_STOCK)]
  rfl

theorem drawWaste_flip_ge (s : Solver) (m : Move) (hsrc : m.src = PILE_WASTE)
    (hcnt0 : m.cnt ≠ 0) (hf : m.flip = true)
    (hge : ¬ m.cnt < (s.piles PILE_STOCK).size + (s.piles PILE_WASTE).size) :
    ((s.makePhaseDraw m).piles PILE_WASTE).cards
      = (s.piles PILE_WASTE).cards
          ++ ((s.piles PILE_STOCK).cards.drop
                ((s.piles PILE_STOCK).cards.length
                  - (m.cnt - ((s.piles PILE_STOCK).size + (s.piles PILE_WASTE).size)))).reverse := by
  rw [makePhaseDraw_flip_ge s m hsrc hcnt0 hf hge]
  show ((movePilePair s.piles PILE_STOCK PILE_WASTE
      (fun a b => a.move_n_cards_reversed_to b
        (m.cnt - ((s.piles PILE_STOCK).size + (s.piles PILE_WASTE).size)))) PILE_WASTE).cards
    = _
  rw [movePilePair_right]
  rfl

/-- After the draw phase for a talon-emitted `(card, drawn)` pair (with the
move's count and flip read off `drawn` exactly as `compute_move_from_waste`
does), `card` sits on top of the waste. -/
theorem talon_draw_top (s : Solver) (m : Move) (card : CardExt) (drawn : Int)
    (hd : s.draw_count ≠ 0)
    (hmem : (card, drawn) ∈ TalonHelper.calculate s.draw_count
      (s.piles PILE_WASTE) (s.piles PILE_STOCK))
    (hsrc : m.src = PILE_WASTE)
    (hcnt : m.cnt = if drawn < 0 then (-drawn).toNat else drawn.toNat)
    (hflip : m.flip = decide (drawn < 0)) :
    ((s.makePhaseDraw m).piles PILE_WASTE).cards.getLast? = some card := by
  have hszst : (s.piles PILE_STOCK).size = (s.piles PILE_STOCK).cards.length := rfl
  have hszw : (s.piles PILE_WASTE).size = (s.piles PILE_WASTE).cards.length := rfl
  rw [TalonHelper.calculate] at hmem
  rw [List.append_assoc, List.append_assoc] at hmem
  rcases List.mem_append.mp hmem with h1 | hmem2
  · -- phase 1: the current waste top, no draw
    obtain ⟨hw, hp⟩ := talonPhase1_mem h1
    rw [Prod.mk.injEq] at hp
    obtain ⟨hc, hdr⟩ := hp
    have hcnt0 : m.cnt = 0 := by
      rw [hcnt, hdr]
      simp
    have hid : s.makePhaseDraw m = s := by
      rw [Solver.makePhaseDraw, if_neg]
      rintro ⟨-, hne⟩
      exact hne hcnt0
    have hne : (s.piles PILE_WASTE).cards ≠ [] := by
      intro hnil
      rw [hszw, hnil] at hw
      simp at hw
    rw [hid, getLast?_eq_peek _ hne, hc]
  · rcases List.mem_append.mp hmem2 with h2 | hmem3
    · -- phase 2: draw `drawn` fresh stock cards
      obtain ⟨k, hk, hp⟩ := talonPhase2_mem hd h2
      rw [Prod.mk.injEq] at hp
      obtain ⟨hc, hdr⟩ := hp
      have hcntv : m.cnt = (s.piles PILE_STOCK).size - k := by
        rw [hcnt, hdr, if_neg (by omega)]
        omega
      have hcnt0 : m.cnt ≠ 0 := by omega
      have hf : m.flip = false := by
        rw [hflip, hdr]
        simp
        omega
      rw [drawWaste_plain s m hsrc hcnt0 hf]
      have hidx : (s.piles PILE_STOCK).cards.length - m.cnt = k := by omega
      rw [hidx, getLast?_append_rev_drop _ _ k (by omega), hc]
      rfl
    · rcases List.mem_append.mp hmem3 with h3 | h4
      · -- phase 3: redeal, then draw down to waste position `k`
        obtain ⟨k, hklo, hkhi, hp⟩ := talonPhase3_mem hd h3
        rw [Prod.mk.injEq] at hp
        obtain ⟨hc, hdr⟩ := hp
        have hkW : k + 1 < (s.piles PILE_WASTE).size := by omega
        have hcntv : m.cnt = (s.piles PILE_STOCK).size + 1 + k := by
          rw [hcnt, hdr, if_pos (by omega)]
          omega
        have hcnt0 : m.cnt ≠ 0 := by omega
        have hf : m.flip = true := by
          rw [hflip, hdr]
          simp
          omega
        have hlt : m.cnt < (s.piles PILE_STOCK).size + (s.piles PILE_WASTE).size := by
          omega
        rw [drawWaste_flip_lt s m hsrc hcnt0 hf hlt]
        have hidx : (s.piles PILE_WASTE).cards.length
            - ((s.piles PILE_STOCK).size + (s.piles PILE_WASTE).size - m.cnt) = k + 1 := by
          omega
        rw [hidx, getLast?_take_succ _ k (by omega), hc]
        rfl
      · -- phase 4: redeal, then draw past the waste into the stock again
        obtain ⟨x, hx1, hx2, hW1, hp⟩ := talonPhase4_mem hd h4
        rw [Prod.mk.injEq] at hp
        obtain ⟨hc, hdr⟩ := hp
        have hcntv : m.cnt
            = 2 * (s.piles PILE_STOCK).size + (s.piles PILE_WASTE).size - x := by
          rw [hcnt, hdr, if_pos (by omega)]
          omega
        have hcnt0 : m.cnt ≠ 0 := by omega
        have hf : m.flip = true := by
          rw [hflip, hdr]
          simp
          omega
        have hge : ¬ m.cnt < (s.piles PILE_STOCK).size + (s.piles PILE_WASTE).size := by
          omega
        rw [drawWaste_flip_ge s m hsrc hcnt0 hf hge]
        have hidx : (s.piles PILE_STOCK).cards.length
            - (m.cnt - ((s.piles PILE_STOCK).size + (s.piles PILE_WASTE).size)) = x := by
          omega
        rw [hidx, getLast?_append_rev_drop _ _ x (by omega), hc]
        rfl

/-- The two facts downstream callers need: the waste is non-empty after the
draw phase and its top is the talon card. -/
theorem talon_draw_top_peek (s : Solver) (m : Move) (card : CardExt) (drawn : Int)
    (hd : s.draw_count ≠ 0)
    (hmem : (card, drawn) ∈ TalonHelper.calculate s.draw_count
      (s.piles PILE_WASTE) (s.piles PILE_STOCK))
    (hsrc : m.src = PILE_WASTE)
    (hcnt : m.cnt = if drawn < 0 then (-drawn).toNat else drawn.toNat)
    (hflip : m.flip = decide (drawn < 0)) :
    ((s.makePhaseDraw m).piles PILE_WASTE).cards ≠ []
      ∧ ((s.makePhaseDraw m).piles PILE_WASTE).peek_top_unchecked = card := by
  have h := talon_draw_top s m card drawn hd hmem hsrc hcnt hflip
  have hne : ((s.makePhaseDraw m).piles PILE_WASTE).cards ≠ [] := by
    intro hnil
    rw [hnil] at h
    cases h
  refine ⟨hne, ?_⟩
  have h2 := getLast?_eq_peek _ hne
  rw [h] at h2
  exact (Option.some.injEq _ _ ▸ h2).symm

theorem foundationRun_dropLast {su : Nat} {p q : Pile} (h : foundationRun su p)
    (hq : q.cards = p.cards.dropLast) : foundationRun su q := by
  rw [foundationRun] at h ⊢
  rcases hn : p.cards.length with _ | n
  · have hnil : p.cards = [] := List.length_eq_zero.mp hn
    rw [hq, hnil]
    rfl
  · rw [hn, List.range_succ, List.map_append] at h
    have hdrop : p.cards.dropLast = (List.range n).map
        (fun r => CardExt.new_with_rank_suit r su) := by
      rw [h]
      exact List.dropLast_concat
    rw [hq, hdrop]
    have : ((List.range n).map (fun r => CardExt.new_with_rank_suit r su)).length = n := by
      simp
    rw [this]

/-! ### What `can_move_to_foundation` guarantees -/

theorem isFoundation_bounds {i : Nat} (h : isFoundation i) : 2 ≤ i ∧ i ≤ 5 := h

theorem isTableau_bounds {i : Nat} (h : isTableau i) : 6 ≤ i ∧ i ≤ 12 := h

theorem can_move_to_foundation_spec (s : Solver) (c : CardExt) (fi : Nat)
    (h : s.can_move_to_foundation c = some fi) :
    c.is_unknown = false ∧ s.suits_to_foundations c.suit = fi
      ∧ (s.piles fi).size = c.rank := by
  rw [Solver.can_move_to_foundation] at h
  by_cases hu : c.is_unknown
  · rw [if_pos hu] at h
    cases h
  · rw [if_neg hu] at h
    dsimp only at h
    by_cases hsz : (s.piles (s.suits_to_foundations c.suit)).size = c.rank
    · rw [if_pos hsz] at h
      cases h
      exact ⟨Bool.eq_false_iff.mpr hu, rfl, hsz⟩
    · rw [if_neg hsz] at h
      cases h

theorem CardExt.new_with_id_rank (id : Nat) (h : id < MAX_CARD) :
    (CardExt.new_with_id id).rank = id % MAX_RANK := by
  rw [CardExt.new_with_id, if_neg (by omega)]

theorem CardExt.new_with_id_suit (id : Nat) (h : id < MAX_CARD) :
    (CardExt.new_with_id id).suit = id / MAX_RANK := by
  rw [CardExt.new_with_id, if_neg (by omega)]

theorem CardExt.wf_rank_lt {c : CardExt} (h : c.wf) : c.rank < MAX_RANK := by
  obtain ⟨id, hid, rfl⟩ := h
  rw [CardExt.new_with_id_rank id hid]
  show id % 13 < 13
  omega

theorem CardExt.wf_canonical {c : CardExt} (h : c.wf) :
    c.suit < MAX_SUIT ∧ CardExt.new_with_rank_suit c.rank c.suit = c := by
  obtain ⟨id, hid, rfl⟩ := h
  constructor
  · rw [CardExt.new_with_id_suit id hid]
    have hid' : id < 52 := hid
    show id / 13 < 4
    omega
  · rw [CardExt.new_with_rank_suit, CardExt.new_with_id_rank id hid,
      CardExt.new_with_id_suit id hid]
    congr 1
    have hid' : id < 52 := hid
    show id / 13 * 13 + id % 13 = id
    omega

/-! ### `FoundationInv` through the phases -/

theorem FoundationInv_makePhaseDraw (s : Solver) (m : Move) (h : s.FoundationInv) :
    (s.makePhaseDraw m).FoundationInv := by
  obtain ⟨hmaps, hinj, hsurj, hrun⟩ := h
  refine ⟨?_, ?_, ?_, ?_⟩
  · intro su hsu
    rw [makePhaseDraw_s2f]
    exact hmaps su hsu
  · intro su1 h1 su2 h2
    rw [makePhaseDraw_s2f]
    exact hinj su1 h1 su2 h2
  · intro fi hfi
    rw [makePhaseDraw_s2f]
    exact hsurj fi hfi
  · intro su hsu
    rw [makePhaseDraw_s2f]
    obtain ⟨hlo, hhi⟩ := isFoundation_bounds (hmaps su hsu)
    have hne0 : s.suits_to_foundations su ≠ PILE_STOCK := by
      show s.suits_to_foundations su ≠ 0
      omega
    have hne1 : s.suits_to_foundations su ≠ PILE_WASTE := by
      show s.suits_to_foundations su ≠ 1
      omega
    rw [makePhaseDraw_piles_frame s m _ hne0 hne1]
    exact hrun su hsu

theorem FoundationInv_makePhaseFlip (s : Solver) (m : Move) (h : s.FoundationInv) :
    (s.makePhaseFlip m).FoundationInv := by
  obtain ⟨hmaps, hinj, hsurj, hrun⟩ := h
  refine ⟨?_, ?_, ?_, ?_⟩
  · intro su hsu
    rw [makePhaseFlip_s2f]
    exact hmaps su hsu
  · intro su1 h1 su2 h2
    rw [makePhaseFlip_s2f]
    exact hinj su1 h1 su2 h2
  · intro fi hfi
    rw [makePhaseFlip_s2f]
    exact hsurj fi hfi
  · intro su hsu
    rw [makePhaseFlip_s2f]
    rw [Solver.makePhaseFlip]
    dsimp only
    split_ifs with hc
    · obtain ⟨hlo, hhi⟩ := isFoundation_bounds (hmaps su hsu)
      obtain ⟨htlo, hthi⟩ := isTableau_bounds hc.2
      show foundationRun su (Function.update s.piles m.src
          ((s.piles m.src).set_face_up_count 1) (s.suits_to_foundations su))
        ∧ (Function.update s.piles m.src ((s.piles m.src).set_face_up_count 1)
            (s.suits_to_foundations su)).cards.length ≤ MAX_RANK
      rw [Function.update_noteq (by omega)]
      exact hrun su hsu
    · exact hrun su hsu

theorem FoundationInv_push (s : Solver) (m : Move)
    (hW : s.CardsWF) (hF : s.FoundationInv)
    (hcond : m.src = PILE_WASTE ∨ m.cnt = 1)
    (hne : m.src ≠ m.dst)
    (hsrc_nf : ¬ isFoundation m.src)
    (hnz : (s.piles m.src).cards ≠ [])
    (hcm : s.can_move_to_foundation ((s.piles m.src).peek_top_unchecked) = some m.dst) :
    (s.makePhaseMove m).FoundationInv := by
  obtain ⟨hmaps, hinj, hsurj, hrun⟩ := hF
  obtain ⟨hcu, hcs2f, hcsz⟩ :=
    can_move_to_foundation_spec s ((s.piles m.src).peek_top_unchecked) m.dst hcm
  have hcwf : ((s.piles m.src).peek_top_unchecked).wf := by
    apply hW m.src
    have hpos : 0 < (s.piles m.src).cards.length := List.length_pos.mpr hnz
    exact Pile.getD_mem (by omega)
  obtain ⟨hcsuit4, hcanon⟩ := CardExt.wf_canonical hcwf
  refine ⟨?_, ?_, ?_, ?_⟩
  · intro su hsu
    rw [makePhaseMove_s2f]
    exact hmaps su hsu
  · intro su1 h1 su2 h2
    rw [makePhaseMove_s2f]
    exact hinj su1 h1 su2 h2
  · intro fi hfi
    rw [makePhaseMove_s2f]
    exact hsurj fi hfi
  · intro su hsu
    rw [makePhaseMove_s2f]
    by_cases hfd : s.suits_to_foundations su = m.dst
    · have hsu_eq : su = ((s.piles m.src).peek_top_unchecked).suit :=
        hinj su hsu _ hcsuit4 (by rw [hfd, hcs2f])
      have hrl := hrun su hsu
      rw [hfd] at hrl
      obtain ⟨hrun_dst, hlen_dst⟩ := hrl
      have hrank_lt : ((s.piles m.src).peek_top_unchecked).rank < MAX_RANK :=
        CardExt.wf_rank_lt hcwf
      have hlen : (s.piles m.dst).cards.length
          = ((s.piles m.src).peek_top_unchecked).rank := hcsz
      rw [hfd]
      constructor
      · refine foundationRun_push hrun_dst ?_ (makePhaseMove_dst_pop s m hcond hne hnz)
        rw [hlen, hsu_eq]
        exact hcanon.symm
      · have hlen2 : ((s.makePhaseMove m).piles m.dst).cards.length
            = (s.piles m.dst).cards.length + 1 := by
          rw [makePhaseMove_dst_pop s m hcond hne hnz]
          simp
        rw [hlen2]
        omega
    · have hfs : s.suits_to_foundations su ≠ m.src := by
        intro h'
        exact hsrc_nf (h' ▸ hmaps su hsu)
      rw [makePhaseMove_piles_frame s m _ hfs hfd]
      exact hrun su hsu

theorem FoundationInv_no_push (s : Solver) (m : Move) (hF : s.FoundationInv)
    (hdst_nf : ¬ isFoundation m.dst)
    (hne : m.src ≠ m.dst)
    (hsrc_case : isFoundation m.src →
      ((m.src = PILE_WASTE ∨ m.cnt = 1) ∧ (s.piles m.src).cards ≠ [])) :
    (s.makePhaseMove m).FoundationInv := by
  obtain ⟨hmaps, hinj, hsurj, hrun⟩ := hF
  refine ⟨?_, ?_, ?_, ?_⟩
  · intro su hsu
    rw [makePhaseMove_s2f]
    exact hmaps su hsu
  · intro su1 h1 su2 h2
    rw [makePhaseMove_s2f]
    exact hinj su1 h1 su2 h2
  · intro fi hfi
    rw [makePhaseMove_s2f]
    exact hsurj fi hfi
  · intro su hsu
    rw [makePhaseMove_s2f]
    by_cases hfs : s.suits_to_foundations su = m.src
    · have hfsrc : isFoundation m.src := hfs ▸ hmaps su hsu
      obtain ⟨hcond, hnz⟩ := hsrc_case hfsrc
      have hrl := hrun su hsu
      rw [hfs] at hrl
      obtain ⟨hrun_src, hlen_src⟩ := hrl
      rw [hfs]
      constructor
      · exact foundationRun_dropLast hrun_src (makePhaseMove_src_pop s m hcond hne hnz)
      · have hlen2 : ((s.makePhaseMove m).piles m.src).cards.length
            = (s.piles m.src).cards.length - 1 := by
          rw [makePhaseMove_src_pop s m hcond hne hnz]
          simp
        rw [hlen2]
        omega
    · have hfd : s.suits_to_foundations su ≠ m.dst := by
        intro h'
        exact hdst_nf (h' ▸ hmaps su hsu)
      rw [makePhaseMove_piles_frame s m _ hfs hfd]
      exact hrun su hsu

/-! ### The shape of generator-produced moves -/

/-- Classification of every move `compute_possible_moves` can emit, with the
facts the foundation invariant needs: a tableau top moved to its foundation,
a talon card drawn and moved to its foundation, a foundation top moved to a
tableau, or a move not touching the foundations at all. -/
def Solver.MoveOk (s : Solver) (m : Move) : Prop :=
  (isTableau m.src ∧ isFoundation m.dst ∧ m.cnt = 1
      ∧ (s.piles m.src).cards ≠ []
      ∧ s.can_move_to_foundation ((s.piles m.src).peek_top_unchecked) = some m.dst)
    ∨ (m.src = PILE_WASTE ∧ isFoundation m.dst
      ∧ ∃ card drawn, (card, drawn) ∈ TalonHelper.calculate s.draw_count
            (s.piles PILE_WASTE) (s.piles PILE_STOCK)
          ∧ s.can_move_to_foundation card = some m.dst
          ∧ m.cnt = (if drawn < 0 then (-drawn).toNat else drawn.toNat)
          ∧ m.flip = decide (drawn < 0))
    ∨ (isFoundation m.src ∧ isTableau m.dst ∧ m.cnt = 1
      ∧ (s.piles m.src).cards ≠ [])
    ∨ (¬ isFoundation m.src ∧ ¬ isFoundation m.dst ∧ m.src ≠ m.dst)

theorem peek_wf (s : Solver) (hW : s.CardsWF) (i : Nat)
    (hnz : (s.piles i).cards ≠ []) : ((s.piles i).peek_top_unchecked).wf := by
  apply hW i
  have hpos : 0 < (s.piles i).cards.length := List.length_pos.mpr hnz
  exact Pile.getD_mem (by omega)

theorem can_move_isFoundation (s : Solver)
    (hmaps : ∀ su, su < MAX_SUIT → isFoundation (s.suits_to_foundations su))
    {card : CardExt} (hwf : card.wf) {fi : Nat}
    (h : s.can_move_to_foundation card = some fi) : isFoundation fi := by
  obtain ⟨-, hsf, -⟩ := can_move_to_foundation_spec s card fi h
  obtain ⟨hsuit, -⟩ := CardExt.wf_canonical hwf
  rw [← hsf]
  exact hmaps _ hsuit

theorem talon_card_wf (s : Solver) (hW : s.CardsWF) {card : CardExt} {drawn : Int}
    (hd : s.draw_count ≠ 0)
    (hmem : (card, drawn) ∈ TalonHelper.calculate s.draw_count
      (s.piles PILE_WASTE) (s.piles PILE_STOCK)) : card.wf := by
  rw [TalonHelper.calculate, List.append_assoc, List.append_assoc] at hmem
  rcases List.mem_append.mp hmem with h1 | hmem2
  · obtain ⟨hw, hp⟩ := talonPhase1_mem h1
    rw [Prod.mk.injEq] at hp
    rw [hp.1]
    apply peek_wf s hW PILE_WASTE
    intro hnil
    have : (s.piles PILE_WASTE).size = 0 := by
      show (s.piles PILE_WASTE).cards.length = 0
      rw [hnil]
      rfl
    omega
  · rcases List.mem_append.mp hmem2 with h2 | hmem3
    · obtain ⟨k, hk, hp⟩ := talonPhase2_mem hd h2
      rw [Prod.mk.injEq] at hp
      rw [hp.1]
      exact hW PILE_STOCK _ (Pile.getD_mem hk)
    · rcases List.mem_append.mp hmem3 with h3 | h4
      · obtain ⟨k, hklo, hkhi, hp⟩ := talonPhase3_mem hd h3
        rw [Prod.mk.injEq] at hp
        rw [hp.1]
        have hkw : k < (s.piles PILE_WASTE).cards.length := by
          have : k < (s.piles PILE_WASTE).size := by omega
          exact this
        exact hW PILE_WASTE _ (Pile.getD_mem hkw)
      · obtain ⟨x, hx1, hx2, hW1, hp⟩ := talonPhase4_mem hd h4
        rw [Prod.mk.injEq] at hp
        rw [hp.1]
        exact hW PILE_STOCK _ (Pile.getD_mem hx2)

theorem can_move_to_foundation_stable (s t : Solver) (card : CardExt) (fi : Nat)
    (h : s.can_move_to_foundation card = some fi)
    (hs2f : t.suits_to_foundations = s.suits_to_foundations)
    (hpile : t.piles fi = s.piles fi) :
    t.can_move_to_foundation card = some fi := by
  obtain ⟨hu, hsf, hsz⟩ := can_move_to_foundation_spec s card fi h
  rw [Solver.can_move_to_foundation, if_neg (by rw [hu]; exact Bool.false_ne_true)]
  dsimp only
  rw [hs2f, hsf, hpile, if_pos hsz]

/-- `Inv` is preserved by any generator-shaped move. -/
theorem Inv_make_move (s : Solver) (m : Move)
    (hdc : s.draw_count ≠ 0)
    (hI : s.Inv) (hok : s.MoveOk m) : (s.make_move m).Inv := by
  obtain ⟨hW, hF⟩ := hI
  refine ⟨CardsWF_make_move s m hW, ?_⟩
  rw [Solver.make_move]
  have hW1 : Solver.CardsWF {s with moves := m :: s.moves, last_move := m} := hW
  have hF1 : Solver.FoundationInv {s with moves := m :: s.moves, last_move := m} := hF
  apply FoundationInv_makePhaseFlip
  rcases hok with ⟨ht, hfd, hc1, hnz, hcm⟩
    | ⟨hsrc, hfd, card, drawn, hmem, hcm, hcnt, hflip⟩
    | ⟨hfs, htd, hc1, hnz⟩
    | ⟨hnf1, hnf2, hne⟩
  · -- tableau → foundation
    obtain ⟨htlo, hthi⟩ := isTableau_bounds ht
    obtain ⟨hflo, hfhi⟩ := isFoundation_bounds hfd
    have hid : Solver.makePhaseDraw {s with moves := m :: s.moves, last_move := m} m
        = {s with moves := m :: s.moves, last_move := m} := by
      rw [Solver.makePhaseDraw, if_neg]
      rintro ⟨hw, -⟩
      have hw1 : m.src = 1 := hw
      omega
    rw [hid]
    exact FoundationInv_push _ m hW1 hF1 (Or.inr hc1) (by omega)
      (fun hf => by have := isFoundation_bounds hf; omega) hnz hcm
  · -- waste → foundation (via the talon)
    obtain ⟨hflo, hfhi⟩ := isFoundation_bounds hfd
    have hW2 := CardsWF_makePhaseDraw {s with moves := m :: s.moves, last_move := m} m hW1
    have hF2 := FoundationInv_makePhaseDraw {s with moves := m :: s.moves, last_move := m} m hF1
    obtain ⟨hpk_ne, hpk⟩ := talon_draw_top_peek
      {s with moves := m :: s.moves, last_move := m} m card drawn hdc hmem hsrc hcnt hflip
    apply FoundationInv_push _ m hW2 hF2 (Or.inl hsrc)
    · have hw1 : m.src = 1 := hsrc
      omega
    · intro hf
      have := isFoundation_bounds hf
      have hw1 : m.src = 1 := hsrc
      omega
    · rw [hsrc]
      exact hpk_ne
    · rw [hsrc, hpk]
      apply can_move_to_foundation_stable {s with moves := m :: s.moves, last_move := m}
        _ card m.dst hcm
      · exact makePhaseDraw_s2f _ m
      · exact makePhaseDraw_piles_frame _ m m.dst
          (by show m.dst ≠ 0; omega) (by show m.dst ≠ 1; omega)
  · -- foundation → tableau
    obtain ⟨hflo, hfhi⟩ := isFoundation_bounds hfs
    obtain ⟨htlo, hthi⟩ := isTableau_bounds htd
    have hid : Solver.makePhaseDraw {s with moves := m :: s.moves, last_move := m} m
        = {s with moves := m :: s.moves, last_move := m} := by
      rw [Solver.makePhaseDraw, if_neg]
      rintro ⟨hw, -⟩
      have hw1 : m.src = 1 := hw
      omega
    rw [hid]
    exact FoundationInv_no_push _ m hF1
      (fun hf => by have := isFoundation_bounds hf; omega)
      (by omega)
      (fun _ => ⟨Or.inr hc1, hnz⟩)
  · -- foundations untouched
    have hF2 := FoundationInv_makePhaseDraw {s with moves := m :: s.moves, last_move := m} m hF1
    exact FoundationInv_no_push _ m hF2 hnf2 hne (fun hf => absurd hf hnf1)

/-! ### What each generator loop can emit -/

theorem TABLEAU_IDXS_isTableau : ∀ t ∈ TABLEAU_IDXS, isTableau t := by decide

theorem FOUNDATION_IDXS_isFoundation : ∀ f ∈ FOUNDATION_IDXS, isFoundation f := by decide

theorem foundationMinimumCalc_pos (s : Solver) : 1 ≤ s.foundationMinimumCalc := by
  rw [Solver.foundationMinimumCalc]
  omega

theorem tableauDestLoop_mem (s : Solver) (e src : Nat) (sp : Pile) (st sf : CardExt)
    (span : Int) :
    ∀ (l : List Nat) (km : Bool), ∀ mv ∈ tableauDestLoop s e src sp st sf span l km,
      mv.src = src ∧ ∃ dest ∈ l, mv.dst = dest ∧ src ≠ dest := by
  intro l
  induction l with
  | nil =>
    intro km mv hmv
    rw [tableauDestLoop] at hmv
    cases hmv
  | cons dest rest ih =>
    intro km mv hmv
    rw [tableauDestLoop] at hmv
    dsimp only at hmv
    by_cases hsd : src = dest
    · rw [if_pos hsd] at hmv
      obtain ⟨h1, d, hd, h2⟩ := ih km mv hmv
      exact ⟨h1, d, List.mem_cons_of_mem _ hd, h2⟩
    · rw [if_neg hsd] at hmv
      split_ifs at hmv <;>
        first
          | (rcases List.mem_cons.mp hmv with rfl | hmv'
             · exact ⟨rfl, dest, List.mem_cons_self _ _, rfl, hsd⟩
             · obtain ⟨h1, d, hd, h2⟩ := ih _ mv hmv'
               exact ⟨h1, d, List.mem_cons_of_mem _ hd, h2⟩)
          | (obtain ⟨h1, d, hd, h2⟩ := ih _ mv hmv
             exact ⟨h1, d, List.mem_cons_of_mem _ hd, h2⟩)

theorem wasteTableauLoop_mem (s : Solver) (card : CardExt) (ctd : Nat) (flip : Bool) :
    ∀ l, ∀ mv ∈ wasteTableauLoop s card ctd flip l,
      ∃ t ∈ l, mv = Move.mk PILE_WASTE t ctd flip := by
  intro l
  induction l with
  | nil =>
    intro mv hmv
    rw [wasteTableauLoop] at hmv
    cases hmv
  | cons t rest ih =>
    intro mv hmv
    rw [wasteTableauLoop] at hmv
    split_ifs at hmv with hc hk
    · obtain rfl := List.mem_singleton.mp hmv
      exact ⟨t, List.mem_cons_self _ _, rfl⟩
    · rcases List.mem_cons.mp hmv with rfl | hmv'
      · exact ⟨t, List.mem_cons_self _ _, rfl⟩
      · obtain ⟨t', ht', h2⟩ := ih mv hmv'
        exact ⟨t', List.mem_cons_of_mem _ ht', h2⟩
    · obtain ⟨t', ht', h2⟩ := ih mv hmv
      exact ⟨t', List.mem_cons_of_mem _ ht', h2⟩

theorem foundationTableauLoop_mem (s : Solver) (f : Nat) (fcard : CardExt) :
    ∀ l, ∀ mv ∈ foundationTableauLoop s f fcard l,
      ∃ t ∈ l, mv = Move.mk f t 1 false := by
  intro l
  induction l with
  | nil =>
    intro mv hmv
    rw [foundationTableauLoop] at hmv
    cases hmv
  | cons t rest ih =>
    intro mv hmv
    rw [foundationTableauLoop] at hmv
    split_ifs at hmv with hc hk
    · obtain rfl := List.mem_singleton.mp hmv
      exact ⟨t, List.mem_cons_self _ _, rfl⟩
    · rcases List.mem_cons.mp hmv with rfl | hmv'
      · exact ⟨t, List.mem_cons_self _ _, rfl⟩
      · obtain ⟨t', ht', h2⟩ := ih mv hmv'
        exact ⟨t', List.mem_cons_of_mem _ ht', h2⟩
    · obtain ⟨t', ht', h2⟩ := ih mv hmv
      exact ⟨t', List.mem_cons_of_mem _ ht', h2⟩

theorem computeWithLastMove_ok (s : Solver) (hW : s.CardsWF)
    (hmaps : ∀ su, su < MAX_SUIT → isFoundation (s.suits_to_foundations su))
    (mov : Move) (h : s.computeWithLastMove = some mov) : s.MoveOk mov := by
  rw [Solver.computeWithLastMove] at h
  dsimp only at h
  split_ifs at h with hc1 hc2
  · cases hcm : s.can_move_to_foundation ((s.piles s.last_move.src).peek_top_unchecked) with
    | none =>
      rw [hcm] at h
      cases h
    | some fi =>
      rw [hcm] at h
      dsimp only at h
      cases h
      have hnz : (s.piles s.last_move.src).cards ≠ [] := by
        intro hnil
        have hz : (s.piles s.last_move.src).size = 0 := by
          show (s.piles s.last_move.src).cards.length = 0
          rw [hnil]
          rfl
        omega
      exact Or.inl ⟨hc1.1, can_move_isFoundation s hmaps (peek_wf s hW _ hnz) hcm,
        rfl, hnz, hcm⟩

theorem isTableau_not_isFoundation {i : Nat} (h : isTableau i) : ¬ isFoundation i := by
  intro hf
  have h1 := isTableau_bounds h
  have h2 := isFoundation_bounds hf
  omega

theorem tableauSrcLoop_ok (s : Solver) (hW : s.CardsWF)
    (hmaps : ∀ su, su < MAX_SUIT → isFoundation (s.suits_to_foundations su))
    (fmin e : Nat) :
    ∀ (l : List Nat) (acc : List Move),
      (∀ t ∈ l, isTableau t ∧ (s.piles t).cards ≠ []) →
      (∀ mv ∈ acc, s.MoveOk mv) →
      ∀ mv ∈ (tableauSrcLoop s fmin e l acc).2, s.MoveOk mv := by
  intro l
  induction l with
  | nil =>
    intro acc hl hacc mv hmv
    rw [tableauSrcLoop] at hmv
    exact hacc mv hmv
  | cons src rest ih =>
    intro acc hl hacc mv hmv
    obtain ⟨hsrct, hsrcnz⟩ := hl src (List.mem_cons_self _ _)
    have hrest := fun t ht => hl t (List.mem_cons_of_mem _ ht)
    rw [tableauSrcLoop] at hmv
    dsimp only at hmv
    have hdest_ok : ∀ (span : Int) (km : Bool), ∀ mv' ∈ tableauDestLoop s e src
        (s.piles src) ((s.piles src).peek_top_unchecked)
        ((s.piles src).peek_first_face_up_unchecked) span TABLEAU_IDXS km,
        s.MoveOk mv' := by
      intro span km mv' hmv'
      obtain ⟨h1, d, hd, h2, h3⟩ := tableauDestLoop_mem s e src _ _ _ span _ km mv' hmv'
      have hdt := TABLEAU_IDXS_isTableau d hd
      refine Or.inr (Or.inr (Or.inr ⟨?_, ?_, ?_⟩))
      · rw [h1]
        exact isTableau_not_isFoundation hsrct
      · rw [h2]
        exact isTableau_not_isFoundation hdt
      · rw [h1, h2]
        exact h3
    cases hcm : s.can_move_to_foundation ((s.piles src).peek_top_unchecked) with
    | some fi =>
      rw [hcm] at hmv
      dsimp only at hmv
      have hmovok : s.MoveOk (Move.mk src fi 1
          (decide ((s.piles src).size > 1 ∧ (s.piles src).face_up_count = 1))) :=
        Or.inl ⟨hsrct, can_move_isFoundation s hmaps (peek_wf s hW src hsrcnz) hcm,
          rfl, hsrcnz, hcm⟩
      split_ifs at hmv with hrank
      · obtain rfl := List.mem_singleton.mp hmv
        exact hmovok
      · apply ih _ hrest _ mv hmv
        intro mv' hmv'
        rcases List.mem_append.mp hmv' with h12 | hdl
        · rcases List.mem_append.mp h12 with ha | hm1
          · exact hacc mv' ha
          · obtain rfl := List.mem_singleton.mp hm1
            exact hmovok
        · exact hdest_ok _ _ mv' hdl
    | none =>
      rw [hcm] at hmv
      dsimp only at hmv
      apply ih _ hrest _ mv hmv
      intro mv' hmv'
      rcases List.mem_append.mp hmv' with ha | hdl
      · exact hacc mv' ha
      · exact hdest_ok _ _ mv' hdl

theorem wasteLoop_ok (s : Solver) (hW : s.CardsWF)
    (hmaps : ∀ su, su < MAX_SUIT → isFoundation (s.suits_to_foundations su))
    (hd : s.draw_count ≠ 0) (fmin dc : Nat) :
    ∀ (l : List (CardExt × Int)) (acc : List Move),
      (∀ p ∈ l, p ∈ TalonHelper.calculate s.draw_count
        (s.piles PILE_WASTE) (s.piles PILE_STOCK)) →
      (∀ mv ∈ acc, s.MoveOk mv) →
      ∀ mv ∈ (wasteLoop s fmin dc l acc).2, s.MoveOk mv := by
  intro l
  induction l with
  | nil =>
    intro acc hl hacc mv hmv
    rw [wasteLoop] at hmv
    exact hacc mv hmv
  | cons p rest ih =>
    obtain ⟨card, drawn⟩ := p
    intro acc hl hacc mv hmv
    have hmem := hl (card, drawn) (List.mem_cons_self _ _)
    have hrest := fun q hq => hl q (List.mem_cons_of_mem _ hq)
    rw [wasteLoop] at hmv
    dsimp only at hmv
    have hwt_ok : ∀ (ctd : Nat) (flip : Bool),
        ∀ mv' ∈ wasteTableauLoop s card ctd flip TABLEAU_IDXS, s.MoveOk mv' := by
      intro ctd flip mv' hmv'
      obtain ⟨t, ht, rfl⟩ := wasteTableauLoop_mem s card ctd flip _ mv' hmv'
      have htt := TABLEAU_IDXS_isTableau t ht
      refine Or.inr (Or.inr (Or.inr ⟨?_, ?_, ?_⟩))
      · show ¬ isFoundation PILE_WASTE
        decide
      · exact isTableau_not_isFoundation htt
      · have := isTableau_bounds htt
        show (1 : Nat) ≠ t
        omega
    cases hcm : s.can_move_to_foundation card with
    | some fi =>
      rw [hcm] at hmv
      dsimp only at hmv
      set CTD : Nat := (if (decide (drawn < 0)) = true then (-drawn).toNat else drawn.toNat)
        with hCTD
      have hfd : isFoundation fi :=
        can_move_isFoundation s hmaps (talon_card_wf s hW hd hmem) hcm
      have hcntEq : CTD = (if drawn < 0 then (-drawn).toNat else drawn.toNat) := by
        rw [hCTD]
        by_cases hdr : drawn < 0 <;> simp [hdr]
      have hmovok : s.MoveOk (Move.mk PILE_WASTE fi CTD (decide (drawn < 0))) :=
        Or.inr (Or.inl ⟨rfl, hfd, card, drawn, hmem, hcm, hcntEq, rfl⟩)
      have hacc2 : ∀ mv' ∈ acc ++ [Move.mk PILE_WASTE fi CTD
          (decide (drawn < 0))], s.MoveOk mv' := by
        intro mv' hmv'
        rcases List.mem_append.mp hmv' with ha | hm1
        · exact hacc mv' ha
        · obtain rfl := List.mem_singleton.mp hm1
          exact hmovok
      split_ifs at hmv with hrank hdc1 hctd
      · exact ih _ hrest hacc2 mv hmv
      · exact hacc2 mv hmv
      · exact hacc2 mv hmv
      · apply ih _ hrest _ mv hmv
        intro mv' hmv'
        rcases List.mem_append.mp hmv' with ha | hw
        · exact hacc2 mv' ha
        · exact hwt_ok _ _ mv' hw
    | none =>
      rw [hcm] at hmv
      dsimp only at hmv
      apply ih _ hrest _ mv hmv
      intro mv' hmv'
      rcases List.mem_append.mp hmv' with ha | hw
      · exact hacc mv' ha
      · exact hwt_ok _ _ mv' hw

theorem computeMoveFromFoundation_foldl_ok (s : Solver) (fmin : Nat) (hfmin : 1 ≤ fmin) :
    ∀ (l : List Nat) (acc : List Move),
      (∀ f ∈ l, isFoundation f) →
      (∀ mv ∈ acc, s.MoveOk mv) →
      ∀ mv ∈ l.foldl (fun acc2 f =>
          if (s.piles f).size ≤ fmin then acc2
          else acc2 ++ foundationTableauLoop s f ((s.piles f).peek_top_unchecked)
            TABLEAU_IDXS) acc,
        s.MoveOk mv := by
  intro l
  induction l with
  | nil =>
    intro acc hl hacc mv hmv
    rw [List.foldl_nil] at hmv
    exact hacc mv hmv
  | cons f rest ih =>
    intro acc hl hacc mv hmv
    rw [List.foldl_cons] at hmv
    apply ih _ (fun g hg => hl g (List.mem_cons_of_mem _ hg)) _ mv hmv
    intro mv' hmv'
    by_cases hsz : (s.piles f).size ≤ fmin
    · rw [if_pos hsz] at hmv'
      exact hacc mv' hmv'
    · rw [if_neg hsz] at hmv'
      rcases List.mem_append.mp hmv' with ha | hft
      · exact hacc mv' ha
      · obtain ⟨t, ht, rfl⟩ := foundationTableauLoop_mem s f _ _ mv' hft
        have hff := hl f (List.mem_cons_self _ _)
        have htt := TABLEAU_IDXS_isTableau t ht
        refine Or.inr (Or.inr (Or.inl ⟨hff, htt, rfl, ?_⟩))
        intro hnil
        have hz : (s.piles f).size = 0 := by
          show (s.piles f).cards.length = 0
          rw [hnil]
          rfl
        omega

/-- Every move `compute_possible_moves` produces is `MoveOk`. -/
theorem computePossibleMoves_ok (s : Solver) (hd : s.draw_count ≠ 0) (hI : s.Inv) :
    ∀ m ∈ s.computePossibleMoves, s.MoveOk m := by
  obtain ⟨hW, hmaps, hinj, hsurj, hrun⟩ := hI
  intro m hm
  rw [Solver.computePossibleMoves] at hm
  cases hlm : s.computeWithLastMove with
  | some mov =>
    rw [hlm] at hm
    dsimp only at hm
    obtain rfl := List.mem_singleton.mp hm
    exact computeWithLastMove_ok s hW hmaps _ hlm
  | none =>
    rw [hlm] at hm
    dsimp only at hm
    cases htab : s.computeMoveFromTableau s.foundationMinimumCalc [] with
    | mk committed acc =>
      rw [htab] at hm
      have htab_ok : ∀ mv ∈ acc, s.MoveOk mv := by
        rw [Solver.computeMoveFromTableau] at htab
        intro mv hmv
        apply tableauSrcLoop_ok s hW hmaps s.foundationMinimumCalc
          ((TABLEAU_IDXS.filter (fun i => (s.piles i).size = 0)).length)
          (TABLEAU_IDXS.filter (fun i => (s.piles i).size ≠ 0)) []
          ?_ (fun mv' h => absurd h (List.not_mem_nil mv')) mv
        · rw [htab]
          exact hmv
        · intro t ht
          rw [List.mem_filter] at ht
          refine ⟨TABLEAU_IDXS_isTableau t ht.1, ?_⟩
          intro hnil
          have hsz := of_decide_eq_true ht.2
          apply hsz
          show (s.piles t).cards.length = 0
          rw [hnil]
          rfl
      cases committed with
      | true =>
        dsimp only at hm
        exact htab_ok m hm
      | false =>
        dsimp only at hm
        cases hwst : s.computeMoveFromWaste s.foundationMinimumCalc acc with
        | mk wcommitted acc2 =>
          rw [hwst] at hm
          have hwst_ok : ∀ mv ∈ acc2, s.MoveOk mv := by
            rw [Solver.computeMoveFromWaste] at hwst
            intro mv hmv
            apply wasteLoop_ok s hW hmaps hd s.foundationMinimumCalc s.draw_count
              (TalonHelper.calculate s.draw_count (s.piles PILE_WASTE)
                (s.piles PILE_STOCK)) acc (fun p hp => hp) htab_ok mv
            rw [hwst]
            exact hmv
          cases wcommitted with
          | true =>
            dsimp only at hm
            exact hwst_ok m hm
          | false =>
            dsimp only at hm
            rw [Solver.computeMoveFromFoundation] at hm
            exact computeMoveFromFoundation_foldl_ok s _ (foundationMinimumCalc_pos s)
              FOUNDATION_IDXS acc2 FOUNDATION_IDXS_isFoundation hwst_ok m hm

/-! ### `Solver::set_board` (solver.rs:708-779)

`set_board` rebuilds the piles from the board (`reset()` then copies, so we
build the live piles directly), computes `suits_to_foundations` in two
passes, and `Solver::draw_count()` reads `initial_board.draw_count()`.
NOTE the sentinel collision: `suits_to_foundations` is pre-filled with
`MAX_SUIT = 4`, but `PILE_FOUNDATION_START + 2 = 4` as well, so a suit
assigned to foundation slot 2 in the first pass looks unassigned to the
second pass and is re-assigned to a free (empty) slot. -/

/-- `impl From<&Card> for CardExt`. -/
def cardToExt (c : Card) : CardExt := CardExt.new_with_id c.id

/-- `pile.push_card(..)` in a loop. -/
def pushCards (p : Pile) (cs : List CardExt) : Pile := cs.foldl Pile.push_card p

/-- First `suits_to_foundations` pass of `set_board`: each non-empty board
foundation slot `i` claims its top card's suit and marks bit `i`. -/
def foundationAssignA (b : Board) : (Nat → Nat) × Nat :=
  (List.range TOTAL_FOUNDATIONS).foldl
    (fun st i =>
      match b.foundations.getD i none with
      | none => st
      | some c => (Function.update st.1 c.suit (PILE_FOUNDATION_START + i),
          st.2 ||| (1 <<< i)))
    (fun _ => MAX_SUIT, 0)

/-- Second pass: every suit still holding the `MAX_SUIT` sentinel takes the
first unmarked slot. -/
def foundationAssign (b : Board) : (Nat → Nat) × Nat :=
  (List.range MAX_SUIT).foldl
    (fun st su =>
      if st.1 su = MAX_SUIT then
        match (List.range TOTAL_FOUNDATIONS).find? (fun j => st.2 &&& (1 <<< j) == 0) with
        | some j => (Function.update st.1 su (PILE_FOUNDATION_START + j),
            st.2 ||| (1 <<< j))
        | none => st
      else st)
    (foundationAssignA b)

/-- The piles `set_board` builds. -/
def setBoardPile (b : Board) (i : Nat) : Pile :=
  if i = PILE_STOCK then pushCards Pile.reset (b.stock.map cardToExt)
  else if i = PILE_WASTE then pushCards Pile.reset (b.waste.cards.map cardToExt)
  else if isFoundation i then
    match b.foundations.getD (i - PILE_FOUNDATION_START) none with
    | none => Pile.reset
    | some c => pushCards Pile.reset
        ((List.range (c.rank + 1)).map fun j => CardExt.new_with_rank_suit j c.suit)
  else if isTableau i then
    (pushCards Pile.reset
        ((b.tableaus.getD (i - PILE_TABLEAU_START) ⟨[], 0⟩).cards.map cardToExt)).set_face_up_count
      ((b.tableaus.getD (i - PILE_TABLEAU_START) ⟨[], 0⟩).face_up_count)
  else Pile.reset

/-- The solver state right after `set_board(board)` + `reset()`. -/
def setBoard (b : Board) : Solver :=
  { piles := setBoardPile b
    suits_to_foundations := (foundationAssign b).1
    foundation_score := ((List.range TOTAL_FOUNDATIONS).map fun i =>
        match b.foundations.getD i none with
        | none => 0
        | some c => c.rank + 1).sum
    foundation_minimum := 0
    last_move := Move.default
    moves := []
    round_count := 1
    draw_count := b.drawCount }

/-! The two assignment passes depend on the board's foundations only through
"which slots hold a card of which suit".  Abstracting that lets the
assignment's correctness (under distinct suits and an empty slot 2) be
settled by `decide` over the finitely many suit patterns. -/

/-- The first pass over an abstract slot-to-suit list. -/
def assignA (os : List (Option Nat)) : (Nat → Nat) × Nat :=
  (List.range TOTAL_FOUNDATIONS).foldl
    (fun st i =>
      match os.getD i none with
      | none => st
      | some su => (Function.update st.1 su (PILE_FOUNDATION_START + i),
          st.2 ||| (1 <<< i)))
    (fun _ => MAX_SUIT, 0)

/-- Both passes over an abstract slot-to-suit list. -/
def assign (os : List (Option Nat)) : (Nat → Nat) × Nat :=
  (List.range MAX_SUIT).foldl
    (fun st su =>
      if st.1 su = MAX_SUIT then
        match (List.range TOTAL_FOUNDATIONS).find? (fun j => st.2 &&& (1 <<< j) == 0) with
        | some j => (Function.update st.1 su (PILE_FOUNDATION_START + j),
            st.2 ||| (1 <<< j))
        | none => st
      else st)
    (assignA os)

/-- Everything `FoundationInv` needs from the assignment: the four suits map
into the foundation range injectively and onto it, and each suit's pile is
either its own suit's slot or an empty slot. -/
def assignGood (os : List (Option Nat)) : Prop :=
  (∀ su ∈ List.range MAX_SUIT, isFoundation ((assign os).1 su))
    ∧ (∀ su1 ∈ List.range MAX_SUIT, ∀ su2 ∈ List.range MAX_SUIT,
        (assign os).1 su1 = (assign os).1 su2 → su1 = su2)
    ∧ (∀ fi ∈ FOUNDATION_IDXS, ∃ su ∈ List.range MAX_SUIT, (assign os).1 su = fi)
    ∧ (∀ su ∈ List.range MAX_SUIT,
        os.getD ((assign os).1 su - PILE_FOUNDATION_START) none = none
          ∨ os.getD ((assign os).1 su - PILE_FOUNDATION_START) none = some su)

instance (os : List (Option Nat)) : Decidable (assignGood os) := by
  unfold assignGood
  infer_instance

/-- `none` / `some (k-1)` coded as `k < 5`. -/
def decodeSuit : Nat → Option Nat
  | 0 => none
  | s + 1 => some s

theorem assignGood_of_distinct : ∀ k < 125,
    ((k / 25 = 0 ∨ k / 5 % 5 = 0 ∨ k / 25 ≠ k / 5 % 5)
      ∧ (k / 25 = 0 ∨ k % 5 = 0 ∨ k / 25 ≠ k % 5)
      ∧ (k / 5 % 5 = 0 ∨ k % 5 = 0 ∨ k / 5 % 5 ≠ k % 5)) →
    assignGood [decodeSuit (k / 25), decodeSuit (k / 5 % 5), none, decodeSuit (k % 5)] := by
  decide

theorem assignGood_of_distinct3 (k0 k1 k3 : Nat) (h0 : k0 < 5) (h1 : k1 < 5) (h3 : k3 < 5)
    (d01 : k0 = 0 ∨ k1 = 0 ∨ k0 ≠ k1) (d03 : k0 = 0 ∨ k3 = 0 ∨ k0 ≠ k3)
    (d13 : k1 = 0 ∨ k3 = 0 ∨ k1 ≠ k3) :
    assignGood [decodeSuit k0, decodeSuit k1, none, decodeSuit k3] := by
  have hk : 25 * k0 + 5 * k1 + k3 < 125 := by omega
  have e0 : (25 * k0 + 5 * k1 + k3) / 25 = k0 := by omega
  have e1 : (25 * k0 + 5 * k1 + k3) / 5 % 5 = k1 := by omega
  have e3 : (25 * k0 + 5 * k1 + k3) % 5 = k3 := by omega
  have h := assignGood_of_distinct _ hk (by rw [e0, e1, e3]; exact ⟨d01, d03, d13⟩)
  rw [e0, e1, e3] at h
  exact h

theorem pushCards_eq (cs : List CardExt) : ∀ p : Pile, pushCards p cs = ⟨p.cards ++ cs, p.first⟩ := by
  induction cs with
  | nil =>
    intro p
    cases p
    simp [pushCards]
  | cons c cs ih =>
    intro p
    rw [pushCards, List.foldl_cons]
    have h := ih (p.push_card c)
    rw [pushCards] at h
    rw [h, Pile.push_card]
    simp

theorem getD_map_suit (l : List (Option Card)) (i : Nat) :
    (l.map (Option.map Card.suit)).getD i none = (l.getD i none).map Card.suit := by
  rw [List.getD_eq_getElem?_getD, List.getD_eq_getElem?_getD, List.getElem?_map]
  cases l[i]? with
  | none => rfl
  | some oc => cases oc <;> rfl

theorem foundationAssign_eq (b : Board) :
    foundationAssign b = assign (b.foundations.map (Option.map Card.suit)) := by
  have hA : foundationAssignA b = assignA (b.foundations.map (Option.map Card.suit)) := by
    rw [foundationAssignA, assignA]
    apply List.foldl_ext
    intro st i _
    rw [getD_map_suit]
    cases b.foundations.getD i none <;> rfl
  rw [foundationAssign, assign, hA]

theorem assign_four (os : List (Option Nat)) :
    assign os = assign [os.getD 0 none, os.getD 1 none, os.getD 2 none, os.getD 3 none] := by
  have hA : assignA os
      = assignA [os.getD 0 none, os.getD 1 none, os.getD 2 none, os.getD 3 none] := by
    rw [assignA, assignA]
    show List.foldl _ _ [0, 1, 2, 3] = List.foldl _ _ [0, 1, 2, 3]
    simp only [List.foldl_cons, List.foldl_nil]
    rfl
  rw [assign, assign, hA]

theorem valid_ids_lt (b : Board) (hb : b.is_valid = true) :
    ∀ c ∈ b.allCheckedCards, c.id < MAX_CARD := by
  have hperm := (Board.is_valid_iff b).mp hb
  intro c hc
  exact List.mem_range.mp (hperm.mem_iff.mp (List.mem_map_of_mem Card.id hc))

theorem valid_nodup (b : Board) (hb : b.is_valid = true) : b.allCheckedCards.Nodup := by
  have hperm := (Board.is_valid_iff b).mp hb
  exact List.Nodup.of_map Card.id (hperm.nodup_iff.mpr (List.nodup_range _))

theorem mem_allCheckedCards_stock {b : Board} {c : Card} (h : c ∈ b.stock) :
    c ∈ b.allCheckedCards := by
  rw [Board.allCheckedCards]
  rw [List.append_assoc, List.append_assoc]
  exact List.mem_append.mpr (Or.inl h)

theorem mem_allCheckedCards_waste {b : Board} {c : Card} (h : c ∈ b.waste.cards) :
    c ∈ b.allCheckedCards := by
  rw [Board.allCheckedCards, List.append_assoc, List.append_assoc]
  exact List.mem_append.mpr (Or.inr (List.mem_append.mpr (Or.inl h)))

theorem mem_allCheckedCards_flatten_found {b : Board} {x : Card}
    (h : x ∈ (b.foundations.map foundationCards).flatten) : x ∈ b.allCheckedCards := by
  rw [Board.allCheckedCards, List.append_assoc, List.append_assoc]
  exact List.mem_append.mpr (Or.inr (List.mem_append.mpr (Or.inr
    (List.mem_append.mpr (Or.inl h)))))

theorem mem_allCheckedCards_tableau {b : Board} {t : Tableau} (ht : t ∈ b.tableaus)
    {c : Card} (h : c ∈ t.cards) : c ∈ b.allCheckedCards := by
  rw [Board.allCheckedCards, List.append_assoc, List.append_assoc]
  refine List.mem_append.mpr (Or.inr (List.mem_append.mpr (Or.inr
    (List.mem_append.mpr (Or.inr ?_)))))
  exact List.mem_flatten.mpr ⟨t.cards, List.mem_map_of_mem Tableau.cards ht, h⟩

theorem mem_foundation_expansion {b : Board} {i : Nat} {c : Card}
    (hc : b.foundations.getD i none = some c) {x : Card}
    (hx : x ∈ foundationExpansion c) :
    x ∈ (b.foundations.map foundationCards).flatten := by
  have hi : i < b.foundations.length := by
    by_contra hge
    rw [List.getD_eq_default _ _ (by omega)] at hc
    cases hc
  have hmem : (some c) ∈ b.foundations := by
    rw [List.getD_eq_getElem?_getD, List.getElem?_eq_getElem hi] at hc
    have : b.foundations[i] = some c := hc
    rw [← this]
    exact List.getElem_mem hi
  refine List.mem_flatten.mpr ⟨foundationCards (some c), List.mem_map_of_mem _ hmem, ?_⟩
  rw [foundationCards]
  exact hx

theorem base_card_mem_expansion (c : Card) : Card.new_with_rank_suit 0 c.suit ∈ foundationExpansion c := by
  rw [foundationExpansion]
  exact List.mem_map_of_mem _ (List.mem_range.mpr (by omega))

theorem valid_foundation_suit_lt (b : Board) (hb : b.is_valid = true)
    {i : Nat} {c : Card} (hc : b.foundations.getD i none = some c) :
    c.suit < MAX_SUIT := by
  have hmem := mem_allCheckedCards_flatten_found
    (mem_foundation_expansion hc (base_card_mem_expansion c))
  have hlt := valid_ids_lt b hb _ hmem
  have : (Card.new_with_rank_suit 0 c.suit).id = c.suit * 13 + 0 := rfl
  rw [this] at hlt
  show c.val / 13 < 4
  have hlt' : c.val / 13 * 13 + 0 < 52 := hlt
  omega

theorem two_getElem_ne_disjoint {L : List (List Card)} (hnd : L.flatten.Nodup)
    {i j : Nat} (hi : i < L.length) (hj : j < L.length) (hij : i ≠ j)
    {x : Card} (hxi : x ∈ L[i]) (hxj : x ∈ L[j]) : False := by
  have hpw := (List.nodup_flatten.mp hnd).2
  rw [List.pairwise_iff_getElem] at hpw
  rcases Nat.lt_or_ge i j with h | h
  · exact (hpw i j hi hj h) hxi hxj
  · have hji : j < i := by omega
    exact (hpw j i hj hi hji) hxj hxi

theorem valid_foundation_suits_distinct (b : Board) (hb : b.is_valid = true)
    {i j : Nat} (hij : i ≠ j) {ci cj : Card}
    (hci : b.foundations.getD i none = some ci)
    (hcj : b.foundations.getD j none = some cj) :
    ci.suit ≠ cj.suit := by
  intro hsu
  -- the rank-0 card of the shared suit sits in both expansions
  have hndf : ((b.foundations.map foundationCards).flatten).Nodup := by
    have hnd := valid_nodup b hb
    apply hnd.sublist
    rw [Board.allCheckedCards]
    have h1 : (b.foundations.map foundationCards).flatten.Sublist
        ((b.foundations.map foundationCards).flatten
          ++ (b.tableaus.map Tableau.cards).flatten) :=
      List.sublist_append_left _ _
    have h2 : ((b.foundations.map foundationCards).flatten
          ++ (b.tableaus.map Tableau.cards).flatten).Sublist
        (b.stock ++ b.waste.cards
          ++ ((b.foundations.map foundationCards).flatten
            ++ (b.tableaus.map Tableau.cards).flatten)) :=
      List.sublist_append_right _ _
    rw [List.append_assoc, List.append_assoc]
    exact h1.trans (h2.trans (by rw [List.append_assoc]))
  have hi : i < b.foundations.length := by
    by_contra hge
    rw [List.getD_eq_default _ _ (by omega)] at hci
    cases hci
  have hj : j < b.foundations.length := by
    by_contra hge
    rw [List.getD_eq_default _ _ (by omega)] at hcj
    cases hcj
  have hi' : i < (b.foundations.map foundationCards).length := by
    rw [List.length_map]
    exact hi
  have hj' : j < (b.foundations.map foundationCards).length := by
    rw [List.length_map]
    exact hj
  have hgi : (b.foundations.map foundationCards)[i] = foundationExpansion ci := by
    rw [List.getElem_map]
    rw [List.getD_eq_getElem?_getD, List.getElem?_eq_getElem hi] at hci
    have : b.foundations[i] = some ci := hci
    rw [this]
    rfl
  have hgj : (b.foundations.map foundationCards)[j] = foundationExpansion cj := by
    rw [List.getElem_map]
    rw [List.getD_eq_getElem?_getD, List.getElem?_eq_getElem hj] at hcj
    have : b.foundations[j] = some cj := hcj
    rw [this]
    rfl
  refine @two_getElem_ne_disjoint _ hndf _ _ hi' hj' hij
    (Card.new_with_rank_suit 0 ci.suit) ?_ ?_
  · rw [hgi]
    exact base_card_mem_expansion ci
  · rw [hgj, hsu]
    exact base_card_mem_expansion cj

theorem CardExt.new_with_rank_suit_wf {j su : Nat} (hj : j < MAX_RANK) (hsu : su < MAX_SUIT) :
    (CardExt.new_with_rank_suit j su).wf := by
  refine ⟨su * MAX_RANK + j, ?_, rfl⟩
  have hj' : j < 13 := hj
  have hsu' : su < 4 := hsu
  show su * 13 + j < 52
  omega

theorem setBoard_CardsWF (b : Board) (hb : b.is_valid = true) : (setBoard b).CardsWF := by
  intro i c hc
  have hc' : c ∈ (setBoardPile b i).cards := hc
  rw [setBoardPile] at hc'
  split_ifs at hc' with h0 h1 h2 h3
  · rw [pushCards_eq] at hc'
    have hm : c ∈ b.stock.map cardToExt := hc'
    obtain ⟨c0, hc0, rfl⟩ := List.mem_map.mp hm
    exact ⟨c0.id, valid_ids_lt b hb c0 (mem_allCheckedCards_stock hc0), rfl⟩
  · rw [pushCards_eq] at hc'
    have hm : c ∈ b.waste.cards.map cardToExt := hc'
    obtain ⟨c0, hc0, rfl⟩ := List.mem_map.mp hm
    exact ⟨c0.id, valid_ids_lt b hb c0 (mem_allCheckedCards_waste hc0), rfl⟩
  · rcases hslot : b.foundations.getD (i - PILE_FOUNDATION_START) none with _ | cf
    · rw [hslot] at hc'
      have hm : c ∈ ([] : List CardExt) := hc'
      exact absurd hm (List.not_mem_nil c)
    · rw [hslot] at hc'
      have hm0 : c ∈ (pushCards Pile.reset ((List.range (cf.rank + 1)).map
          fun j => CardExt.new_with_rank_suit j cf.suit)).cards := hc'
      rw [pushCards_eq] at hm0
      have hm : c ∈ (List.range (cf.rank + 1)).map
          fun j => CardExt.new_with_rank_suit j cf.suit := hm0
      obtain ⟨j, hj, rfl⟩ := List.mem_map.mp hm
      have hjr : j < cf.rank + 1 := List.mem_range.mp hj
      have hsu : cf.suit < MAX_SUIT := valid_foundation_suit_lt b hb hslot
      have hrk : cf.rank < MAX_RANK := Nat.mod_lt _ (by decide)
      exact CardExt.new_with_rank_suit_wf (by omega) hsu
  · rw [pushCards_eq] at hc'
    have hm : c ∈ (b.tableaus.getD (i - PILE_TABLEAU_START) ⟨[], 0⟩).cards.map cardToExt := hc'
    obtain ⟨c0, hc0, rfl⟩ := List.mem_map.mp hm
    by_cases hlen : i - PILE_TABLEAU_START < b.tableaus.length
    · rw [List.getD_eq_getElem _ _ hlen] at hc0
      exact ⟨c0.id, valid_ids_lt b hb c0
        (mem_allCheckedCards_tableau (List.getElem_mem hlen) hc0), rfl⟩
    · rw [List.getD_eq_default _ _ (by omega)] at hc0
      have hm0 : c0 ∈ ([] : List Card) := hc0
      exact absurd hm0 (List.not_mem_nil c0)
  · have hm : c ∈ ([] : List CardExt) := hc'
    exact absurd hm (List.not_mem_nil c)

theorem assignGood_of_four (os : List (Option Nat))
    (hg : assignGood [os.getD 0 none, os.getD 1 none, os.getD 2 none, os.getD 3 none]) :
    assignGood os := by
  obtain ⟨g1, g2, g3, g4⟩ := hg
  rw [assignGood, assign_four os]
  refine ⟨g1, g2, g3, ?_⟩
  intro su hsu
  have hj := g4 su hsu
  obtain ⟨hlo, hhi⟩ := g1 su hsu
  have hlo' : 2 ≤ (assign [os.getD 0 none, os.getD 1 none,
      os.getD 2 none, os.getD 3 none]).1 su := hlo
  have hhi' : (assign [os.getD 0 none, os.getD 1 none,
      os.getD 2 none, os.getD 3 none]).1 su ≤ 5 := hhi
  rcases (by omega : (assign [os.getD 0 none, os.getD 1 none,
        os.getD 2 none, os.getD 3 none]).1 su = 2
      ∨ (assign [os.getD 0 none, os.getD 1 none, os.getD 2 none, os.getD 3 none]).1 su = 3
      ∨ (assign [os.getD 0 none, os.getD 1 none, os.getD 2 none, os.getD 3 none]).1 su = 4
      ∨ (assign [os.getD 0 none, os.getD 1 none, os.getD 2 none, os.getD 3 none]).1 su = 5)
    with hf | hf | hf | hf <;> rw [hf] at hj ⊢ <;> exact hj

/-- Empty slot coded 0, a slot holding suit `s` coded `s + 1`. -/
def encodeSlot (oc : Option Card) : Nat :=
  match oc with
  | none => 0
  | some c => c.suit + 1

theorem decode_encodeSlot (oc : Option Card) :
    decodeSuit (encodeSlot oc) = oc.map Card.suit := by
  cases oc <;> rfl

theorem encodeSlot_lt (b : Board) (hb : b.is_valid = true) (i : Nat) :
    encodeSlot (b.foundations.getD i none) < 5 := by
  rcases h : b.foundations.getD i none with _ | c
  · show (0 : Nat) < 5
    omega
  · have hs : c.suit < 4 := valid_foundation_suit_lt b hb h
    show c.suit + 1 < 5
    omega

theorem encodeSlot_ne (b : Board) (hb : b.is_valid = true) {i j : Nat} (hij : i ≠ j) :
    encodeSlot (b.foundations.getD i none) = 0
      ∨ encodeSlot (b.foundations.getD j none) = 0
      ∨ encodeSlot (b.foundations.getD i none) ≠ encodeSlot (b.foundations.getD j none) := by
  rcases hi : b.foundations.getD i none with _ | ci
  · exact Or.inl rfl
  rcases hj : b.foundations.getD j none with _ | cj
  · exact Or.inr (Or.inl rfl)
  refine Or.inr (Or.inr ?_)
  have hne := valid_foundation_suits_distinct b hb hij hi hj
  show ci.suit + 1 ≠ cj.suit + 1
  omega

theorem setBoard_assignGood (b : Board) (hb : b.is_valid = true)
    (hslot2 : b.foundations.getD 2 none = none) :
    assignGood (b.foundations.map (Option.map Card.suit)) := by
  apply assignGood_of_four
  rw [getD_map_suit, getD_map_suit, getD_map_suit, getD_map_suit, hslot2,
    Option.map_none', ← decode_encodeSlot, ← decode_encodeSlot, ← decode_encodeSlot]
  exact assignGood_of_distinct3 _ _ _ (encodeSlot_lt b hb 0) (encodeSlot_lt b hb 1)
    (encodeSlot_lt b hb 3) (encodeSlot_ne b hb (by omega)) (encodeSlot_ne b hb (by omega))
    (encodeSlot_ne b hb (by omega))

theorem setBoard_FoundationInv (b : Board) (hb : b.is_valid = true)
    (hslot2 : b.foundations.getD 2 none = none) :
    (setBoard b).FoundationInv := by
  obtain ⟨g1, g2, g3, g4⟩ := setBoard_assignGood b hb hslot2
  have hs2f : (setBoard b).suits_to_foundations
      = (assign (b.foundations.map (Option.map Card.suit))).1 := by
    show (foundationAssign b).1 = _
    rw [foundationAssign_eq]
  refine ⟨?_, ?_, ?_, ?_⟩
  · intro su hsu
    rw [hs2f]
    exact g1 su (List.mem_range.mpr hsu)
  · intro su1 h1 su2 h2 heq
    rw [hs2f] at heq
    exact g2 su1 (List.mem_range.mpr h1) su2 (List.mem_range.mpr h2) heq
  · intro fi hfi
    have hfi' : fi ∈ FOUNDATION_IDXS := by
      have hlo : 2 ≤ fi := hfi.1
      have hhi : fi ≤ 5 := hfi.2
      interval_cases fi <;> decide
    obtain ⟨su, hsu, heq⟩ := g3 fi hfi'
    exact ⟨su, List.mem_range.mp hsu, by rw [hs2f]; exact heq⟩
  · intro su hsu
    have hj := g4 su (List.mem_range.mpr hsu)
    rw [hs2f]
    show foundationRun su
        (setBoardPile b ((assign (b.foundations.map (Option.map Card.suit))).1 su))
      ∧ (setBoardPile b
          ((assign (b.foundations.map (Option.map Card.suit))).1 su)).cards.length ≤ MAX_RANK
    set fi := (assign (b.foundations.map (Option.map Card.suit))).1 su with hfidef
    have hisf : isFoundation fi := g1 su (List.mem_range.mpr hsu)
    have h2le : 2 ≤ fi := hisf.1
    have h5ge : fi ≤ 5 := hisf.2
    rw [getD_map_suit] at hj
    rcases hslot : b.foundations.getD (fi - PILE_FOUNDATION_START) none with _ | cf
    · have hred : setBoardPile b fi = Pile.reset := by
        rw [setBoardPile, if_neg (show ¬ fi = PILE_STOCK from by show ¬ fi = 0; omega),
          if_neg (show ¬ fi = PILE_WASTE from by show ¬ fi = 1; omega), if_pos hisf, hslot]
      constructor
      · rw [hred]
        exact rfl
      · rw [hred]
        decide
    · rw [hslot] at hj
      simp only [Option.map_some'] at hj
      rcases hj with hj | hj
      · exact (Option.some_ne_none _ hj).elim
      have hsuit : cf.suit = su := Option.some.inj hj
      have hred : setBoardPile b fi = pushCards Pile.reset
          ((List.range (cf.rank + 1)).map fun j => CardExt.new_with_rank_suit j cf.suit) := by
        rw [setBoardPile, if_neg (show ¬ fi = PILE_STOCK from by show ¬ fi = 0; omega),
          if_neg (show ¬ fi = PILE_WASTE from by show ¬ fi = 1; omega), if_pos hisf, hslot]
      have hcards : (setBoardPile b fi).cards
          = (List.range (cf.rank + 1)).map fun j => CardExt.new_with_rank_suit j su := by
        rw [hred, pushCards_eq, ← hsuit]
        simp [Pile.reset]
      constructor
      · rw [foundationRun, hcards, List.length_map, List.length_range]
      · rw [hcards, List.length_map, List.length_range]
        have hrk : cf.rank < MAX_RANK := Nat.mod_lt _ (by decide)
        omega

/-- `Solver::set_board` establishes the foundation invariant on any valid
board whose third foundation slot is empty (slot 2 = pile 4 is exactly the
slot shadowed by the `MAX_SUIT` sentinel in the second assignment pass). -/
theorem setBoard_Inv (b : Board) (hb : b.is_valid = true)
    (hslot2 : b.foundations.getD 2 none = none) : (setBoard b).Inv :=
  ⟨setBoard_CardsWF b hb, setBoard_FoundationInv b hb hslot2⟩

/-! ### C8: the foundation-run invariant along generator-produced play -/

theorem makePhaseDraw_draw_count (s : Solver) (m : Move) :
    (s.makePhaseDraw m).draw_count = s.draw_count := by
  rw [Solver.makePhaseDraw]
  dsimp only
  split_ifs <;> rfl

theorem makePhaseMove_draw_count (s : Solver) (m : Move) :
    (s.makePhaseMove m).draw_count = s.draw_count := by
  rw [Solver.makePhaseMove]
  dsimp only
  split_ifs <;> rfl

theorem makePhaseFlip_draw_count (s : Solver) (m : Move) :
    (s.makePhaseFlip m).draw_count = s.draw_count := by
  rw [Solver.makePhaseFlip]
  dsimp only
  split_ifs <;> rfl

theorem make_move_draw_count (s : Solver) (m : Move) :
    (s.make_move m).draw_count = s.draw_count := by
  rw [Solver.make_move, makePhaseFlip_draw_count, makePhaseMove_draw_count,
    makePhaseDraw_draw_count]

theorem Reachable_Inv {s0 s : Solver} (hr : Reachable s0 s) (hI : s0.Inv)
    (hd : s0.draw_count ≠ 0) : s.Inv ∧ s.draw_count ≠ 0 := by
  induction hr with
  | refl => exact ⟨hI, hd⟩
  | step s' m hs hm ih =>
    obtain ⟨hI', hd'⟩ := ih
    refine ⟨Inv_make_move s' m hd' hI' (computePossibleMoves_ok s' hd' hI' m hm), ?_⟩
    rw [make_move_draw_count]
    exact hd'

theorem CardExt.new_with_rank_suit_rank {r su : Nat} (hr : r < MAX_RANK)
    (hsu : su < MAX_SUIT) : (CardExt.new_with_rank_suit r su).rank = r := by
  have hlt : su * MAX_RANK + r < MAX_CARD := by
    have hr' : r < 13 := hr
    have hsu' : su < 4 := hsu
    show su * 13 + r < 52
    omega
  rw [CardExt.new_with_rank_suit, CardExt.new_with_id_rank _ hlt]
  have hr' : r < 13 := hr
  show (su * 13 + r) % 13 = r
  omega

theorem CardExt.new_with_rank_suit_suit {r su : Nat} (hr : r < MAX_RANK)
    (hsu : su < MAX_SUIT) : (CardExt.new_with_rank_suit r su).suit = su := by
  have hlt : su * MAX_RANK + r < MAX_CARD := by
    have hr' : r < 13 := hr
    have hsu' : su < 4 := hsu
    show su * 13 + r < 52
    omega
  rw [CardExt.new_with_rank_suit, CardExt.new_with_id_suit _ hlt]
  have hr' : r < 13 := hr
  show (su * 13 + r) / 13 = su
  omega

/-- C8 (amended: the initial board's third foundation slot must be empty;
`set_board`'s sentinel `MAX_SUIT = 4` collides with the pile index
`PILE_FOUNDATION_START + 2 = 4`, see `C8_invariant_counterexample`): in every
state reached from `set_board` on a valid board with foundation slot 2 empty
by applying moves produced by `compute_possible_moves`, every non-empty
foundation pile holds cards of a single suit whose ranks, bottom to top, are
exactly `0..size-1`. -/
theorem C8_foundation_runs (b : Board) (s : Solver)
    (hb : b.is_valid = true)
    (hslot2 : b.foundations.getD 2 none = none)
    (hr : Reachable (setBoard b) s) :
    ∀ fi, isFoundation fi → (s.piles fi).size ≠ 0 →
      ∃ su, su < MAX_SUIT
        ∧ (s.piles fi).cards.map CardExt.rank = List.range (s.piles fi).size
        ∧ ∀ c ∈ (s.piles fi).cards, c.suit = su := by
  have hdc : (setBoard b).draw_count ≠ 0 := by
    show b.drawCount ≠ 0
    rcases Board.drawCount_mem b with h | h <;> omega
  obtain ⟨⟨hW, hmaps, hinj, hsurj, hrun⟩, -⟩ :=
    Reachable_Inv hr (setBoard_Inv b hb hslot2) hdc
  intro fi hfi _hne
  obtain ⟨su, hsu, heq⟩ := hsurj fi hfi
  obtain ⟨hrun', hlen⟩ := hrun su hsu
  rw [heq] at hrun' hlen
  rw [foundationRun] at hrun'
  refine ⟨su, hsu, ?_, ?_⟩
  · have hsz : (s.piles fi).size = (s.piles fi).cards.length := rfl
    rw [hsz, hrun', List.map_map, List.length_map, List.length_range]
    have hcong : ∀ r ∈ List.range ((s.piles fi).cards.length),
        (CardExt.rank ∘ fun r => CardExt.new_with_rank_suit r su) r = id r := by
      intro r hrmem
      have hrlt : r < (s.piles fi).cards.length := List.mem_range.mp hrmem
      show (CardExt.new_with_rank_suit r su).rank = r
      exact CardExt.new_with_rank_suit_rank (by omega) hsu
    rw [List.map_congr_left hcong, List.map_id]
  · intro c hc
    rw [hrun'] at hc
    obtain ⟨r, hrm, rfl⟩ := List.mem_map.mp hc
    have hrlt : r < (s.piles fi).cards.length := List.mem_range.mp hrm
    exact CardExt.new_with_rank_suit_suit (by omega) hsu

/-- A valid board: ace of clubs on foundation slot 0, all other cards in the
stock. -/
def c8WitnessBoard : Board :=
  { stock := ((List.range 52).filter (fun i => !(i == 0))).map Card.mk
    waste := ⟨[], 0⟩
    foundations := [some ⟨0⟩, none, none, none]
    tableaus := [⟨[], 0⟩, ⟨[], 0⟩, ⟨[], 0⟩, ⟨[], 0⟩, ⟨[], 0⟩, ⟨[], 0⟩, ⟨[], 0⟩]
    draw_count := 1 }

/-- Witness for C8: at `set_board` of `c8WitnessBoard`, foundation pile 2 is
non-empty and is a single-suit run. -/
theorem C8_foundation_runs_witness :
    c8WitnessBoard.is_valid = true
      ∧ c8WitnessBoard.foundations.getD 2 none = none
      ∧ isFoundation 2
      ∧ ((setBoard c8WitnessBoard).piles 2).size ≠ 0
      ∧ ∃ su, su < MAX_SUIT
        ∧ ((setBoard c8WitnessBoard).piles 2).cards.map CardExt.rank
            = List.range ((setBoard c8WitnessBoard).piles 2).size
        ∧ ∀ c ∈ ((setBoard c8WitnessBoard).piles 2).cards, c.suit = su :=
  ⟨by decide, by decide, by decide, by decide,
    C8_foundation_runs c8WitnessBoard (setBoard c8WitnessBoard) (by decide) (by decide)
      Reachable.refl 2 (by decide) (by decide)⟩

/-- The board that triggers the `set_board` sentinel collision: the ace of
spades sits on foundation slot 2 (solver pile 4), the two of hearts is the
only face-up tableau card, everything else is in the stock. -/
def c8CexBoard : Board :=
  { stock := ((List.range 52).filter (fun i => !(i == 26) && !(i == 40))).map Card.mk
    waste := ⟨[], 0⟩
    foundations := [none, none, some ⟨26⟩, none]
    tableaus := [⟨[], 0⟩, ⟨[], 0⟩, ⟨[], 0⟩, ⟨[], 0⟩, ⟨[], 0⟩, ⟨[], 0⟩, ⟨[⟨40⟩], 1⟩]
    draw_count := 1 }

/-- Counterexample to the claim as stated: `c8CexBoard` is a valid board, yet
after `set_board` (which maps hearts to pile 4, the pile holding the spade
run, because the sentinel `MAX_SUIT = 4` collides with the pile index
`PILE_FOUNDATION_START + 2 = 4`) the move generator emits the move
`(12, 4, 1)`, and applying it leaves foundation pile 4 non-empty with two
different suits. -/
theorem C8_invariant_counterexample :
    c8CexBoard.is_valid = true
      ∧ Reachable (setBoard c8CexBoard)
          ((setBoard c8CexBoard).make_move ⟨12, 4, 1, false⟩)
      ∧ isFoundation 4
      ∧ (((setBoard c8CexBoard).make_move ⟨12, 4, 1, false⟩).piles 4).size ≠ 0
      ∧ ¬ ∃ su, su < MAX_SUIT
          ∧ ∀ c ∈ (((setBoard c8CexBoard).make_move ⟨12, 4, 1, false⟩).piles 4).cards,
              c.suit = su :=
  ⟨by decide,
    Reachable.step (setBoard c8CexBoard) ⟨12, 4, 1, false⟩ Reachable.refl (by decide),
    by decide, by decide, by decide⟩

end Klondike
